import Mathlib

/-!
Shallow embedding of the fortress-and-territories rule engine
(`src/core/types/coord.py`, `src/core/entities/world_entity/world.py`,
`src/core/entities/faction_entity/faction.py`, `src/utils/build/*.py`,
`src/building/build_validator.py`, `src/services/move_executor.py`,
`src/ai/target_selector.py`, `src/ai/ai_controller.py`) together with
theorems settling the frozen claims about it.

Modelling conventions:
* Python `int` is `Int` (coordinates) / `Nat` (sizes, rounds, costs where
  the source only ever produces non-negative values are still kept as the
  source computes them).
* Python `set[Coord]` is `Finset Coord`; `dict` preserving insertion order
  is an association `List` keyed by the first component.
* Python object references into the faction list (`BuildResult.owner`,
  `context.my_faction`) are indices into that list, so that aliasing and
  in-place mutation are represented by functional updates of the list.
* Python float scores in the AI target selector are embedded as `Rat`
  (exact arithmetic); the claims settled here never depend on rounding.
* The repository holds two historical `Faction`/`World` shapes; following
  the canonical dict-of-sets shape (`faction_entity/faction.py`,
  `world_entity/world.py`) that the engine's tests construct, `base` is a
  plain coordinate and `owner.base.coord` in `move_executor.py` denotes
  that coordinate.
-/

/-- `Coord` from `src/core/types/coord.py`: immutable integer pair. -/
structure Coord where
  x : Int
  y : Int
deriving DecidableEq, Repr

namespace Coord

/-- `Coord.neighbors`: orthogonal neighbours in source order
(+x, -x, +y, -y). -/
def neighbors (c : Coord) : List Coord :=
  [⟨c.x + 1, c.y⟩, ⟨c.x - 1, c.y⟩, ⟨c.x, c.y + 1⟩, ⟨c.x, c.y - 1⟩]

/-- `Coord.manhattan_distance`. -/
def manhattan_distance (c other : Coord) : Int :=
  (c.x - other.x).natAbs + (c.y - other.y).natAbs

/-- `Coord.in_bounds`. -/
def in_bounds (c : Coord) (width height : Nat) : Bool :=
  0 ≤ c.x && c.x < (width : Int) && 0 ≤ c.y && c.y < (height : Int)

end Coord

/-- `TerrainType` from `src/core/types/enums/terrain.py`. -/
inductive TerrainType where
  | EMPTY | WATER | MOUNTAIN | BRIDGE | TOWER | PORTAL | FOG
deriving DecidableEq, Repr

/- Terrain symbol strings from `src/core/configs/terrain.py`
(`TerrainConfig`). -/
namespace TerrainConfig

def empty : String := " "
def water : String := "~"
def mountain : String := "^"
def tower : String := "T"
def bridge : String := "B"
def portal : String := "H"

end TerrainConfig

/-- `GameModeFlags` from `src/core/states/gamemode.py`. -/
structure GameModeFlags where
  classic : Bool := false
  supply : Bool := false
  mountain_efficiency : Bool := false
deriving DecidableEq, Repr

/-- `GameplayState` from `src/core/states/gameplay.py`. -/
structure GameplayState where
  fog_radius : Int := 5
  tower_vision_radius : Int := 15
  fortress_capture_cost : Int := 3
  bridge_build_cost : Int := 5
  bridge_capture_cost : Int := 1
  actions_per_turn : Int := 6
deriving DecidableEq, Repr

/-- `TileContext` from `src/core/types/tile_context.py`. -/
structure TileContext where
  terrain_type : TerrainType
  base_cost : Int
  is_water : Bool
  is_bridge : Bool
  is_tower : Bool
  is_portal : Bool
  is_mountain : Bool
deriving DecidableEq, Repr

/-- `BuildResult` from `src/core/types/build_result.py`; the `owner`
field holds the index of the owning faction in the faction list (a
Python object reference in the source). -/
structure BuildResult where
  allowed : Bool
  cost : Int := 0
  owner : Option Nat := none
  is_fortress : Bool := false
deriving DecidableEq, Repr

/-- `Faction` (canonical dict-of-sets shape,
`src/core/entities/faction_entity/faction.py`): name, living flag, base
coordinate and the five per-category ownership sets. -/
structure Faction where
  name : String
  base : Coord
  alive : Bool := true
  territory : Finset Coord := ∅
  fortresses : Finset Coord := ∅
  towers : Finset Coord := ∅
  bridges : Finset Coord := ∅
  portals : Finset Coord := ∅
deriving DecidableEq

namespace Faction

/-- `Faction.all_buildings`: union of the five category sets (base
excluded, it is stored separately). -/
def all_buildings (f : Faction) : Finset Coord :=
  f.territory ∪ f.fortresses ∪ f.towers ∪ f.bridges ∪ f.portals

def add_territory (f : Faction) (c : Coord) : Faction :=
  { f with territory := insert c f.territory }

def remove_territory (f : Faction) (c : Coord) : Faction :=
  { f with territory := f.territory.erase c }

def add_fortress (f : Faction) (c : Coord) : Faction :=
  { f with fortresses := insert c f.fortresses }

def remove_fortress (f : Faction) (c : Coord) : Faction :=
  { f with fortresses := f.fortresses.erase c }

def add_tower (f : Faction) (c : Coord) : Faction :=
  { f with towers := insert c f.towers }

def remove_tower (f : Faction) (c : Coord) : Faction :=
  { f with towers := f.towers.erase c }

def add_bridge (f : Faction) (c : Coord) : Faction :=
  { f with bridges := insert c f.bridges }

def remove_bridge (f : Faction) (c : Coord) : Faction :=
  { f with bridges := f.bridges.erase c }

def add_portal (f : Faction) (c : Coord) : Faction :=
  { f with portals := insert c f.portals }

def remove_portal (f : Faction) (c : Coord) : Faction :=
  { f with portals := f.portals.erase c }

/-- Placeholder faction used to make list lookups total; it is dead, so
a stray out-of-range owner index behaves like "no living owner", which
can never arise for resolver-produced indices. -/
def missing : Faction :=
  { name := "", base := ⟨0, 0⟩, alive := false }

end Faction

/-- `World` (canonical shape, `src/core/entities/world_entity/world.py`).
`terrain` is the terrain-symbol dict, the tower registry keeps its keys
in insertion order, the portal registry stores each entry's
`faction_id`, and `portal_links` is the portal-link dict. -/
structure World where
  width : Nat
  height : Nat
  terrain : Coord → Option String := fun _ => none
  towers : List Coord := []
  portals : List (Coord × Option String) := []
  portal_links : List (Coord × Coord) := []

namespace World

/-- `World.in_bounds`. -/
def in_bounds (w : World) (c : Coord) : Bool :=
  c.in_bounds w.width w.height

/-- `World.get_terrain(coord, default)`: out of bounds gives `default`;
in bounds, a missing dict entry falls back to `default` when supplied
and to the empty symbol otherwise. -/
def get_terrain (w : World) (c : Coord) (default : Option String := none) : Option String :=
  if w.in_bounds c then
    some ((w.terrain c).getD (default.getD TerrainConfig.empty))
  else default

/-- `World.set_terrain`. -/
def set_terrain (w : World) (c : Coord) (tile : String) : World :=
  if w.in_bounds c then
    { w with terrain := fun c' => if c' = c then some tile else w.terrain c' }
  else w

/-- `World.is_water`. -/
def is_water (w : World) (c : Coord) : Bool :=
  w.get_terrain c = some TerrainConfig.water

/-- `World.is_mountain`. -/
def is_mountain (w : World) (c : Coord) : Bool :=
  w.get_terrain c = some TerrainConfig.mountain

/-- `World.is_bridge`. -/
def is_bridge (w : World) (c : Coord) : Bool :=
  w.get_terrain c = some TerrainConfig.bridge

/-- `World.is_tower`. -/
def is_tower (w : World) (c : Coord) : Bool :=
  w.get_terrain c = some TerrainConfig.tower

/-- `World.has_neutral_tower`. -/
def has_neutral_tower (w : World) (c : Coord) : Bool :=
  c ∈ w.towers

/-- `World.get_tower_coords`: registry keys in insertion order. -/
def get_tower_coords (w : World) : List Coord :=
  w.towers

/-- `World.remove_tower`: pop the registry entry. -/
def remove_tower (w : World) (c : Coord) : World :=
  { w with towers := w.towers.filter (fun k => k ≠ c) }

/-- `World.get_portal`: the registry entry's `faction_id`, when an entry
exists. -/
def get_portal (w : World) (c : Coord) : Option (Option String) :=
  (w.portals.find? (fun e => e.1 = c)).map (·.2)

/-- `portal.faction_id = name` on the entry at `c`, when one exists. -/
def tag_portal (w : World) (c : Coord) (name : String) : World :=
  { w with portals := w.portals.map (fun e => if e.1 = c then (e.1, some name) else e) }

/-- `world.portal_links.get(cell)` / `cell in world.portal_links`. -/
def link_of (w : World) (c : Coord) : Option Coord :=
  (w.portal_links.find? (fun e => e.1 = c)).map (·.2)

/-- `World.get_move_cost`: water 999, mountain 2, otherwise 1. -/
def get_move_cost (w : World) (c : Coord) : Int :=
  let tile := (w.get_terrain c (some TerrainConfig.empty)).getD TerrainConfig.empty
  if tile = TerrainConfig.water then 999
  else if tile = TerrainConfig.mountain then 2
  else 1

/-- `World.build_bridge`: convert a water tile into a bridge. -/
def build_bridge (w : World) (c : Coord) : World :=
  if w.is_water c then w.set_terrain c TerrainConfig.bridge else w

/-- `World.get_terrain_type`: map the stored symbol to the enum; unknown
symbols (including fog) collapse to `EMPTY`. -/
def get_terrain_type (w : World) (c : Coord) : TerrainType :=
  let tile := (w.get_terrain c (some TerrainConfig.empty)).getD TerrainConfig.empty
  if tile = TerrainConfig.empty then TerrainType.EMPTY
  else if tile = TerrainConfig.water then TerrainType.WATER
  else if tile = TerrainConfig.mountain then TerrainType.MOUNTAIN
  else if tile = TerrainConfig.bridge then TerrainType.BRIDGE
  else if tile = TerrainConfig.tower then TerrainType.TOWER
  else if tile = TerrainConfig.portal then TerrainType.PORTAL
  else TerrainType.EMPTY

end World

/-- `OwnerInfo` from `src/utils/build/ownership.py`; the owner is an
index into the faction list. -/
structure OwnerInfo where
  owner : Option Nat
  is_fortress : Bool
deriving DecidableEq, Repr

namespace OwnerResolver

/-- `OwnerResolver._classify_owner`: does `faction` control `coord`, and
is the holding fortress-tier? -/
def classify_owner (coord : Coord) (faction : Faction) (world : World) :
    Option Bool :=
  if coord = faction.base then some false
  else if coord ∈ faction.fortresses then some true
  else if coord ∈ faction.territory then
    if world.get_terrain_type coord = TerrainType.BRIDGE ∨
        world.get_terrain_type coord = TerrainType.PORTAL ∨
        world.get_terrain_type coord = TerrainType.TOWER then some true
    else some false
  else if coord ∈ faction.towers ∨ coord ∈ faction.bridges ∨ coord ∈ faction.portals then
    some true
  else none

/-- One pass of `OwnerResolver._find_owner` starting at list index `i`:
skips factions equal to the querying one, keeps only living factions on
the `alive_first` pass and only dead ones on the second pass. -/
def find_owner_from (coord : Coord) (my_faction : Faction) (factions : List Faction)
    (world : World) (alive_first : Bool) (i : Nat) : Option Nat × Bool :=
  match factions with
  | [] => (none, false)
  | faction :: rest =>
    if faction = my_faction then
      find_owner_from coord my_faction rest world alive_first (i + 1)
    else if alive_first ∧ ¬faction.alive then
      find_owner_from coord my_faction rest world alive_first (i + 1)
    else if ¬alive_first ∧ faction.alive then
      find_owner_from coord my_faction rest world alive_first (i + 1)
    else
      match classify_owner coord faction world with
      | some is_fortress => (some i, is_fortress)
      | none => find_owner_from coord my_faction rest world alive_first (i + 1)

/-- `OwnerResolver._find_owner`. -/
def find_owner (coord : Coord) (my_faction : Faction) (factions : List Faction)
    (world : World) (alive_first : Bool) : Option Nat × Bool :=
  find_owner_from coord my_faction factions world alive_first 0

/-- `OwnerResolver.resolve`: first search living factions, then dead
ones. -/
def resolve (coord : Coord) (my_faction : Faction) (factions : List Faction)
    (world : World) : OwnerInfo :=
  let first := find_owner coord my_faction factions world true
  match first.1 with
  | some i => ⟨some i, first.2⟩
  | none =>
    let second := find_owner coord my_faction factions world false
    ⟨second.1, second.2⟩

end OwnerResolver

namespace CostCalculator

/-- `CostCalculator.compute_base_cost` from `src/utils/build/cost.py`. -/
def compute_base_cost (tile : TileContext) (owner : Option Nat)
    (is_fortress : Bool) (gameplay_state : GameplayState) : Int :=
  if tile.is_water ∧ owner = none then gameplay_state.bridge_build_cost
  else if tile.is_bridge ∧ owner ≠ none then gameplay_state.bridge_capture_cost
  else if tile.is_tower ∨ tile.is_portal then 1
  else if is_fortress then gameplay_state.fortress_capture_cost
  else tile.base_cost

end CostCalculator

/-- Bounded worklist loop shared by the two breadth-first searches in
`src/utils/build/reachability.py`: pop the queue head, return `true` as
soon as the per-cell success test fires, otherwise enqueue the newly
discovered cells produced by `expand` (which receives the current
visited set).  The fuel argument is a bound on loop iterations; the
checkers below supply fuel that provably never runs out. -/
def bfsLoop (succ : Coord → Bool) (expand : Finset Coord → Coord → List Coord) :
    Nat → Finset Coord → List Coord → Bool
  | 0, _, _ => false
  | fuel + 1, visited, queue =>
    match queue with
    | [] => false
    | cur :: rest =>
      if succ cur then true
      else
        let discovered := expand visited cur
        bfsLoop succ expand fuel (visited ∪ discovered.toFinset) (rest ++ discovered)

namespace ReachabilityChecker

/-- Success test of `_check_fortress_connection`'s loop body: some
neighbour of the current cell is the base or a territory cell. -/
def fortress_succ (faction : Faction) (cur : Coord) : Bool :=
  cur.neighbors.any (fun n => decide (n = faction.base ∨ n ∈ faction.territory))

/-- Enqueue rule of `_check_fortress_connection`: unvisited fortress
neighbours. -/
def fortress_expand (faction : Faction) (visited : Finset Coord) (cur : Coord) :
    List Coord :=
  cur.neighbors.filter (fun n => decide (n ∈ faction.fortresses ∧ n ∉ visited))

/-- `ReachabilityChecker._check_fortress_connection`. -/
def check_fortress_connection (start : Coord) (faction : Faction) : Bool :=
  bfsLoop (fortress_succ faction) (fortress_expand faction)
    (faction.fortresses.card + 1) {start} [start]

/-- Enqueue rule of `_check_supply_connection`'s loop body, processing
the current cell's neighbours in order: an unvisited territory/fortress
neighbour is enqueued, and when that neighbour sits in the portal-link
table its unvisited territory/fortress partner is enqueued right after
it. -/
def supply_nbrs (faction : Faction) (world : World) :
    List Coord → Finset Coord → List Coord
  | [], _ => []
  | n :: rest, visited =>
    if n ∈ faction.territory ∨ n ∈ faction.fortresses then
      if n ∉ visited then
        match world.link_of n with
        | some linked =>
          if (linked ∈ faction.territory ∨ linked ∈ faction.fortresses) ∧
              linked ∉ insert n visited then
            n :: linked :: supply_nbrs faction world rest (insert linked (insert n visited))
          else
            n :: supply_nbrs faction world rest (insert n visited)
        | none => n :: supply_nbrs faction world rest (insert n visited)
      else supply_nbrs faction world rest visited
    else supply_nbrs faction world rest visited

/-- Success test of `_check_supply_connection`: the searched cell is a
neighbour of the current cell. -/
def supply_succ (cell : Coord) (cur : Coord) : Bool :=
  cur.neighbors.any (fun n => decide (n = cell))

/-- `ReachabilityChecker._check_supply_connection`. -/
def check_supply_connection (cell : Coord) (faction : Faction) (world : World) :
    Bool :=
  if cell = faction.base then true
  else if ¬(cell ∈ faction.territory ∨ cell ∈ faction.fortresses) then false
  else
    bfsLoop (supply_succ cell)
      (fun visited cur => supply_nbrs faction world cur.neighbors visited)
      ((faction.territory ∪ faction.fortresses).card + 1)
      {faction.base} [faction.base]

/-- `ReachabilityChecker._is_source_active`. -/
def is_source_active (cell : Coord) (faction : Faction) (world : World)
    (supply_mode : Bool) : Bool :=
  if cell = faction.base then true
  else if supply_mode then
    match world.link_of cell with
    | some linked =>
      if (linked ∈ faction.fortresses ∨ linked ∈ faction.territory) ∧
          check_supply_connection linked faction world then true
      else check_supply_connection cell faction world
    | none => check_supply_connection cell faction world
  else if cell ∈ faction.territory then true
  else if cell ∈ faction.fortresses then
    if (world.link_of cell).isSome then true
    else check_fortress_connection cell faction
  else if cell ∈ faction.towers ∨ cell ∈ faction.bridges ∨ cell ∈ faction.portals then
    true
  else false

/-- `ReachabilityChecker._has_reachable_source`. -/
def has_reachable_source (target_cell : Coord) (faction : Faction)
    (my_cells : Finset Coord) (world : World) (supply_mode : Bool) : Bool :=
  target_cell.neighbors.any
    (fun n => decide (n ∈ my_cells) && is_source_active n faction world supply_mode)

/-- `ReachabilityChecker.has_reachable_source_default`. -/
def has_reachable_source_default (target_cell : Coord) (faction : Faction)
    (my_cells : Finset Coord) (world : World) : Bool :=
  has_reachable_source target_cell faction my_cells world false

/-- `ReachabilityChecker.has_reachable_source_supply`. -/
def has_reachable_source_supply (target_cell : Coord) (faction : Faction)
    (my_cells : Finset Coord) (world : World) : Bool :=
  has_reachable_source target_cell faction my_cells world true

end ReachabilityChecker

namespace BuildValidator

/-- `BuildValidator._build_tile_context`. -/
def build_tile_context (coord : Coord) (world : World) : TileContext :=
  let terrain_type := world.get_terrain_type coord
  { terrain_type := terrain_type
    base_cost := world.get_move_cost coord
    is_water := world.is_water coord
    is_bridge := world.is_bridge coord
    is_tower := world.is_tower coord || world.has_neutral_tower coord
    is_portal := terrain_type = TerrainType.PORTAL
    is_mountain := terrain_type = TerrainType.MOUNTAIN }

/-- `BuildValidator._is_impassable`. -/
def is_impassable (tile : TileContext) : Bool :=
  tile.base_cost ≥ 999 && !tile.is_water

/-- `BuildValidator._is_own_cell`. -/
def is_own_cell (target_cell : Coord) (my_cells : Finset Coord) : Bool :=
  target_cell ∈ my_cells

/-- `BuildValidator._can_capture`; the owner's living flag is read
through its index in the faction list. -/
def can_capture (factions : List Faction) (owner_info : OwnerInfo)
    (flags : GameModeFlags) : Bool :=
  if flags.classic then
    match owner_info.owner with
    | some i =>
      !(owner_info.is_fortress && (factions.getD i Faction.missing).alive)
    | none => true
  else true

/-- `BuildValidator._has_reachable_source`: policy selected by the
supply flag. -/
def has_reachable_source (target_cell : Coord) (faction : Faction)
    (my_cells : Finset Coord) (world : World) (flags : GameModeFlags) : Bool :=
  if flags.supply then
    ReachabilityChecker.has_reachable_source_supply target_cell faction my_cells world
  else
    ReachabilityChecker.has_reachable_source_default target_cell faction my_cells world

/-- `BuildValidator._adjust_cost`. -/
def adjust_cost (base_cost : Int) (coord : Coord) (tile : TileContext)
    (converted_mountains : Finset Coord) (flags : GameModeFlags) : Int :=
  if flags.mountain_efficiency ∧ tile.is_mountain ∧ coord ∈ converted_mountains then
    min base_cost 1
  else base_cost

/-- `BuildValidator.validate`. -/
def validate (gameplay_state : GameplayState) (target_cell : Coord)
    (my_faction : Faction) (all_factions : List Faction) (world : World)
    (flags : GameModeFlags) (converted_mountains : Finset Coord := ∅) :
    BuildResult :=
  let tile := build_tile_context target_cell world
  if is_impassable tile then { allowed := false }
  else
    let my_cells := my_faction.all_buildings ∪ {my_faction.base}
    if is_own_cell target_cell my_cells then { allowed := false }
    else
      let owner_info := OwnerResolver.resolve target_cell my_faction all_factions world
      if ¬can_capture all_factions owner_info flags then
        { allowed := false, owner := owner_info.owner, is_fortress := true }
      else if ¬has_reachable_source target_cell my_faction my_cells world flags then
        { allowed := false, owner := owner_info.owner,
          is_fortress := owner_info.is_fortress }
      else
        let base_cost := CostCalculator.compute_base_cost tile owner_info.owner
          owner_info.is_fortress gameplay_state
        let final_cost := adjust_cost base_cost target_cell tile
          converted_mountains flags
        { allowed := true, cost := final_cost, owner := owner_info.owner,
          is_fortress := owner_info.is_fortress }

end BuildValidator

/-- `EventLog` from `src/services/event_log.py`: bounded buffer, oldest
entry dropped when over capacity. -/
structure EventLog where
  capacity : Nat := 20
  events : List String := []
deriving DecidableEq, Repr

/-- `EventLog.add`. -/
def EventLog.add (log : EventLog) (message : String) : EventLog :=
  let events := log.events ++ [message]
  { log with events := if log.capacity < events.length then events.tail else events }

/-- `MoveContext` from `src/services/move_executor.py`; `my_faction` is
the index of the acting faction inside `factions` (a shared object
reference in the source). -/
structure MoveContext where
  my_faction : Nat
  factions : List Faction
  world : World
  flags : GameModeFlags
  converted_mountains : Finset Coord := ∅
  captured_towers : Finset Coord := ∅
  event_log : EventLog := {}
  current_round : Nat := 0
  fortress_ages : Option (List (Coord × Nat)) := none

namespace MoveContext

/-- Dereference a faction index (total; theorems always supply in-range
indices). -/
def faction (ctx : MoveContext) (i : Nat) : Faction :=
  ctx.factions.getD i Faction.missing

/-- In-place mutation of the faction object at index `i`. -/
def modifyFaction (ctx : MoveContext) (i : Nat) (g : Faction → Faction) :
    MoveContext :=
  { ctx with factions := ctx.factions.set i (g (ctx.faction i)) }

end MoveContext

namespace MoveExecutor

/-- The per-faction part of `_remove_from_faction_structures`: strip
`coord` from each of the faction's five sets (each removal guarded by a
membership test, as in the source). -/
def strip_structures (f : Faction) (coord : Coord) : Faction :=
  let f := if coord ∈ f.territory then f.remove_territory coord else f
  let f := if coord ∈ f.fortresses then f.remove_fortress coord else f
  let f := if coord ∈ f.towers then f.remove_tower coord else f
  let f := if coord ∈ f.bridges then f.remove_bridge coord else f
  if coord ∈ f.portals then f.remove_portal coord else f

/-- `MoveExecutor._remove_from_faction_structures`: strip `coord` from
each of the faction's five sets, and delete its fortress-age entry (the
source guards the deletion behind Python truthiness of the age dict,
which also rules out the empty dict — where deletion is a no-op
anyway). -/
def remove_from_faction_structures (i : Nat) (coord : Coord)
    (ctx : MoveContext) : MoveContext :=
  let ctx := ctx.modifyFaction i (fun f => strip_structures f coord)
  match ctx.fortress_ages with
  | some ages =>
    if ages ≠ [] ∧ ages.any (fun e => e.1 = coord) then
      { ctx with fortress_ages := some (ages.filter (fun e => e.1 ≠ coord)) }
    else ctx
  | none => ctx

/-- `MoveExecutor._record_fortress_age`: written only under the classic
flag and only when an age dict was supplied. -/
def record_fortress_age (coord : Coord) (ctx : MoveContext) : MoveContext :=
  if ¬ctx.flags.classic then ctx
  else
    match ctx.fortress_ages with
    | none => ctx
    | some ages =>
      { ctx with
        fortress_ages :=
          some (if ages.any (fun e => e.1 = coord) then
              ages.map (fun e => if e.1 = coord then (e.1, ctx.current_round) else e)
            else ages ++ [(coord, ctx.current_round)]) }

/-- `MoveExecutor._add_fortress` applied to the faction at index `i`. -/
def add_fortress (i : Nat) (coord : Coord) (ctx : MoveContext)
    (track_age : Bool) : MoveContext :=
  let ctx := ctx.modifyFaction i (fun f => f.add_fortress coord)
  if track_age then record_fortress_age coord ctx else ctx

/-- `MoveExecutor._capture_tower`. -/
def capture_tower (cell : Coord) (ctx : MoveContext) : MoveContext :=
  let ctx := { ctx with world := ctx.world.remove_tower cell }
  let ctx := ctx.modifyFaction ctx.my_faction (fun f => f.add_tower cell)
  let ctx := add_fortress ctx.my_faction cell ctx true
  if cell ∉ ctx.captured_towers then
    { ctx with
      captured_towers := insert cell ctx.captured_towers,
      event_log :=
        ctx.event_log.add
          ((ctx.faction ctx.my_faction).name.toUpper ++ " CAPTURED TOWER!") }
  else ctx

/-- The strip/add/tag sequence `_capture_portal` performs on one portal
endpoint: strip the endpoint from every other faction, add it to the
acting faction's portal and fortress sets, and tag any neutral portal
registry entry with the acting faction's name. -/
def capture_portal_one (cell : Coord) (ctx : MoveContext) : MoveContext :=
  let ctx :=
    (List.range ctx.factions.length).foldl
      (fun acc j =>
        if j ≠ acc.my_faction then remove_from_faction_structures j cell acc
        else acc)
      ctx
  let ctx := ctx.modifyFaction ctx.my_faction (fun f => f.add_portal cell)
  let ctx := add_fortress ctx.my_faction cell ctx true
  match ctx.world.get_portal cell with
  | some _ => { ctx with world := ctx.world.tag_portal cell (ctx.faction ctx.my_faction).name }
  | none => ctx

/-- `MoveExecutor._capture_portal`: the full sequence on the target, then
— when the target has a linked partner — the same sequence on the
partner in the same call. -/
def capture_portal (cell : Coord) (ctx : MoveContext) : MoveContext :=
  let ctx := capture_portal_one cell ctx
  match ctx.world.link_of cell with
  | some linked => capture_portal_one linked ctx
  | none => ctx

/-- `MoveExecutor._cleanup_dead_factions`. -/
def cleanup_dead_factions (cell : Coord) (ctx : MoveContext) : MoveContext :=
  (List.range ctx.factions.length).foldl
    (fun acc j =>
      if ¬(acc.faction j).alive then remove_from_faction_structures j cell acc
      else acc)
    ctx

/-- `MoveExecutor._handle_capture_from_owner` (owner alive). -/
def handle_capture_from_owner (cell : Coord) (owner : Nat)
    (ctx : MoveContext) (is_portal is_tower is_bridge : Prop)
    [Decidable is_portal] [Decidable is_tower] [Decidable is_bridge] :
    MoveContext :=
  if cell = (ctx.faction owner).base then
    let ctx := ctx.modifyFaction owner (fun f => { f with alive := false })
    let ctx := add_fortress ctx.my_faction cell ctx false
    { ctx with
      event_log := ctx.event_log.add ((ctx.faction owner).name ++ " DEFEATED!") }
  else
    let ctx := remove_from_faction_structures owner cell ctx
    if is_portal then capture_portal cell ctx
    else if is_tower then capture_tower cell ctx
    else
      let ctx :=
        if is_bridge then ctx.modifyFaction ctx.my_faction (fun f => f.add_bridge cell)
        else ctx
      add_fortress ctx.my_faction cell ctx true

/-- `MoveExecutor.apply`. -/
def apply (cell : Coord) (result : BuildResult) (ctx : MoveContext) :
    MoveContext :=
  let terrain_type := ctx.world.get_terrain_type cell
  let is_water := terrain_type = TerrainType.WATER
  let is_bridge := terrain_type = TerrainType.BRIDGE
  let is_portal := terrain_type = TerrainType.PORTAL
  let is_mountain := terrain_type = TerrainType.MOUNTAIN
  let is_tower_tile := terrain_type = TerrainType.TOWER
  let has_neutral_tower := ctx.world.has_neutral_tower cell
  let is_tower := is_tower_tile ∨ has_neutral_tower
  let ctx :=
    match result.owner with
    | some i =>
      if (ctx.faction i).alive then
        handle_capture_from_owner cell i ctx is_portal is_tower is_bridge
      else apply_no_living_owner cell result ctx is_water is_bridge is_portal is_tower
    | none =>
      apply_no_living_owner cell result ctx is_water is_bridge is_portal is_tower
  if is_mountain ∧ ctx.flags.mountain_efficiency then
    { ctx with converted_mountains := insert cell ctx.converted_mountains }
  else ctx
where
  /-- The `else` branch of `apply`: no living owner. -/
  apply_no_living_owner (cell : Coord) (result : BuildResult)
      (ctx : MoveContext) (is_water is_bridge is_portal is_tower : Prop)
      [Decidable is_water] [Decidable is_bridge] [Decidable is_portal]
      [Decidable is_tower] : MoveContext :=
    let ctx := cleanup_dead_factions cell ctx
    if is_water then
      let ctx := { ctx with world := ctx.world.build_bridge cell }
      let ctx := ctx.modifyFaction ctx.my_faction (fun f => f.add_bridge cell)
      add_fortress ctx.my_faction cell ctx true
    else if is_tower then capture_tower cell ctx
    else if is_portal then capture_portal cell ctx
    else if result.is_fortress ∨ is_bridge then
      let ctx :=
        if is_bridge then ctx.modifyFaction ctx.my_faction (fun f => f.add_bridge cell)
        else ctx
      add_fortress ctx.my_faction cell ctx true
    else ctx.modifyFaction ctx.my_faction (fun f => f.add_territory cell)

end MoveExecutor

/-- `AIHelper.distance` from `src/utils/ai/ai_helper.py`. -/
def AIHelper.distance (p1 p2 : Coord) : Int :=
  p1.manhattan_distance p2

/-- Total order on coordinates used to enumerate a Python set (whose
iteration order is unspecified; no settled claim depends on the order
chosen here). -/
def Coord.le (a b : Coord) : Prop :=
  a.x < b.x ∨ (a.x = b.x ∧ a.y ≤ b.y)

instance : DecidableRel Coord.le := fun a b => by
  unfold Coord.le; infer_instance

instance : IsTrans Coord Coord.le :=
  ⟨by intro a b c hab hbc; unfold Coord.le at *; omega⟩

instance : IsAntisymm Coord Coord.le :=
  ⟨by
    intro a b hab hba
    obtain ⟨ax, ay⟩ := a
    obtain ⟨bx, c⟩ := b
    simp only [Coord.le] at hab hba
    simp only [Coord.mk.injEq]
    omega⟩

instance : IsTotal Coord Coord.le :=
  ⟨by intro a b; unfold Coord.le; omega⟩

/-- Deterministic enumeration of a coordinate set (insertion sort, so
that concrete instances reduce inside the kernel). -/
def coordList (s : Finset Coord) : List Coord :=
  Quotient.liftOn s.val (fun l => List.insertionSort Coord.le l)
    (fun a b hab =>
      List.eq_of_perm_of_sorted
        ((List.perm_insertionSort Coord.le a).trans
          (hab.trans (List.perm_insertionSort Coord.le b).symm))
        (List.sorted_insertionSort Coord.le a)
        (List.sorted_insertionSort Coord.le b))

namespace TargetSelector

/-- Enemy cell collection used by the selector heuristics:
`territory | fortresses | {base}`. -/
def enemy_cells (faction : Faction) : Finset Coord :=
  faction.territory ∪ faction.fortresses ∪ {faction.base}

/-- Threat scan of `TargetSelector.select_target`, one faction's cells:
track the minimum weighted threat score (strict improvement, so earlier
cells win ties; Python set iteration order is fixed here as the
`Finset` order, which no settled claim depends on). -/
def scan_threat_cells (me : Faction) (visible_cells : Option (Finset Coord))
    (power_factor : Rat) (cells : List Coord)
    (best : Option (Coord × Rat)) : Option (Coord × Rat) :=
  match cells with
  | [] => best
  | cell :: rest =>
    if visible_cells.isSome ∧ cell ∉ visible_cells.getD ∅ then
      scan_threat_cells me visible_cells power_factor rest best
    else
      let dist := AIHelper.distance cell me.base
      if dist < 12 then
        let threat_score := (dist : Rat) * (1 + power_factor * (1 / 2))
        match best with
        | some (_, s) =>
          if threat_score < s then
            scan_threat_cells me visible_cells power_factor rest
              (some (cell, threat_score))
          else scan_threat_cells me visible_cells power_factor rest best
        | none =>
          scan_threat_cells me visible_cells power_factor rest
            (some (cell, threat_score))
      else scan_threat_cells me visible_cells power_factor rest best

/-- `TargetSelector.select_target`; `me_idx` is the acting faction's
index (the source's `faction is me` identity test). -/
def select_target (me_idx : Nat) (factions : List Faction)
    (visible_cells : Option (Finset Coord)) : Option Coord :=
  let me := factions.getD me_idx Faction.missing
  let my_power : Nat := me.territory.card + me.fortresses.card
  let threat :=
    (List.range factions.length).foldl
      (fun best j =>
        let faction := factions.getD j Faction.missing
        if j = me_idx ∨ ¬faction.alive then best
        else
          let enemy_power : Nat := faction.territory.card + faction.fortresses.card
          let power_factor : Rat := (enemy_power : Rat) / (max my_power 1 : Nat)
          scan_threat_cells me visible_cells power_factor
            (coordList (enemy_cells faction)) best)
      none
  match threat with
  | some (pos, _) => some pos
  | none =>
    let chosen :=
      (List.range factions.length).foldl
        (fun best j =>
          let faction := factions.getD j Faction.missing
          if j = me_idx ∨ ¬faction.alive then best
          else if visible_cells.isSome ∧
              faction.base ∉ visible_cells.getD ∅ then best
          else
            let enemy_power : Nat := faction.territory.card + faction.fortresses.card
            let dist := AIHelper.distance me.base faction.base
            let score₀ := (dist : Rat) * (1 + (enemy_power : Rat) * (1 / 10))
            let score :=
              if (enemy_power : Rat) < max ((my_power : Rat) * (1 / 2)) 1 then
                score₀ * (7 / 10)
              else score₀
            match best with
            | some (_, s) => if score < s then some (faction.base, score) else best
            | none => some (faction.base, score))
        (none : Option (Coord × Rat))
    chosen.map (fun b => b.1)

/-- `TargetSelector.find_priority_target`: nearest (to the own base)
visible neutral tower or linked portal orthogonally adjacent to an owned
cell; towers are scanned first in registry order, then portal-link keys
in insertion order, with strict improvement. -/
def find_priority_target (me : Faction) (world : World)
    (visible_cells : Option (Finset Coord)) : Option Coord :=
  if visible_cells = none ∨ visible_cells = some ∅ then none
  else
    let visible := visible_cells.getD ∅
    let my_cells := me.territory ∪ me.fortresses ∪ {me.base}
    let best₁ :=
      world.get_tower_coords.foldl
        (fun best tower =>
          if tower ∉ visible then best
          else if (coordList my_cells).any
              (fun cell => AIHelper.distance tower cell = 1) then
            let dist := AIHelper.distance tower me.base
            match best with
            | some (_, d) => if dist < d then some (tower, dist) else best
            | none => some (tower, dist)
          else best)
        (none : Option (Coord × Int))
    let best₂ :=
      (world.portal_links.map (fun e => e.1)).foldl
        (fun best portal =>
          if portal ∉ visible then best
          else if world.get_terrain_type portal ≠ TerrainType.PORTAL then best
          else if (coordList my_cells).any
              (fun cell => AIHelper.distance portal cell = 1) then
            let dist := AIHelper.distance portal me.base
            match best with
            | some (_, d) => if dist < d then some (portal, dist) else best
            | none => some (portal, dist)
          else best)
        best₁
    best₂.map (fun b => b.1)

/-- One faction's contribution to `TargetSelector.needs_base_defense`:
`(found an enemy cell within distance 5, number of enemy cells within
distance 8)` accumulated over the visible enemy cells. -/
def count_near_cells (my_base : Coord) (visible : Finset Coord)
    (cells : List Coord) (acc : Bool × Nat) : Bool × Nat :=
  match cells with
  | [] => acc
  | cell :: rest =>
    if cell ∉ visible then count_near_cells my_base visible rest acc
    else
      let dist := AIHelper.distance cell my_base
      if dist < 8 then
        if dist ≤ 5 then (true, acc.2 + 1)
        else count_near_cells my_base visible rest (acc.1, acc.2 + 1)
      else count_near_cells my_base visible rest acc

/-- `TargetSelector.needs_base_defense`. -/
def needs_base_defense (me_idx : Nat) (factions : List Faction)
    (visible_cells : Option (Finset Coord)) : Bool :=
  if visible_cells = none ∨ visible_cells = some ∅ then false
  else
    let visible := visible_cells.getD ∅
    let me := factions.getD me_idx Faction.missing
    let result :=
      (List.range factions.length).foldl
        (fun acc j =>
          if acc.1 then acc
          else
            let faction := factions.getD j Faction.missing
            if j = me_idx ∨ ¬faction.alive then acc
            else count_near_cells me.base visible (coordList (enemy_cells faction)) acc)
        ((false, 0) : Bool × Nat)
    result.1 ∨ result.2 ≥ 3

end TargetSelector

/-- `AIController._determine_strategy` from `src/ai/ai_controller.py`.
`roam_target` stands in for the randomized
`TargetSelector.select_roaming_target` draw (the module-level random
source, injected here as an oracle so the selection logic stays
deterministic). -/
def AIController.determine_strategy (me_idx : Nat) (factions : List Faction)
    (world : World) (visible_cells : Option (Finset Coord))
    (roam_target : Coord) : Option Coord × Bool :=
  if TargetSelector.needs_base_defense me_idx factions visible_cells then
    (some (factions.getD me_idx Faction.missing).base, false)
  else
    let target := TargetSelector.select_target me_idx factions visible_cells
    let pair :=
      match target with
      | none => (some roam_target, true)
      | some t => (some t, false)
    match TargetSelector.find_priority_target
        (factions.getD me_idx Faction.missing) world visible_cells with
    | some priority => (some priority, false)
    | none => pair

/-- Membership in any of a faction's five per-category ownership sets
(territory, fortress, tower, bridge, portal). -/
def Faction.in_category_sets (f : Faction) (c : Coord) : Prop :=
  c ∈ f.territory ∨ c ∈ f.fortresses ∨ c ∈ f.towers ∨ c ∈ f.bridges ∨ c ∈ f.portals

instance (f : Faction) (c : Coord) : Decidable (f.in_category_sets c) := by
  unfold Faction.in_category_sets; infer_instance

/-- Full ownership of a coordinate: one of the five category sets, or
the faction's base coordinate. -/
def Faction.owns (f : Faction) (c : Coord) : Prop :=
  f.in_category_sets c ∨ c = f.base

instance (f : Faction) (c : Coord) : Decidable (f.owns c) := by
  unfold Faction.owns; infer_instance

/-- Every coordinate is owned (sets or base) by at most one living
faction of the list. -/
def at_most_one_living_owner (factions : List Faction) : Prop :=
  ∀ c i j, i < factions.length → j < factions.length → i ≠ j →
    (factions.getD i Faction.missing).alive = true →
    (factions.getD j Faction.missing).alive = true →
    (factions.getD i Faction.missing).owns c →
    ¬(factions.getD j Faction.missing).owns c

/-- Every coordinate lies in the five per-category ownership sets of at
most one living faction of the list. -/
def at_most_one_living_holder (factions : List Faction) : Prop :=
  ∀ c i j, i < factions.length → j < factions.length → i ≠ j →
    (factions.getD i Faction.missing).alive = true →
    (factions.getD j Faction.missing).alive = true →
    (factions.getD i Faction.missing).in_category_sets c →
    ¬(factions.getD j Faction.missing).in_category_sets c

/-- One breadth-first step of `_check_fortress_connection`: move to an
adjacent fortress cell. -/
def fortressStep (faction : Faction) (a b : Coord) : Prop :=
  b ∈ a.neighbors ∧ b ∈ faction.fortresses

/-- One breadth-first step of `_check_supply_connection` in a world with
no portal links: move to an adjacent territory or fortress cell. -/
def supplyStep (faction : Faction) (a b : Coord) : Prop :=
  b ∈ a.neighbors ∧ (b ∈ faction.territory ∨ b ∈ faction.fortresses)

/- Post-call relation for a non-acting faction: it can only have lost
set members, and only have been killed, never revived. -/
def shadowOf (f g : Faction) : Prop :=
  (g.alive = true → f.alive = true) ∧
  ∀ x, g.in_category_sets x → f.in_category_sets x

def pbFactionA : Faction := { name := "A", base := ⟨0, 0⟩ }

def pbFactionB : Faction := { name := "B", base := ⟨2, 0⟩ }

def pbWorld : World :=
  { width := 3, height := 1,
    terrain := fun c =>
      if c = ⟨1, 0⟩ ∨ c = ⟨2, 0⟩ then some TerrainConfig.portal else none,
    portals := [(⟨1, 0⟩, none), (⟨2, 0⟩, none)],
    portal_links := [(⟨1, 0⟩, ⟨2, 0⟩), (⟨2, 0⟩, ⟨1, 0⟩)] }

def pbCtx : MoveContext :=
  { my_faction := 0, factions := [pbFactionA, pbFactionB], world := pbWorld,
    flags := {} }

def wFactionA : Faction :=
  { name := "A", base := ⟨0, 0⟩, territory := {(⟨1, 0⟩ : Coord)} }

def wFactionB : Faction :=
  { name := "B", base := ⟨3, 0⟩, territory := {(⟨2, 0⟩ : Coord)} }

def wCtx : MoveContext :=
  { my_faction := 0, factions := [wFactionA, wFactionB],
    world := { width := 4, height := 1 }, flags := {} }

/-
Theorems settling the claims, preceded by shared helper lemmas.
-/

/-- C6: `CostCalculator.compute_base_cost` returns exactly the first
matching case of the priority order — water terrain with no owner gives
the bridge-build constant; bridge terrain with an owner the
bridge-capture constant; tower or portal terrain the cost 1;
fortress-tier the fortress-capture constant; otherwise the tile's base
movement cost. -/
theorem cost_priority_order (tile : TileContext) (owner : Option Nat)
    (is_fortress : Bool) (gs : GameplayState) :
    (tile.is_water ∧ owner = none →
      CostCalculator.compute_base_cost tile owner is_fortress gs =
        gs.bridge_build_cost) ∧
    (¬(tile.is_water ∧ owner = none) → tile.is_bridge ∧ owner ≠ none →
      CostCalculator.compute_base_cost tile owner is_fortress gs =
        gs.bridge_capture_cost) ∧
    (¬(tile.is_water ∧ owner = none) → ¬(tile.is_bridge ∧ owner ≠ none) →
      (tile.is_tower ∨ tile.is_portal) →
      CostCalculator.compute_base_cost tile owner is_fortress gs = 1) ∧
    (¬(tile.is_water ∧ owner = none) → ¬(tile.is_bridge ∧ owner ≠ none) →
      ¬(tile.is_tower ∨ tile.is_portal) → is_fortress →
      CostCalculator.compute_base_cost tile owner is_fortress gs =
        gs.fortress_capture_cost) ∧
    (¬(tile.is_water ∧ owner = none) → ¬(tile.is_bridge ∧ owner ≠ none) →
      ¬(tile.is_tower ∨ tile.is_portal) → ¬is_fortress →
      CostCalculator.compute_base_cost tile owner is_fortress gs =
        tile.base_cost) := by
  refine ⟨?_, ?_, ?_, ?_, ?_⟩ <;>
    · intros
      simp only [CostCalculator.compute_base_cost]
      split_ifs <;> simp_all

/-- C6 witness: at a concrete unowned water tile the theorem's first
case yields the bridge-build constant. -/
theorem cost_priority_order_witness :
    CostCalculator.compute_base_cost
      ⟨TerrainType.WATER, 999, true, false, false, false, false⟩ none false {} =
      ({} : GameplayState).bridge_build_cost :=
  (cost_priority_order ⟨TerrainType.WATER, 999, true, false, false, false, false⟩
    none false {}).1 ⟨rfl, rfl⟩

/-- C10: `MoveExecutor.apply` never inspects the `allowed` flag of the
`BuildResult` it is given — two results differing only in `allowed`
produce identical post-states (and hence identical events). -/
theorem apply_ignores_allowed_flag (cell : Coord) (result : BuildResult)
    (b : Bool) (ctx : MoveContext) :
    MoveExecutor.apply cell { result with allowed := b } ctx =
      MoveExecutor.apply cell result ctx := rfl

/-- The impassability rejection of `BuildValidator.validate` can never
fire: `World.get_move_cost` returns 999 exactly on (in-bounds) water,
and water is exempted. -/
theorem is_impassable_false (c : Coord) (w : World) :
    BuildValidator.is_impassable (BuildValidator.build_tile_context c w) = false := by
  simp only [BuildValidator.is_impassable, BuildValidator.build_tile_context,
    World.get_move_cost, World.is_water, World.get_terrain]
  by_cases hb : w.in_bounds c = true
  · by_cases hw : (w.terrain c).getD TerrainConfig.empty = TerrainConfig.water
    · simp [hb, hw]
    · simp [hb, hw]
      split_ifs with h1
      · omega
      · omega
  · simp only [Bool.not_eq_true] at hb
    simp only [hb, Bool.false_eq_true, if_false, Option.getD_none]
    decide

/-- `BuildValidator.validate` with the vacuous impassability branch
removed and the let-bindings expanded, used to reason about the
remaining decision cascade. -/
theorem validate_eq (gs : GameplayState) (target : Coord) (my : Faction)
    (factions : List Faction) (world : World) (flags : GameModeFlags)
    (conv : Finset Coord) :
    BuildValidator.validate gs target my factions world flags conv =
      (if BuildValidator.is_own_cell target (my.all_buildings ∪ {my.base}) then
        { allowed := false }
      else if ¬BuildValidator.can_capture factions
          (OwnerResolver.resolve target my factions world) flags then
        { allowed := false,
          owner := (OwnerResolver.resolve target my factions world).owner,
          is_fortress := true }
      else if ¬BuildValidator.has_reachable_source target my
          (my.all_buildings ∪ {my.base}) world flags then
        { allowed := false,
          owner := (OwnerResolver.resolve target my factions world).owner,
          is_fortress := (OwnerResolver.resolve target my factions world).is_fortress }
      else
        { allowed := true,
          cost := BuildValidator.adjust_cost
            (CostCalculator.compute_base_cost
              (BuildValidator.build_tile_context target world)
              (OwnerResolver.resolve target my factions world).owner
              (OwnerResolver.resolve target my factions world).is_fortress gs)
            target (BuildValidator.build_tile_context target world) conv flags,
          owner := (OwnerResolver.resolve target my factions world).owner,
          is_fortress :=
            (OwnerResolver.resolve target my factions world).is_fortress }) := by
  unfold BuildValidator.validate
  simp only [is_impassable_false, Bool.false_eq_true, if_false]

/-- C7: for an otherwise-legal mountain target, `BuildValidator.validate`
returns `min base_cost 1` when the mountain-efficiency flag is set and
the target sits in the discount set, and the unmodified base cost
otherwise; in the claimed 2×1 scenario (single faction at (0,0),
mountain at (1,0), flag set, discount set {(1,0)}) it returns
`allowed = true` with cost 1, and cost 2 when the discount set is
empty. -/
theorem mountain_efficiency_cost (gs : GameplayState) (target : Coord)
    (my : Faction) (factions : List Faction) (world : World)
    (flags : GameModeFlags) (conv : Finset Coord) :
    ((BuildValidator.validate gs target my factions world flags conv).allowed = true →
      flags.mountain_efficiency = true →
      (BuildValidator.build_tile_context target world).is_mountain = true →
      target ∈ conv →
      (BuildValidator.validate gs target my factions world flags conv).cost =
        min (CostCalculator.compute_base_cost
          (BuildValidator.build_tile_context target world)
          (OwnerResolver.resolve target my factions world).owner
          (OwnerResolver.resolve target my factions world).is_fortress gs) 1) ∧
    ((BuildValidator.validate gs target my factions world flags conv).allowed = true →
      ¬(flags.mountain_efficiency = true ∧
        (BuildValidator.build_tile_context target world).is_mountain = true ∧
        target ∈ conv) →
      (BuildValidator.validate gs target my factions world flags conv).cost =
        CostCalculator.compute_base_cost
          (BuildValidator.build_tile_context target world)
          (OwnerResolver.resolve target my factions world).owner
          (OwnerResolver.resolve target my factions world).is_fortress gs) ∧
    (BuildValidator.validate {} ⟨1, 0⟩
      { name := "Blue", base := ⟨0, 0⟩ }
      [{ name := "Blue", base := ⟨0, 0⟩ }]
      { width := 2, height := 1,
        terrain := fun c => if c = ⟨1, 0⟩ then some TerrainConfig.mountain else none }
      { mountain_efficiency := true } {(⟨1, 0⟩ : Coord)} =
      { allowed := true, cost := 1 }) ∧
    (BuildValidator.validate {} ⟨1, 0⟩
      { name := "Blue", base := ⟨0, 0⟩ }
      [{ name := "Blue", base := ⟨0, 0⟩ }]
      { width := 2, height := 1,
        terrain := fun c => if c = ⟨1, 0⟩ then some TerrainConfig.mountain else none }
      { mountain_efficiency := true } ∅ =
      { allowed := true, cost := 2 }) := by
  refine ⟨?_, ?_, by decide, by decide⟩ <;> rw [validate_eq]
  · intro hall hme hmt hmem
    split_ifs at hall ⊢ with h1 h2 h3 <;> simp_all
    simp [BuildValidator.adjust_cost, hme, hmt, hmem]
  · intro hall hnot
    split_ifs at hall ⊢ with h1 h2 h3 <;> simp_all
    simp only [BuildValidator.adjust_cost]
    split_ifs with h4
    · exact absurd h4.2.2 (hnot h4.1 h4.2.1)
    · rfl

/-- C7 witness: the general discount conjunct applied to the concrete
2×1 mountain scenario yields `min 2 1`. -/
theorem mountain_efficiency_cost_witness :
    (BuildValidator.validate {} ⟨1, 0⟩
      { name := "Blue", base := ⟨0, 0⟩ }
      [{ name := "Blue", base := ⟨0, 0⟩ }]
      { width := 2, height := 1,
        terrain := fun c => if c = ⟨1, 0⟩ then some TerrainConfig.mountain else none }
      { mountain_efficiency := true } {(⟨1, 0⟩ : Coord)}).cost =
      min (CostCalculator.compute_base_cost
        (BuildValidator.build_tile_context ⟨1, 0⟩
          { width := 2, height := 1,
            terrain := fun c =>
              if c = ⟨1, 0⟩ then some TerrainConfig.mountain else none })
        (OwnerResolver.resolve ⟨1, 0⟩ { name := "Blue", base := ⟨0, 0⟩ }
          [{ name := "Blue", base := ⟨0, 0⟩ }]
          { width := 2, height := 1,
            terrain := fun c =>
              if c = ⟨1, 0⟩ then some TerrainConfig.mountain else none }).owner
        (OwnerResolver.resolve ⟨1, 0⟩ { name := "Blue", base := ⟨0, 0⟩ }
          [{ name := "Blue", base := ⟨0, 0⟩ }]
          { width := 2, height := 1,
            terrain := fun c =>
              if c = ⟨1, 0⟩ then some TerrainConfig.mountain else none }).is_fortress
        {}) 1 :=
  (mountain_efficiency_cost {} ⟨1, 0⟩ { name := "Blue", base := ⟨0, 0⟩ }
    [{ name := "Blue", base := ⟨0, 0⟩ }]
    { width := 2, height := 1,
      terrain := fun c => if c = ⟨1, 0⟩ then some TerrainConfig.mountain else none }
    { mountain_efficiency := true } {(⟨1, 0⟩ : Coord)}).1
    (by decide) (by decide) (by decide) (by decide)

/-- C2 (amended): provided the target is not one of the acting faction's
own cells, classic mode rejects a living enemy's fortress-tier holding
with the owner and `is_fortress = true` populated, and with
`classic = false` an otherwise-legal target (not own, with an active
adjacent source; impassability can never fire) validates to
`allowed = true`. -/
theorem classic_lock_validation (gs : GameplayState) (target : Coord)
    (my : Faction) (factions : List Faction) (world : World)
    (flags : GameModeFlags) (conv : Finset Coord) (i : Nat) :
    (flags.classic = true →
      BuildValidator.is_own_cell target (my.all_buildings ∪ {my.base}) = false →
      OwnerResolver.resolve target my factions world = ⟨some i, true⟩ →
      (factions.getD i Faction.missing).alive = true →
      BuildValidator.validate gs target my factions world flags conv =
        { allowed := false, owner := some i, is_fortress := true }) ∧
    (flags.classic = false →
      BuildValidator.is_own_cell target (my.all_buildings ∪ {my.base}) = false →
      BuildValidator.has_reachable_source target my (my.all_buildings ∪ {my.base})
        world flags = true →
      (BuildValidator.validate gs target my factions world flags conv).allowed =
        true) := by
  rw [validate_eq]
  constructor
  · intro hc hown hres halive
    have halive' := halive
    simp only [List.getD_eq_getElem?_getD] at halive'
    have hcap : BuildValidator.can_capture factions ⟨some i, true⟩ flags = false := by
      simp [BuildValidator.can_capture, hc, halive']
    rw [hres, hown]
    simp [hcap]
  · intro hc hown hreach
    rw [hown]
    have hcap : BuildValidator.can_capture factions
        (OwnerResolver.resolve target my factions world) flags = true := by
      simp [BuildValidator.can_capture, hc]
    simp [hcap, hreach]

/-- C2 witness: both conjuncts at the claimed 4×1 scenario — faction A
based at (0,0) with territory (1,0), faction B based at (3,0) owning a
fortress at (2,0): classic mode rejects (2,0) with owner B, and conquest
mode allows it. -/
theorem classic_lock_validation_witness :
    (BuildValidator.validate {} ⟨2, 0⟩
      { name := "A", base := ⟨0, 0⟩, territory := {(⟨1, 0⟩ : Coord)} }
      [{ name := "A", base := ⟨0, 0⟩, territory := {(⟨1, 0⟩ : Coord)} },
       { name := "B", base := ⟨3, 0⟩, fortresses := {(⟨2, 0⟩ : Coord)} }]
      { width := 4, height := 1 } { classic := true } ∅ =
      { allowed := false, owner := some 1, is_fortress := true }) ∧
    ((BuildValidator.validate {} ⟨2, 0⟩
      { name := "A", base := ⟨0, 0⟩, territory := {(⟨1, 0⟩ : Coord)} }
      [{ name := "A", base := ⟨0, 0⟩, territory := {(⟨1, 0⟩ : Coord)} },
       { name := "B", base := ⟨3, 0⟩, fortresses := {(⟨2, 0⟩ : Coord)} }]
      { width := 4, height := 1 } {} ∅).allowed = true) :=
  ⟨(classic_lock_validation {} ⟨2, 0⟩
      { name := "A", base := ⟨0, 0⟩, territory := {(⟨1, 0⟩ : Coord)} }
      [{ name := "A", base := ⟨0, 0⟩, territory := {(⟨1, 0⟩ : Coord)} },
       { name := "B", base := ⟨3, 0⟩, fortresses := {(⟨2, 0⟩ : Coord)} }]
      { width := 4, height := 1 } { classic := true } ∅ 1).1
      (by decide) (by decide) (by decide) (by decide),
   (classic_lock_validation {} ⟨2, 0⟩
      { name := "A", base := ⟨0, 0⟩, territory := {(⟨1, 0⟩ : Coord)} }
      [{ name := "A", base := ⟨0, 0⟩, territory := {(⟨1, 0⟩ : Coord)} },
       { name := "B", base := ⟨3, 0⟩, fortresses := {(⟨2, 0⟩ : Coord)} }]
      { width := 4, height := 1 } {} ∅ 1).2
      (by decide) (by decide) (by decide)⟩

/-- C2 counterexample: in a state where the target lies both in the
acting faction's territory and in a living enemy's fortress set, the
target resolves to a living fortress-tier owner, yet classic-mode
validation returns `allowed = false` with `owner = none` — not the
resolved owner the claim requires for every state. -/
theorem classic_lock_counterexample :
    OwnerResolver.resolve ⟨1, 0⟩
        { name := "A", base := ⟨0, 0⟩, territory := {(⟨1, 0⟩ : Coord)} }
        [{ name := "A", base := ⟨0, 0⟩, territory := {(⟨1, 0⟩ : Coord)} },
         { name := "B", base := ⟨3, 0⟩, fortresses := {(⟨1, 0⟩ : Coord)} }]
        { width := 4, height := 1 } =
      ⟨some 1, true⟩ ∧
    ({ name := "B", base := ⟨3, 0⟩,
        fortresses := {(⟨1, 0⟩ : Coord)} } : Faction).alive = true ∧
    BuildValidator.validate {} ⟨1, 0⟩
        { name := "A", base := ⟨0, 0⟩, territory := {(⟨1, 0⟩ : Coord)} }
        [{ name := "A", base := ⟨0, 0⟩, territory := {(⟨1, 0⟩ : Coord)} },
         { name := "B", base := ⟨3, 0⟩, fortresses := {(⟨1, 0⟩ : Coord)} }]
        { width := 4, height := 1 } { classic := true } ∅ =
      { allowed := false } := by decide

/-- C9 (amended): `validate` signals rejection solely through
`allowed = false` (it is a total function), and every rejection of a
target that is not one of the acting faction's own cells carries the
resolved owner and fortress-tier flag. -/
theorem rejection_metadata_best_effort (gs : GameplayState) (target : Coord)
    (my : Faction) (factions : List Faction) (world : World)
    (flags : GameModeFlags) (conv : Finset Coord) (i : Nat) (ft : Bool) :
    BuildValidator.is_own_cell target (my.all_buildings ∪ {my.base}) = false →
    (BuildValidator.validate gs target my factions world flags conv).allowed = false →
    OwnerResolver.resolve target my factions world = ⟨some i, ft⟩ →
    (BuildValidator.validate gs target my factions world flags conv).owner = some i ∧
      (BuildValidator.validate gs target my factions world flags conv).is_fortress =
        ft := by
  rw [validate_eq]
  intro hown hall hres
  rw [hres, hown] at hall ⊢
  by_cases hcap : BuildValidator.can_capture factions ⟨some i, ft⟩ flags = true
  · by_cases hreach : BuildValidator.has_reachable_source target my
        (my.all_buildings ∪ {my.base}) world flags = true
    · simp [hcap, hreach] at hall
    · simp [hcap, hreach]
  · have hft : ft = true := by
      by_contra hft
      simp only [Bool.not_eq_true] at hft
      subst hft
      simp [BuildValidator.can_capture] at hcap
    subst hft
    simp [hcap]

/-- C9 witness: a rejection for lack of a reachable source still carries
the resolved owner (faction 1) and its fortress-tier flag. -/
theorem rejection_metadata_best_effort_witness :
    (BuildValidator.validate {} ⟨3, 0⟩
      { name := "A", base := ⟨0, 0⟩ }
      [{ name := "A", base := ⟨0, 0⟩ },
       { name := "B", base := ⟨5, 0⟩, fortresses := {(⟨3, 0⟩ : Coord)} }]
      { width := 6, height := 1 } {} ∅).owner = some 1 ∧
    (BuildValidator.validate {} ⟨3, 0⟩
      { name := "A", base := ⟨0, 0⟩ }
      [{ name := "A", base := ⟨0, 0⟩ },
       { name := "B", base := ⟨5, 0⟩, fortresses := {(⟨3, 0⟩ : Coord)} }]
      { width := 6, height := 1 } {} ∅).is_fortress = true :=
  rejection_metadata_best_effort {} ⟨3, 0⟩
    { name := "A", base := ⟨0, 0⟩ }
    [{ name := "A", base := ⟨0, 0⟩ },
     { name := "B", base := ⟨5, 0⟩, fortresses := {(⟨3, 0⟩ : Coord)} }]
    { width := 6, height := 1 } {} ∅ 1 true
    (by decide) (by decide) (by decide)

/-- C9 counterexample: a rejected target (the acting faction's own
territory cell) with a resolvable owner among the other factions — the
cell also sits in a living enemy's tower set — yields a `BuildResult`
whose owner field is `none`, not the resolvable owner. -/
theorem rejection_metadata_counterexample :
    OwnerResolver.resolve ⟨1, 0⟩
        { name := "A", base := ⟨0, 0⟩, territory := {(⟨1, 0⟩ : Coord)} }
        [{ name := "A", base := ⟨0, 0⟩, territory := {(⟨1, 0⟩ : Coord)} },
         { name := "B", base := ⟨4, 0⟩, towers := {(⟨1, 0⟩ : Coord)} }]
        { width := 5, height := 1 } =
      ⟨some 1, true⟩ ∧
    (BuildValidator.validate {} ⟨1, 0⟩
        { name := "A", base := ⟨0, 0⟩, territory := {(⟨1, 0⟩ : Coord)} }
        [{ name := "A", base := ⟨0, 0⟩, territory := {(⟨1, 0⟩ : Coord)} },
         { name := "B", base := ⟨4, 0⟩, towers := {(⟨1, 0⟩ : Coord)} }]
        { width := 5, height := 1 } {} ∅).allowed = false ∧
    (BuildValidator.validate {} ⟨1, 0⟩
        { name := "A", base := ⟨0, 0⟩, territory := {(⟨1, 0⟩ : Coord)} }
        [{ name := "A", base := ⟨0, 0⟩, territory := {(⟨1, 0⟩ : Coord)} },
         { name := "B", base := ⟨4, 0⟩, towers := {(⟨1, 0⟩ : Coord)} }]
        { width := 5, height := 1 } {} ∅).owner = none := by decide

/-- C8 (amended): whenever the base-defense trigger does not fire, a
present priority target (nearest visible unclaimed tower/portal
orthogonally adjacent to an owned cell) replaces whatever the
threat/enemy-base/roaming steps chose, with `roaming = false` —
regardless of the roaming draw. -/
theorem priority_target_overrides (me_idx : Nat) (factions : List Faction)
    (world : World) (visible : Option (Finset Coord)) (roam p : Coord) :
    TargetSelector.needs_base_defense me_idx factions visible = false →
    TargetSelector.find_priority_target (factions.getD me_idx Faction.missing)
      world visible = some p →
    AIController.determine_strategy me_idx factions world visible roam =
      (some p, false) := by
  intro hd hp
  unfold AIController.determine_strategy
  rw [hd]
  simp only [Bool.false_eq_true, if_false, hp]

/-- C8 witness: a lone faction with a visible neutral tower at (2,0)
adjacent to its territory and no nearby enemies — the strategy picks
the tower. -/
theorem priority_target_overrides_witness :
    AIController.determine_strategy 0
        [{ name := "Me", base := ⟨0, 0⟩, territory := {(⟨1, 0⟩ : Coord)} }]
        { width := 6, height := 6, towers := [⟨2, 0⟩],
          terrain := fun c => if c = ⟨2, 0⟩ then some TerrainConfig.tower else none }
        (some {(⟨2, 0⟩ : Coord)}) ⟨5, 5⟩ =
      (some ⟨2, 0⟩, false) :=
  priority_target_overrides 0
    [{ name := "Me", base := ⟨0, 0⟩, territory := {(⟨1, 0⟩ : Coord)} }]
    { width := 6, height := 6, towers := [⟨2, 0⟩],
      terrain := fun c => if c = ⟨2, 0⟩ then some TerrainConfig.tower else none }
    (some {(⟨2, 0⟩ : Coord)}) ⟨5, 5⟩ ⟨2, 0⟩ (by decide) (by decide)

/-- C8 counterexample: with an enemy base within distance 5 of the own
base the defense trigger fires and `_determine_strategy` returns the
own base immediately — the present priority target (2,0) does not
replace it, so the override is not checked last for every state. -/
theorem priority_target_overrides_counterexample :
    TargetSelector.needs_base_defense 0
        [{ name := "Me", base := ⟨0, 0⟩, territory := {(⟨1, 0⟩ : Coord)} },
         { name := "E", base := ⟨0, 3⟩ }]
        (some {⟨0, 3⟩, ⟨2, 0⟩}) = true ∧
    TargetSelector.find_priority_target
        { name := "Me", base := ⟨0, 0⟩, territory := {(⟨1, 0⟩ : Coord)} }
        { width := 6, height := 6, towers := [⟨2, 0⟩],
          terrain := fun c => if c = ⟨2, 0⟩ then some TerrainConfig.tower else none }
        (some {⟨0, 3⟩, ⟨2, 0⟩}) = some ⟨2, 0⟩ ∧
    AIController.determine_strategy 0
        [{ name := "Me", base := ⟨0, 0⟩, territory := {(⟨1, 0⟩ : Coord)} },
         { name := "E", base := ⟨0, 3⟩ }]
        { width := 6, height := 6, towers := [⟨2, 0⟩],
          terrain := fun c => if c = ⟨2, 0⟩ then some TerrainConfig.tower else none }
        (some {⟨0, 3⟩, ⟨2, 0⟩}) ⟨5, 5⟩ =
      (some ⟨0, 0⟩, false) ∧
    (⟨0, 0⟩ : Coord) ≠ ⟨2, 0⟩ := by decide

/-- Reading an updated faction list at the updated index. -/
theorem getD_set_self {l : List Faction} {i : Nat} {v : Faction}
    (h : i < l.length) :
    (l.set i v).getD i Faction.missing = v := by
  simp [List.getD_eq_getElem?_getD, List.getElem?_set_eq_of_lt v h]

/-- Reading an updated faction list at a different index. -/
theorem getD_set_ne {l : List Faction} {i j : Nat} {v : Faction}
    (h : i ≠ j) :
    (l.set i v).getD j Faction.missing = l.getD j Faction.missing := by
  simp [List.getD_eq_getElem?_getD, List.getElem?_set_ne h]

/-- The membership-guarded strip of `_remove_from_faction_structures`
erases the coordinate from all five sets. -/
theorem strip_structures_eq (f : Faction) (c : Coord) :
    MoveExecutor.strip_structures f c =
      { f with
        territory := f.territory.erase c
        fortresses := f.fortresses.erase c
        towers := f.towers.erase c
        bridges := f.bridges.erase c
        portals := f.portals.erase c } := by
  unfold MoveExecutor.strip_structures
  obtain ⟨n, b, a, t, fo, tw, br, po⟩ := f
  simp only [Faction.remove_territory, Faction.remove_fortress,
    Faction.remove_tower, Faction.remove_bridge, Faction.remove_portal]
  split_ifs <;>
    simp_all [Finset.erase_eq_of_not_mem]

/-- `MoveExecutor.apply` with a living owner reduces to
`_handle_capture_from_owner` followed by the mountain-discount step. -/
theorem apply_owner_alive (cell : Coord) (r : BuildResult) (ctx : MoveContext)
    (i : Nat) (hw : r.owner = some i)
    (ha : (ctx.faction i).alive = true) :
    MoveExecutor.apply cell r ctx =
      (let ctx1 := MoveExecutor.handle_capture_from_owner cell i ctx
        (ctx.world.get_terrain_type cell = TerrainType.PORTAL)
        (ctx.world.get_terrain_type cell = TerrainType.TOWER ∨
          ctx.world.has_neutral_tower cell)
        (ctx.world.get_terrain_type cell = TerrainType.BRIDGE)
      if ctx.world.get_terrain_type cell = TerrainType.MOUNTAIN ∧
          ctx1.flags.mountain_efficiency then
        { ctx1 with converted_mountains := insert cell ctx1.converted_mountains }
      else ctx1) := by
  unfold MoveExecutor.apply
  rw [hw]
  simp only [ha, eq_self_iff_true, if_true]

/-- The base-capture branch of `_handle_capture_from_owner`: kill the
owner, claim the fortress without age tracking, emit the defeat
event. -/
theorem handle_base (cell : Coord) (i : Nat) (ctx : MoveContext)
    (p t b : Prop) [Decidable p] [Decidable t] [Decidable b]
    (hb : cell = (ctx.faction i).base) :
    MoveExecutor.handle_capture_from_owner cell i ctx p t b =
      (let ctx1 := ctx.modifyFaction i (fun f => { f with alive := false })
      let ctx2 := MoveExecutor.add_fortress ctx1.my_faction cell ctx1 false
      { ctx2 with
        event_log := ctx2.event_log.add ((ctx2.faction i).name ++ " DEFEATED!") }) := by
  unfold MoveExecutor.handle_capture_from_owner
  rw [if_pos]
  exact hb

/-- Reading the mutated faction object back at the mutated index. -/
theorem modifyFaction_faction_self (ctx : MoveContext) (i : Nat)
    (g : Faction → Faction) (h : i < ctx.factions.length) :
    (ctx.modifyFaction i g).faction i = g (ctx.faction i) := by
  unfold MoveContext.modifyFaction MoveContext.faction
  exact getD_set_self h

/-- Mutating one faction leaves the others untouched. -/
theorem modifyFaction_faction_ne (ctx : MoveContext) {i j : Nat}
    (g : Faction → Faction) (h : i ≠ j) :
    (ctx.modifyFaction i g).faction j = ctx.faction j := by
  unfold MoveContext.modifyFaction MoveContext.faction
  exact getD_set_ne h

/-- Faction mutation preserves the faction count. -/
theorem modifyFaction_length (ctx : MoveContext) (i : Nat) (g : Faction → Faction) :
    (ctx.modifyFaction i g).factions.length = ctx.factions.length := by
  simp [MoveContext.modifyFaction]

/-- Faction mutation leaves the acting index unchanged. -/
theorem modifyFaction_my (ctx : MoveContext) (i : Nat) (g : Faction → Faction) :
    (ctx.modifyFaction i g).my_faction = ctx.my_faction := rfl

/-- Faction mutation leaves the event log unchanged. -/
theorem modifyFaction_events (ctx : MoveContext) (i : Nat) (g : Faction → Faction) :
    (ctx.modifyFaction i g).event_log = ctx.event_log := rfl

/-- `_add_fortress` without age tracking is a plain set insertion. -/
theorem add_fortress_false (i : Nat) (coord : Coord) (ctx : MoveContext) :
    MoveExecutor.add_fortress i coord ctx false =
      ctx.modifyFaction i (fun f => f.add_fortress coord) := rfl

/-- C5: applying a capture on the living owner's base coordinate kills
the owner, adds the cell to the acting faction's fortress set with the
fortress-age map untouched, and emits "<owner> DEFEATED!" — all in the
one call. -/
theorem base_capture_defeats_owner (cell : Coord) (r : BuildResult) (ctx : MoveContext) (i : Nat)
    (hm : ctx.my_faction < ctx.factions.length)
    (hi : i < ctx.factions.length)
    (hw : r.owner = some i)
    (ha : (ctx.faction i).alive = true)
    (hb : cell = (ctx.faction i).base) :
    ((MoveExecutor.apply cell r ctx).faction i).alive = false ∧
    cell ∈ ((MoveExecutor.apply cell r ctx).faction ctx.my_faction).fortresses ∧
    (MoveExecutor.apply cell r ctx).fortress_ages = ctx.fortress_ages ∧
    (MoveExecutor.apply cell r ctx).event_log =
      ctx.event_log.add ((ctx.faction i).name ++ " DEFEATED!") := by
  rw [apply_owner_alive cell r ctx i hw ha, handle_base cell i ctx _ _ _ hb]
  simp only [add_fortress_false, modifyFaction_my]
  have hlen1 : ctx.my_faction <
      (ctx.modifyFaction i fun f => { f with alive := false }).factions.length := by
    rw [modifyFaction_length]; exact hm
  have hname : (((ctx.modifyFaction i fun f => { f with alive := false }).modifyFaction
      ctx.my_faction fun f => f.add_fortress cell).faction i).name =
      (ctx.faction i).name := by
    by_cases hmi : ctx.my_faction = i
    · subst hmi
      rw [modifyFaction_faction_self _ _ _ hlen1,
        modifyFaction_faction_self _ _ _ hm]
      rfl
    · rw [modifyFaction_faction_ne _ _ hmi,
        modifyFaction_faction_self _ _ _ hi]
  split_ifs with hcond
  all_goals refine ⟨?_, ?_, rfl, ?_⟩
  case _ =>
    show (((ctx.modifyFaction i fun f => { f with alive := false }).modifyFaction
      ctx.my_faction fun f => f.add_fortress cell).faction i).alive = false
    by_cases hmi : ctx.my_faction = i
    · subst hmi
      rw [modifyFaction_faction_self _ _ _ hlen1,
        modifyFaction_faction_self _ _ _ hm]
      rfl
    · rw [modifyFaction_faction_ne _ _ hmi,
        modifyFaction_faction_self _ _ _ hi]
  case _ =>
    show cell ∈ (((ctx.modifyFaction i fun f => { f with alive := false }).modifyFaction
      ctx.my_faction fun f => f.add_fortress cell).faction ctx.my_faction).fortresses
    rw [modifyFaction_faction_self _ _ _ hlen1]
    exact Finset.mem_insert_self cell _
  case _ =>
    show (((ctx.modifyFaction i fun f => { f with alive := false }).modifyFaction
        ctx.my_faction fun f => f.add_fortress cell).event_log).add
        ((((ctx.modifyFaction i fun f => { f with alive := false }).modifyFaction
          ctx.my_faction fun f => f.add_fortress cell).faction i).name ++
          " DEFEATED!") =
      ctx.event_log.add ((ctx.faction i).name ++ " DEFEATED!")
    rw [hname]
    rfl
  case _ =>
    show (((ctx.modifyFaction i fun f => { f with alive := false }).modifyFaction
      ctx.my_faction fun f => f.add_fortress cell).faction i).alive = false
    by_cases hmi : ctx.my_faction = i
    · subst hmi
      rw [modifyFaction_faction_self _ _ _ hlen1,
        modifyFaction_faction_self _ _ _ hm]
      rfl
    · rw [modifyFaction_faction_ne _ _ hmi,
        modifyFaction_faction_self _ _ _ hi]
  case _ =>
    show cell ∈ (((ctx.modifyFaction i fun f => { f with alive := false }).modifyFaction
      ctx.my_faction fun f => f.add_fortress cell).faction ctx.my_faction).fortresses
    rw [modifyFaction_faction_self _ _ _ hlen1]
    exact Finset.mem_insert_self cell _
  case _ =>
    show (((ctx.modifyFaction i fun f => { f with alive := false }).modifyFaction
        ctx.my_faction fun f => f.add_fortress cell).event_log).add
        ((((ctx.modifyFaction i fun f => { f with alive := false }).modifyFaction
          ctx.my_faction fun f => f.add_fortress cell).faction i).name ++
          " DEFEATED!") =
      ctx.event_log.add ((ctx.faction i).name ++ " DEFEATED!")
    rw [hname]
    rfl

/-- C5 witness: faction A captures faction B's base (2,0); B ends dead,
(2,0) joins A's fortresses, the age map is untouched and the defeat
event is logged. -/
theorem base_capture_defeats_owner_witness :
    ((MoveExecutor.apply ⟨2, 0⟩
      { allowed := true, cost := 3, owner := some 1 }
      { my_faction := 0,
        factions := [{ name := "A", base := ⟨0, 0⟩ },
                     { name := "B", base := ⟨2, 0⟩,
                       territory := {(⟨1, 0⟩ : Coord)} }],
        world := { width := 4, height := 2 },
        flags := {} }).faction 1).alive = false ∧
    (⟨2, 0⟩ : Coord) ∈ ((MoveExecutor.apply ⟨2, 0⟩
      { allowed := true, cost := 3, owner := some 1 }
      { my_faction := 0,
        factions := [{ name := "A", base := ⟨0, 0⟩ },
                     { name := "B", base := ⟨2, 0⟩,
                       territory := {(⟨1, 0⟩ : Coord)} }],
        world := { width := 4, height := 2 },
        flags := {} }).faction 0).fortresses ∧
    (MoveExecutor.apply ⟨2, 0⟩
      { allowed := true, cost := 3, owner := some 1 }
      { my_faction := 0,
        factions := [{ name := "A", base := ⟨0, 0⟩ },
                     { name := "B", base := ⟨2, 0⟩,
                       territory := {(⟨1, 0⟩ : Coord)} }],
        world := { width := 4, height := 2 },
        flags := {} }).fortress_ages = none ∧
    (MoveExecutor.apply ⟨2, 0⟩
      { allowed := true, cost := 3, owner := some 1 }
      { my_faction := 0,
        factions := [{ name := "A", base := ⟨0, 0⟩ },
                     { name := "B", base := ⟨2, 0⟩,
                       territory := {(⟨1, 0⟩ : Coord)} }],
        world := { width := 4, height := 2 },
        flags := {} }).event_log =
      EventLog.add {} ("B" ++ " DEFEATED!") :=
  base_capture_defeats_owner ⟨2, 0⟩
    { allowed := true, cost := 3, owner := some 1 }
    { my_faction := 0,
      factions := [{ name := "A", base := ⟨0, 0⟩ },
                   { name := "B", base := ⟨2, 0⟩,
                     territory := {(⟨1, 0⟩ : Coord)} }],
      world := { width := 4, height := 2 },
      flags := {} } 1
    (by decide) (by decide) (by decide) (by decide) (by decide)

/-- `_remove_from_faction_structures` mutates only the stripped faction
and the age map. -/
theorem remove_fields (i : Nat) (c : Coord) (ctx : MoveContext) :
    (MoveExecutor.remove_from_faction_structures i c ctx).my_faction =
      ctx.my_faction ∧
    (MoveExecutor.remove_from_faction_structures i c ctx).world = ctx.world ∧
    (MoveExecutor.remove_from_faction_structures i c ctx).event_log =
      ctx.event_log ∧
    (MoveExecutor.remove_from_faction_structures i c ctx).captured_towers =
      ctx.captured_towers ∧
    (MoveExecutor.remove_from_faction_structures i c ctx).converted_mountains =
      ctx.converted_mountains ∧
    (MoveExecutor.remove_from_faction_structures i c ctx).flags = ctx.flags ∧
    (MoveExecutor.remove_from_faction_structures i c ctx).factions =
      (ctx.modifyFaction i (fun f => MoveExecutor.strip_structures f c)).factions := by
  obtain ⟨my, fs, w, fl, cm, ct, el, cr, fa⟩ := ctx
  unfold MoveExecutor.remove_from_faction_structures
  cases fa
  · exact ⟨rfl, rfl, rfl, rfl, rfl, rfl, rfl⟩
  · simp only [MoveContext.modifyFaction]
    split_ifs <;> exact ⟨rfl, rfl, rfl, rfl, rfl, rfl, rfl⟩

/-- The stripped faction read back. -/
theorem remove_faction_self (i : Nat) (c : Coord) (ctx : MoveContext)
    (h : i < ctx.factions.length) :
    (MoveExecutor.remove_from_faction_structures i c ctx).faction i =
      MoveExecutor.strip_structures (ctx.faction i) c := by
  have hf := (remove_fields i c ctx).2.2.2.2.2.2
  unfold MoveContext.faction
  rw [hf]
  exact modifyFaction_faction_self ctx i _ h

/-- Other factions are untouched by a strip. -/
theorem remove_faction_ne (i : Nat) (c : Coord) (ctx : MoveContext) {j : Nat}
    (h : i ≠ j) :
    (MoveExecutor.remove_from_faction_structures i c ctx).faction j =
      ctx.faction j := by
  have hf := (remove_fields i c ctx).2.2.2.2.2.2
  unfold MoveContext.faction
  rw [hf]
  exact modifyFaction_faction_ne ctx _ h

/-- Stripping preserves the faction count. -/
theorem remove_length (i : Nat) (c : Coord) (ctx : MoveContext) :
    (MoveExecutor.remove_from_faction_structures i c ctx).factions.length =
      ctx.factions.length := by
  rw [(remove_fields i c ctx).2.2.2.2.2.2]
  exact modifyFaction_length ctx i _

/-- The strip-everyone fold of `_capture_portal` changes neither the
acting index, the world, the logs nor the faction count. -/
theorem stripAll_fields (js : List Nat) (c : Coord) (ctx : MoveContext) :
    (js.foldl (fun acc j =>
      if j ≠ acc.my_faction then MoveExecutor.remove_from_faction_structures j c acc
      else acc) ctx).my_faction = ctx.my_faction ∧
    (js.foldl (fun acc j =>
      if j ≠ acc.my_faction then MoveExecutor.remove_from_faction_structures j c acc
      else acc) ctx).world = ctx.world ∧
    (js.foldl (fun acc j =>
      if j ≠ acc.my_faction then MoveExecutor.remove_from_faction_structures j c acc
      else acc) ctx).event_log = ctx.event_log ∧
    (js.foldl (fun acc j =>
      if j ≠ acc.my_faction then MoveExecutor.remove_from_faction_structures j c acc
      else acc) ctx).captured_towers = ctx.captured_towers ∧
    (js.foldl (fun acc j =>
      if j ≠ acc.my_faction then MoveExecutor.remove_from_faction_structures j c acc
      else acc) ctx).converted_mountains = ctx.converted_mountains ∧
    (js.foldl (fun acc j =>
      if j ≠ acc.my_faction then MoveExecutor.remove_from_faction_structures j c acc
      else acc) ctx).flags = ctx.flags ∧
    (js.foldl (fun acc j =>
      if j ≠ acc.my_faction then MoveExecutor.remove_from_faction_structures j c acc
      else acc) ctx).factions.length = ctx.factions.length := by
  induction js generalizing ctx with
  | nil => exact ⟨rfl, rfl, rfl, rfl, rfl, rfl, rfl⟩
  | cons k rest ih =>
    simp only [List.foldl_cons]
    by_cases hk : k ≠ ctx.my_faction
    · rw [if_pos hk]
      have h1 := remove_fields k c ctx
      have h2 := ih (MoveExecutor.remove_from_faction_structures k c ctx)
      refine ⟨?_, ?_, ?_, ?_, ?_, ?_, ?_⟩
      · rw [h2.1, h1.1]
      · rw [h2.2.1, h1.2.1]
      · rw [h2.2.2.1, h1.2.2.1]
      · rw [h2.2.2.2.1, h1.2.2.2.1]
      · rw [h2.2.2.2.2.1, h1.2.2.2.2.1]
      · rw [h2.2.2.2.2.2.1, h1.2.2.2.2.2.1]
      · rw [h2.2.2.2.2.2.2, remove_length]
    · rw [if_neg hk]
      exact ih ctx

/-- The strip-everyone fold skips the acting faction. -/
theorem stripAll_faction_my (js : List Nat) (c : Coord) (ctx : MoveContext) :
    (js.foldl (fun acc j =>
      if j ≠ acc.my_faction then MoveExecutor.remove_from_faction_structures j c acc
      else acc) ctx).faction ctx.my_faction = ctx.faction ctx.my_faction := by
  induction js generalizing ctx with
  | nil => rfl
  | cons k rest ih =>
    simp only [List.foldl_cons]
    by_cases hk : k ≠ ctx.my_faction
    · rw [if_pos hk]
      have h1 := (remove_fields k c ctx).1
      have := ih (MoveExecutor.remove_from_faction_structures k c ctx)
      rw [h1] at this
      rw [this]
      exact remove_faction_ne k c ctx hk
    · rw [if_neg hk]
      exact ih ctx

/-- Indices outside the fold list are untouched. -/
theorem stripAll_faction_not_mem (js : List Nat) (c : Coord) (ctx : MoveContext)
    {j : Nat} (hj : j ∉ js) :
    (js.foldl (fun acc j =>
      if j ≠ acc.my_faction then MoveExecutor.remove_from_faction_structures j c acc
      else acc) ctx).faction j = ctx.faction j := by
  induction js generalizing ctx with
  | nil => rfl
  | cons k rest ih =>
    simp only [List.foldl_cons]
    have hkj : k ≠ j := fun h => hj (h ▸ List.mem_cons_self k rest)
    have hrest : j ∉ rest := fun h => hj (List.mem_cons_of_mem k h)
    by_cases hk : k ≠ ctx.my_faction
    · rw [if_pos hk, ih _ hrest]
      exact remove_faction_ne k c ctx hkj
    · rw [if_neg hk]
      exact ih ctx hrest

/-- Every listed non-acting faction ends up stripped. -/
theorem stripAll_faction_mem (js : List Nat) (c : Coord) (ctx : MoveContext)
    {j : Nat} (hnodup : js.Nodup) (hj : j ∈ js) (hne : j ≠ ctx.my_faction)
    (hlt : j < ctx.factions.length) :
    (js.foldl (fun acc j =>
      if j ≠ acc.my_faction then MoveExecutor.remove_from_faction_structures j c acc
      else acc) ctx).faction j =
      MoveExecutor.strip_structures (ctx.faction j) c := by
  induction js generalizing ctx with
  | nil => cases hj
  | cons k rest ih =>
    simp only [List.foldl_cons]
    rcases List.mem_cons.mp hj with hkj | hrest
    · subst hkj
      rw [if_pos hne]
      have hnotin : j ∉ rest := (List.nodup_cons.mp hnodup).1
      rw [stripAll_faction_not_mem rest c _ hnotin]
      exact remove_faction_self j c ctx hlt
    · by_cases hk : k ≠ ctx.my_faction
      · rw [if_pos hk]
        have hmy := (remove_fields k c ctx).1
        have hkj : k ≠ j := by
          intro h
          subst h
          exact (List.nodup_cons.mp hnodup).1 hrest
        have := ih (MoveExecutor.remove_from_faction_structures k c ctx)
          (List.nodup_cons.mp hnodup).2 hrest
          (by rw [hmy]; exact hne)
          (by rw [remove_length]; exact hlt)
        rw [this, remove_faction_ne k c ctx hkj]
      · rw [if_neg hk]
        exact ih ctx (List.nodup_cons.mp hnodup).2 hrest hne hlt

/-- Tagging the registry rewrites the looked-up entry value. -/
theorem tag_portal_find (l : List (Coord × Option String)) (c : Coord) (n : String) :
    ((l.map (fun e => if e.1 = c then (e.1, some n) else e)).find?
        (fun e => e.1 = c)).map (fun e => e.2) =
      ((l.find? (fun e => e.1 = c)).map (fun e => e.2)).map (fun _ => some n) := by
  induction l with
  | nil => rfl
  | cons a rest ih =>
    by_cases ha : a.1 = c <;>
      simp [List.find?_cons, ha, ih, -List.find?_map]

/-- Tagging one key leaves lookups of other keys unchanged. -/
theorem tag_portal_find_ne (l : List (Coord × Option String)) {c k : Coord}
    (n : String) (h : k ≠ c) :
    ((l.map (fun e => if e.1 = c then (e.1, some n) else e)).find?
        (fun e => e.1 = k)).map (fun e => e.2) =
      (l.find? (fun e => e.1 = k)).map (fun e => e.2) := by
  induction l with
  | nil => rfl
  | cons a rest ih =>
    by_cases ha : a.1 = c
    · have hak : ¬a.1 = k := fun hh => h (hh ▸ ha)
      have hck : ¬c = k := fun hh => h hh.symm
      simp [List.find?_cons, ha, hak, hck, ih, -List.find?_map]
    · by_cases hak : a.1 = k <;>
        simp [List.find?_cons, ha, hak, h, ih, -List.find?_map]

/-- `get_portal` after tagging the same cell. -/
theorem tag_get_self (w : World) (c : Coord) (n : String) :
    (w.tag_portal c n).get_portal c = (w.get_portal c).map (fun _ => some n) := by
  unfold World.tag_portal World.get_portal
  exact tag_portal_find w.portals c n

/-- `get_portal` after tagging a different cell. -/
theorem tag_get_ne (w : World) {c k : Coord} (n : String) (h : k ≠ c) :
    (w.tag_portal c n).get_portal k = w.get_portal k := by
  unfold World.tag_portal World.get_portal
  exact tag_portal_find_ne w.portals n h


/-- `_record_fortress_age` touches only the fortress-age map. -/
theorem record_age_factions (coord : Coord) (ctx : MoveContext) :
    (MoveExecutor.record_fortress_age coord ctx).factions = ctx.factions ∧
    (MoveExecutor.record_fortress_age coord ctx).my_faction = ctx.my_faction ∧
    (MoveExecutor.record_fortress_age coord ctx).world = ctx.world ∧
    (MoveExecutor.record_fortress_age coord ctx).flags = ctx.flags ∧
    (MoveExecutor.record_fortress_age coord ctx).event_log = ctx.event_log ∧
    (MoveExecutor.record_fortress_age coord ctx).captured_towers =
      ctx.captured_towers ∧
    (MoveExecutor.record_fortress_age coord ctx).converted_mountains =
      ctx.converted_mountains := by
  obtain ⟨my, fs, w, fl, cm, ct, el, cr, fa⟩ := ctx
  unfold MoveExecutor.record_fortress_age
  cases fa <;> split_ifs <;> exact ⟨rfl, rfl, rfl, rfl, rfl, rfl, rfl⟩

/-- `_add_fortress` with age tracking is insertion followed by the age
record. -/
theorem add_fortress_true (i : Nat) (coord : Coord) (ctx : MoveContext) :
    MoveExecutor.add_fortress i coord ctx true =
      MoveExecutor.record_fortress_age coord
        (ctx.modifyFaction i (fun f => f.add_fortress coord)) := rfl

/-- Reading any faction through `_record_fortress_age`. -/
theorem record_age_faction (c : Coord) (ctx : MoveContext) (j : Nat) :
    (MoveExecutor.record_fortress_age c ctx).faction j = ctx.faction j := by
  unfold MoveContext.faction
  rw [(record_age_factions c ctx).1]

/-- `_record_fortress_age` preserves the faction count. -/
theorem record_age_length (c : Coord) (ctx : MoveContext) :
    (MoveExecutor.record_fortress_age c ctx).factions.length =
      ctx.factions.length := by
  rw [(record_age_factions c ctx).1]

/-- `_record_fortress_age` preserves the acting index. -/
theorem record_age_my (c : Coord) (ctx : MoveContext) :
    (MoveExecutor.record_fortress_age c ctx).my_faction = ctx.my_faction :=
  (record_age_factions c ctx).2.1

/-- `_record_fortress_age` preserves the world. -/
theorem record_age_world (c : Coord) (ctx : MoveContext) :
    (MoveExecutor.record_fortress_age c ctx).world = ctx.world :=
  (record_age_factions c ctx).2.2.1

/-- Faction mutation leaves the world unchanged. -/
theorem modifyFaction_world (ctx : MoveContext) (i : Nat) (g : Faction → Faction) :
    (ctx.modifyFaction i g).world = ctx.world := rfl

/-- One portal-capture pass leaves the acting faction with the endpoint
in its portal and fortress sets. -/
theorem cpo_faction_my (cell : Coord) (ctx : MoveContext)
    (hm : ctx.my_faction < ctx.factions.length) :
    (MoveExecutor.capture_portal_one cell ctx).faction ctx.my_faction =
      ((ctx.faction ctx.my_faction).add_portal cell).add_fortress cell := by
  unfold MoveExecutor.capture_portal_one
  have hF := stripAll_fields (List.range ctx.factions.length) cell ctx
  simp only [add_fortress_true, hF.1, modifyFaction_my, record_age_my]
  set F := (List.range ctx.factions.length).foldl (fun acc j =>
    if j ≠ acc.my_faction then MoveExecutor.remove_from_faction_structures j cell acc
    else acc) ctx with hFdef
  set A := MoveExecutor.record_fortress_age cell
    ((F.modifyFaction ctx.my_faction fun f => f.add_portal cell).modifyFaction
      ctx.my_faction fun f => f.add_fortress cell) with hAdef
  have hMy : A.faction ctx.my_faction =
      ((ctx.faction ctx.my_faction).add_portal cell).add_fortress cell := by
    rw [hAdef, record_age_faction]
    have hlen1 : ctx.my_faction <
        (F.modifyFaction ctx.my_faction fun f => f.add_portal cell).factions.length := by
      rw [modifyFaction_length, hF.2.2.2.2.2.2]
      exact hm
    rw [modifyFaction_faction_self _ _ _ hlen1]
    have hlen2 : ctx.my_faction < F.factions.length := by
      rw [hF.2.2.2.2.2.2]; exact hm
    rw [modifyFaction_faction_self _ _ _ hlen2]
    rw [stripAll_faction_my _ cell ctx]
  cases hgp : A.world.get_portal cell
  · exact hMy
  · exact hMy

/-- One portal-capture pass strips the endpoint from every other
faction. -/
theorem cpo_faction_other (cell : Coord) (ctx : MoveContext) {j : Nat}
    (hne : j ≠ ctx.my_faction) (hlt : j < ctx.factions.length) :
    (MoveExecutor.capture_portal_one cell ctx).faction j =
      MoveExecutor.strip_structures (ctx.faction j) cell := by
  unfold MoveExecutor.capture_portal_one
  have hF := stripAll_fields (List.range ctx.factions.length) cell ctx
  simp only [add_fortress_true, hF.1, modifyFaction_my, record_age_my]
  set F := (List.range ctx.factions.length).foldl (fun acc j =>
    if j ≠ acc.my_faction then MoveExecutor.remove_from_faction_structures j cell acc
    else acc) ctx with hFdef
  set A := MoveExecutor.record_fortress_age cell
    ((F.modifyFaction ctx.my_faction fun f => f.add_portal cell).modifyFaction
      ctx.my_faction fun f => f.add_fortress cell) with hAdef
  have hJ : A.faction j = MoveExecutor.strip_structures (ctx.faction j) cell := by
    rw [hAdef, record_age_faction,
      modifyFaction_faction_ne _ _ (fun h => hne h.symm),
      modifyFaction_faction_ne _ _ (fun h => hne h.symm)]
    exact stripAll_faction_mem _ cell ctx (List.nodup_range _)
      (List.mem_range.mpr hlt) hne hlt
  cases hgp : A.world.get_portal cell
  · exact hJ
  · exact hJ

/-- Tagging the registry leaves the link table unchanged. -/
theorem tag_links (w : World) (c : Coord) (n : String) :
    (w.tag_portal c n).portal_links = w.portal_links := rfl

/-- One portal-capture pass preserves the acting index, the faction
count and the link table. -/
theorem cpo_fields (cell : Coord) (ctx : MoveContext) :
    (MoveExecutor.capture_portal_one cell ctx).my_faction = ctx.my_faction ∧
    (MoveExecutor.capture_portal_one cell ctx).factions.length =
      ctx.factions.length ∧
    (MoveExecutor.capture_portal_one cell ctx).world.portal_links =
      ctx.world.portal_links := by
  unfold MoveExecutor.capture_portal_one
  have hF := stripAll_fields (List.range ctx.factions.length) cell ctx
  simp only [add_fortress_true, hF.1, modifyFaction_my, record_age_my]
  set F := (List.range ctx.factions.length).foldl (fun acc j =>
    if j ≠ acc.my_faction then MoveExecutor.remove_from_faction_structures j cell acc
    else acc) ctx with hFdef
  set A := MoveExecutor.record_fortress_age cell
    ((F.modifyFaction ctx.my_faction fun f => f.add_portal cell).modifyFaction
      ctx.my_faction fun f => f.add_fortress cell) with hAdef
  have hAw : A.world = ctx.world := by
    rw [hAdef, record_age_world, modifyFaction_world, modifyFaction_world, hF.2.1]
  have hAmy : A.my_faction = ctx.my_faction := by
    rw [hAdef, record_age_my, modifyFaction_my, modifyFaction_my, hF.1]
  have hAlen : A.factions.length = ctx.factions.length := by
    rw [hAdef, record_age_length, modifyFaction_length, modifyFaction_length,
      hF.2.2.2.2.2.2]
  cases hgp : A.world.get_portal cell
  · exact ⟨hAmy, hAlen, by rw [hAw]⟩
  · refine ⟨rfl, hAlen, ?_⟩
    show (A.world.tag_portal cell
      ((A.faction ctx.my_faction).name)).portal_links = ctx.world.portal_links
    rw [tag_links, hAw]

/-- One portal-capture pass tags the endpoint's registry entry with the
acting faction's name. -/
theorem cpo_get_portal_self (cell : Coord) (ctx : MoveContext)
    (hm : ctx.my_faction < ctx.factions.length) :
    (MoveExecutor.capture_portal_one cell ctx).world.get_portal cell =
      (ctx.world.get_portal cell).map
        (fun _ => some ((ctx.faction ctx.my_faction).name)) := by
  unfold MoveExecutor.capture_portal_one
  have hF := stripAll_fields (List.range ctx.factions.length) cell ctx
  simp only [add_fortress_true, hF.1, modifyFaction_my, record_age_my]
  set F := (List.range ctx.factions.length).foldl (fun acc j =>
    if j ≠ acc.my_faction then MoveExecutor.remove_from_faction_structures j cell acc
    else acc) ctx with hFdef
  set A := MoveExecutor.record_fortress_age cell
    ((F.modifyFaction ctx.my_faction fun f => f.add_portal cell).modifyFaction
      ctx.my_faction fun f => f.add_fortress cell) with hAdef
  have hAw : A.world = ctx.world := by
    rw [hAdef, record_age_world, modifyFaction_world, modifyFaction_world, hF.2.1]
  have hname : (A.faction ctx.my_faction).name =
      (ctx.faction ctx.my_faction).name := by
    rw [hAdef, record_age_faction]
    have hlen1 : ctx.my_faction <
        (F.modifyFaction ctx.my_faction fun f => f.add_portal cell).factions.length := by
      rw [modifyFaction_length, hF.2.2.2.2.2.2]
      exact hm
    have hlen2 : ctx.my_faction < F.factions.length := by
      rw [hF.2.2.2.2.2.2]; exact hm
    rw [modifyFaction_faction_self _ _ _ hlen1,
      modifyFaction_faction_self _ _ _ hlen2, stripAll_faction_my _ cell ctx]
    rfl
  cases hgp : A.world.get_portal cell
  · show A.world.get_portal cell =
      (ctx.world.get_portal cell).map
        (fun _ => some ((ctx.faction ctx.my_faction).name))
    rw [← hAw, hgp]
    rfl
  · show (A.world.tag_portal cell
        ((A.faction ctx.my_faction).name)).get_portal cell =
      (ctx.world.get_portal cell).map
        (fun _ => some ((ctx.faction ctx.my_faction).name))
    rw [tag_get_self, hgp, hname, ← hAw, hgp]

/-- One portal-capture pass leaves other registry entries unchanged. -/
theorem cpo_get_portal_ne (cell : Coord) (ctx : MoveContext) {k : Coord}
    (hk : k ≠ cell) :
    (MoveExecutor.capture_portal_one cell ctx).world.get_portal k =
      ctx.world.get_portal k := by
  unfold MoveExecutor.capture_portal_one
  have hF := stripAll_fields (List.range ctx.factions.length) cell ctx
  simp only [add_fortress_true, hF.1, modifyFaction_my, record_age_my]
  set F := (List.range ctx.factions.length).foldl (fun acc j =>
    if j ≠ acc.my_faction then MoveExecutor.remove_from_faction_structures j cell acc
    else acc) ctx with hFdef
  set A := MoveExecutor.record_fortress_age cell
    ((F.modifyFaction ctx.my_faction fun f => f.add_portal cell).modifyFaction
      ctx.my_faction fun f => f.add_fortress cell) with hAdef
  have hAw : A.world = ctx.world := by
    rw [hAdef, record_age_world, modifyFaction_world, modifyFaction_world, hF.2.1]
  cases hgp : A.world.get_portal cell
  · show A.world.get_portal k = ctx.world.get_portal k
    rw [hAw]
  · show (A.world.tag_portal cell
        ((A.faction ctx.my_faction).name)).get_portal k = ctx.world.get_portal k
    rw [tag_get_ne _ _ hk, hAw]

/-- The link lookup depends only on the link table. -/
theorem link_of_congr {w v : World} (h : w.portal_links = v.portal_links)
    (c : Coord) : w.link_of c = v.link_of c := by
  unfold World.link_of
  rw [h]

/-- Stripping only removes set memberships. -/
theorem strip_sets_subset (f : Faction) (c x : Coord)
    (h : (MoveExecutor.strip_structures f c).in_category_sets x) :
    f.in_category_sets x := by
  rw [strip_structures_eq] at h
  rcases h with h | h | h | h | h
  · exact Or.inl (Finset.mem_of_mem_erase h)
  · exact Or.inr (Or.inl (Finset.mem_of_mem_erase h))
  · exact Or.inr (Or.inr (Or.inl (Finset.mem_of_mem_erase h)))
  · exact Or.inr (Or.inr (Or.inr (Or.inl (Finset.mem_of_mem_erase h))))
  · exact Or.inr (Or.inr (Or.inr (Or.inr (Finset.mem_of_mem_erase h))))

/-- The stripped coordinate is in none of the five sets afterwards. -/
theorem strip_not_sets (f : Faction) (c : Coord) :
    ¬(MoveExecutor.strip_structures f c).in_category_sets c := by
  rw [strip_structures_eq]
  intro h
  rcases h with h | h | h | h | h <;> exact Finset.not_mem_erase _ _ h

/-- C4: a portal capture on an endpoint with a linked partner leaves, in
the same call, both endpoints in the acting faction's portal and
fortress sets and in no other faction's category sets, and any neutral
portal registry entries at either end carry the acting faction's
name. -/
theorem portal_capture_atomic (cell linked : Coord) (ctx : MoveContext)
    (hm : ctx.my_faction < ctx.factions.length)
    (hl : ctx.world.link_of cell = some linked) :
    (cell ∈ ((MoveExecutor.capture_portal cell ctx).faction ctx.my_faction).portals ∧
     cell ∈ ((MoveExecutor.capture_portal cell ctx).faction ctx.my_faction).fortresses ∧
     linked ∈ ((MoveExecutor.capture_portal cell ctx).faction ctx.my_faction).portals ∧
     linked ∈ ((MoveExecutor.capture_portal cell ctx).faction ctx.my_faction).fortresses) ∧
    (∀ j, j < ctx.factions.length → j ≠ ctx.my_faction →
      ¬((MoveExecutor.capture_portal cell ctx).faction j).in_category_sets cell ∧
      ¬((MoveExecutor.capture_portal cell ctx).faction j).in_category_sets linked) ∧
    (∀ e, (MoveExecutor.capture_portal cell ctx).world.get_portal cell = some e →
      e = some ((ctx.faction ctx.my_faction).name)) ∧
    (∀ e, (MoveExecutor.capture_portal cell ctx).world.get_portal linked = some e →
      e = some ((ctx.faction ctx.my_faction).name)) := by
  have hfieldsA := cpo_fields cell ctx
  have hlA : (MoveExecutor.capture_portal_one cell ctx).world.link_of cell =
      some linked := by
    rw [link_of_congr hfieldsA.2.2 cell]
    exact hl
  have happly : MoveExecutor.capture_portal cell ctx =
      MoveExecutor.capture_portal_one linked
        (MoveExecutor.capture_portal_one cell ctx) := by
    unfold MoveExecutor.capture_portal
    show (match (MoveExecutor.capture_portal_one cell ctx).world.link_of cell with
      | some l => MoveExecutor.capture_portal_one l
          (MoveExecutor.capture_portal_one cell ctx)
      | none => MoveExecutor.capture_portal_one cell ctx) = _
    rw [hlA]
  rw [happly]
  set ctxA := MoveExecutor.capture_portal_one cell ctx with hctxA
  have hmA : ctxA.my_faction < ctxA.factions.length := by
    rw [hfieldsA.1, hfieldsA.2.1]
    exact hm
  have hAmy : ctxA.my_faction = ctx.my_faction := hfieldsA.1
  have hAfacmy : ctxA.faction ctx.my_faction =
      ((ctx.faction ctx.my_faction).add_portal cell).add_fortress cell :=
    cpo_faction_my cell ctx hm
  have hBfacmy : (MoveExecutor.capture_portal_one linked ctxA).faction
        ctx.my_faction =
      ((ctxA.faction ctx.my_faction).add_portal linked).add_fortress linked := by
    have := cpo_faction_my linked ctxA hmA
    rw [hAmy] at this
    exact this
  constructor
  · rw [hBfacmy, hAfacmy]
    simp only [Faction.add_portal, Faction.add_fortress]
    refine ⟨?_, ?_, ?_, ?_⟩
    · exact Finset.mem_insert_of_mem (Finset.mem_insert_self cell _)
    · exact Finset.mem_insert_of_mem (Finset.mem_insert_self cell _)
    · exact Finset.mem_insert_self linked _
    · exact Finset.mem_insert_self linked _
  refine ⟨?_, ?_, ?_⟩
  · intro j hj hjne
    have hBfacj : (MoveExecutor.capture_portal_one linked ctxA).faction j =
        MoveExecutor.strip_structures (ctxA.faction j) linked := by
      refine cpo_faction_other linked ctxA ?_ ?_
      · rw [hAmy]; exact hjne
      · rw [hfieldsA.2.1]; exact hj
    have hAfacj : ctxA.faction j =
        MoveExecutor.strip_structures (ctx.faction j) cell :=
      cpo_faction_other cell ctx hjne hj
    rw [hBfacj, hAfacj]
    constructor
    · intro h
      exact strip_not_sets _ cell (strip_sets_subset _ linked cell h)
    · exact strip_not_sets _ linked
  · intro e he
    by_cases hcl : cell = linked
    · subst hcl
      rw [cpo_get_portal_self cell ctxA hmA] at he
      rw [cpo_get_portal_self cell ctx hm] at he
      cases hw : ctx.world.get_portal cell
      · rw [hw] at he
        cases he
      · rw [hw] at he
        simp only [Option.map_some'] at he
        replace he := Option.some_inj.mp he
        rw [← he, hAmy, hAfacmy]
        rfl
    · rw [cpo_get_portal_ne linked ctxA hcl,
        cpo_get_portal_self cell ctx hm] at he
      cases hw : ctx.world.get_portal cell
      · rw [hw] at he
        cases he
      · rw [hw] at he
        simp only [Option.map_some'] at he
        replace he := Option.some_inj.mp he
        exact he.symm
  · intro e he
    rw [cpo_get_portal_self linked ctxA hmA] at he
    by_cases hcl : linked = cell
    · subst hcl
      rw [cpo_get_portal_self linked ctx hm] at he
      cases hw : ctx.world.get_portal linked
      · rw [hw] at he
        cases he
      · rw [hw] at he
        simp only [Option.map_some'] at he
        replace he := Option.some_inj.mp he
        rw [← he, hAmy, hAfacmy]
        rfl
    · rw [cpo_get_portal_ne cell ctx hcl] at he
      cases hw : ctx.world.get_portal linked
      · rw [hw] at he
        cases he
      · rw [hw] at he
        simp only [Option.map_some'] at he
        replace he := Option.some_inj.mp he
        rw [← he, hAmy, hAfacmy]
        rfl

/-- C4 witness: capturing portal (1,0) linked to (2,0) — which faction B
holds as territory — puts both ends in faction A's portal and fortress
sets and strips them from B, in the one call. -/
theorem portal_capture_atomic_witness :
    (⟨1, 0⟩ : Coord) ∈ ((MoveExecutor.capture_portal ⟨1, 0⟩
      { my_faction := 0,
        factions := [{ name := "A", base := ⟨0, 0⟩ },
                     { name := "B", base := ⟨5, 0⟩,
                       territory := {(⟨2, 0⟩ : Coord)} }],
        world :=
          { width := 6, height := 1,
            terrain := fun c =>
              if c = ⟨1, 0⟩ ∨ c = ⟨2, 0⟩ then some TerrainConfig.portal else none,
            portals := [(⟨1, 0⟩, none), (⟨2, 0⟩, none)],
            portal_links := [(⟨1, 0⟩, ⟨2, 0⟩), (⟨2, 0⟩, ⟨1, 0⟩)] },
        flags := {} }).faction 0).portals ∧
    (⟨2, 0⟩ : Coord) ∈ ((MoveExecutor.capture_portal ⟨1, 0⟩
      { my_faction := 0,
        factions := [{ name := "A", base := ⟨0, 0⟩ },
                     { name := "B", base := ⟨5, 0⟩,
                       territory := {(⟨2, 0⟩ : Coord)} }],
        world :=
          { width := 6, height := 1,
            terrain := fun c =>
              if c = ⟨1, 0⟩ ∨ c = ⟨2, 0⟩ then some TerrainConfig.portal else none,
            portals := [(⟨1, 0⟩, none), (⟨2, 0⟩, none)],
            portal_links := [(⟨1, 0⟩, ⟨2, 0⟩), (⟨2, 0⟩, ⟨1, 0⟩)] },
        flags := {} }).faction 0).portals ∧
    ¬((MoveExecutor.capture_portal ⟨1, 0⟩
      { my_faction := 0,
        factions := [{ name := "A", base := ⟨0, 0⟩ },
                     { name := "B", base := ⟨5, 0⟩,
                       territory := {(⟨2, 0⟩ : Coord)} }],
        world :=
          { width := 6, height := 1,
            terrain := fun c =>
              if c = ⟨1, 0⟩ ∨ c = ⟨2, 0⟩ then some TerrainConfig.portal else none,
            portals := [(⟨1, 0⟩, none), (⟨2, 0⟩, none)],
            portal_links := [(⟨1, 0⟩, ⟨2, 0⟩), (⟨2, 0⟩, ⟨1, 0⟩)] },
        flags := {} }).faction 1).in_category_sets ⟨2, 0⟩ := by
  have h := portal_capture_atomic ⟨1, 0⟩ ⟨2, 0⟩
    { my_faction := 0,
      factions := [{ name := "A", base := ⟨0, 0⟩ },
                   { name := "B", base := ⟨5, 0⟩,
                     territory := {(⟨2, 0⟩ : Coord)} }],
      world :=
        { width := 6, height := 1,
          terrain := fun c =>
            if c = ⟨1, 0⟩ ∨ c = ⟨2, 0⟩ then some TerrainConfig.portal else none,
          portals := [(⟨1, 0⟩, none), (⟨2, 0⟩, none)],
          portal_links := [(⟨1, 0⟩, ⟨2, 0⟩), (⟨2, 0⟩, ⟨1, 0⟩)] },
      flags := {} } (by decide) (by decide)
  exact ⟨h.1.1, h.1.2.2.1, (h.2.1 1 (by decide) (by decide)).2⟩

/- Soundness of the fueled worklist loop: every processed cell is
reachable (under `step`) from some initially queued cell, so a `true`
result exhibits a reachable cell satisfying the success test. -/
theorem bfsLoop_sound (succ : Coord → Bool)
    (expand : Finset Coord → Coord → List Coord)
    (step : Coord → Coord → Prop) (R : Coord → Prop)
    (Hexp : ∀ vis cur b, b ∈ expand vis cur → step cur b)
    (hR : ∀ x y, R x → step x y → R y) :
    ∀ fuel (vis : Finset Coord) (queue : List Coord),
      (∀ x ∈ queue, R x) →
      bfsLoop succ expand fuel vis queue = true →
      ∃ v, R v ∧ succ v = true := by
  intro fuel
  induction fuel with
  | zero =>
    intro vis queue hq h
    simp [bfsLoop] at h
  | succ n ih =>
    intro vis queue hq h
    match queue with
    | [] => simp [bfsLoop] at h
    | cur :: rest =>
      simp only [bfsLoop] at h
      by_cases hs : succ cur = true
      · exact ⟨cur, hq cur (List.mem_cons_self cur rest), hs⟩
      · rw [if_neg hs] at h
        refine ih _ _ ?_ h
        intro x hx
        rcases List.mem_append.mp hx with hx | hx
        · exact hq x (List.mem_cons_of_mem cur hx)
        · exact hR cur x (hq cur (List.mem_cons_self cur rest)) (Hexp vis cur x hx)

theorem closed_reach (succ : Coord → Bool) (step : Coord → Coord → Prop)
    (vis : Finset Coord)
    (hcl : ∀ x ∈ vis, succ x = false ∧ ∀ y, step x y → y ∈ vis) :
    ∀ x ∈ vis, ∀ y, Relation.ReflTransGen step x y → succ y = false := by
  intro x hx y hy
  have hmem : y ∈ vis := by
    induction hy with
    | refl => exact hx
    | tail hab hbc ih => exact (hcl _ ih).2 _ hbc
  exact (hcl y hmem).1

/- Completeness of the fueled worklist loop: with enough fuel, a
`step`-path from a queued cell to a cell passing the success test
forces the loop to answer `true`. -/
theorem bfsLoop_complete (succ : Coord → Bool)
    (expand : Finset Coord → Coord → List Coord)
    (step : Coord → Coord → Prop) (dom : Finset Coord)
    (Hexp : ∀ vis cur b, b ∈ expand vis cur ↔ step cur b ∧ b ∉ vis)
    (Hnodup : ∀ vis cur, (expand vis cur).Nodup)
    (Hdom : ∀ a b, step a b → b ∈ dom) :
    ∀ fuel (vis : Finset Coord) (queue : List Coord),
      queue.length + (dom \ vis).card ≤ fuel →
      (∀ x ∈ queue, x ∈ vis) →
      queue.Nodup →
      (∀ x ∈ vis, x ∉ queue → succ x = false ∧ ∀ y, step x y → y ∈ vis) →
      bfsLoop succ expand fuel vis queue = false →
      ∀ x ∈ vis, ∀ y, Relation.ReflTransGen step x y → succ y = false := by
  intro fuel
  induction fuel with
  | zero =>
    intro vis queue hfuel hqvis hqnodup hproc hfalse
    have hq : queue = [] := by
      cases queue with
      | nil => rfl
      | cons a l => simp at hfuel
    subst hq
    exact closed_reach succ step vis (fun x hx => hproc x hx (by simp))
  | succ n ih =>
    intro vis queue hfuel hqvis hqnodup hproc hfalse
    match queue with
    | [] =>
      exact closed_reach succ step vis (fun x hx => hproc x hx (by simp))
    | cur :: rest =>
      simp only [bfsLoop] at hfalse
      by_cases hs : succ cur = true
      · rw [if_pos hs] at hfalse
        cases hfalse
      · rw [if_neg hs] at hfalse
        have hsf : succ cur = false := by
          cases hsc : succ cur
          · rfl
          · exact absurd hsc hs
        have hnewsub : (expand vis cur).toFinset ⊆ dom \ vis := by
          intro b hb
          rw [List.mem_toFinset] at hb
          have := (Hexp vis cur b).mp hb
          exact Finset.mem_sdiff.mpr ⟨Hdom cur b this.1, this.2⟩
        have hnewcard : (expand vis cur).toFinset.card = (expand vis cur).length :=
          List.toFinset_card_of_nodup (Hnodup vis cur)
        have hsdiff : dom \ (vis ∪ (expand vis cur).toFinset) =
            (dom \ vis) \ (expand vis cur).toFinset := by
          rw [Finset.sdiff_union_distrib]
          ext a
          simp only [Finset.mem_inter, Finset.mem_sdiff]
          constructor
          · rintro ⟨⟨ha1, ha2⟩, _, ha3⟩
            exact ⟨⟨ha1, ha2⟩, ha3⟩
          · rintro ⟨⟨ha1, ha2⟩, ha3⟩
            exact ⟨⟨ha1, ha2⟩, ha1, ha3⟩
        have hcard : (dom \ (vis ∪ (expand vis cur).toFinset)).card =
            (dom \ vis).card - (expand vis cur).length := by
          rw [hsdiff, Finset.card_sdiff hnewsub, hnewcard]
        have hlen : (expand vis cur).length ≤ (dom \ vis).card := by
          rw [← hnewcard]
          exact Finset.card_le_card hnewsub
        have hfuel' : (rest ++ expand vis cur).length +
            (dom \ (vis ∪ (expand vis cur).toFinset)).card ≤ n := by
          rw [List.length_append, hcard]
          simp only [List.length_cons] at hfuel
          omega
        have hqvis' : ∀ x ∈ rest ++ expand vis cur,
            x ∈ vis ∪ (expand vis cur).toFinset := by
          intro x hx
          rcases List.mem_append.mp hx with hx | hx
          · exact Finset.mem_union_left _ (hqvis x (List.mem_cons_of_mem cur hx))
          · exact Finset.mem_union_right _ (List.mem_toFinset.mpr hx)
        have hqnodup' : (rest ++ expand vis cur).Nodup := by
          refine List.Nodup.append (List.nodup_cons.mp hqnodup).2 (Hnodup vis cur) ?_
          intro a ha hb
          have hav : a ∈ vis := hqvis a (List.mem_cons_of_mem cur ha)
          exact ((Hexp vis cur a).mp hb).2 hav
        have hproc' : ∀ x ∈ vis ∪ (expand vis cur).toFinset,
            x ∉ rest ++ expand vis cur →
            succ x = false ∧ ∀ y, step x y → y ∈ vis ∪ (expand vis cur).toFinset := by
          intro x hx hnx
          rcases Finset.mem_union.mp hx with hx | hx
          · by_cases hxc : x = cur
            · subst hxc
              refine ⟨hsf, ?_⟩
              intro y hy
              by_cases hyv : y ∈ vis
              · exact Finset.mem_union_left _ hyv
              · refine Finset.mem_union_right _ (List.mem_toFinset.mpr ?_)
                exact (Hexp vis x y).mpr ⟨hy, hyv⟩
            · have hxq : x ∉ cur :: rest := by
                intro hmem
                rcases List.mem_cons.mp hmem with h | h
                · exact hxc h
                · exact hnx (List.mem_append.mpr (Or.inl h))
              obtain ⟨h1, h2⟩ := hproc x hx hxq
              exact ⟨h1, fun y hy => Finset.mem_union_left _ (h2 y hy)⟩
          · exact absurd (List.mem_append.mpr
              (Or.inr (List.mem_toFinset.mp hx))) hnx
        have hconc := ih _ _ hfuel' hqvis' hqnodup' hproc' hfalse
        intro x hx y hy
        exact hconc x (Finset.mem_union_left _ hx) y hy

theorem neighbors_nodup (c : Coord) : c.neighbors.Nodup := by
  obtain ⟨x, y⟩ := c
  simp [Coord.neighbors, Coord.mk.injEq]
  omega

theorem mem_neighbors_symm {a b : Coord} (h : a ∈ b.neighbors) :
    b ∈ a.neighbors := by
  obtain ⟨ax, ay⟩ := a
  obtain ⟨bx, c⟩ := b
  simp only [Coord.neighbors, List.mem_cons, List.mem_singleton,
    Coord.mk.injEq, List.not_mem_nil, or_false] at h ⊢
  rcases h with h | h | h | h <;> omega

theorem link_of_nil {world : World} (h : world.portal_links = [])
    (c : Coord) : world.link_of c = none := by
  unfold World.link_of
  rw [h]
  rfl


theorem supply_nbrs_cons_added {faction : Faction} {world : World}
    {n : Coord} {rest : List Coord} {vis : Finset Coord}
    (hlinks : world.portal_links = [])
    (htf : n ∈ faction.territory ∨ n ∈ faction.fortresses) (hv : n ∉ vis) :
    ReachabilityChecker.supply_nbrs faction world (n :: rest) vis =
      n :: ReachabilityChecker.supply_nbrs faction world rest (insert n vis) := by
  conv_lhs => unfold ReachabilityChecker.supply_nbrs
  rw [if_pos htf, if_pos hv, link_of_nil hlinks]

theorem supply_nbrs_cons_seen {faction : Faction} {world : World}
    {n : Coord} {rest : List Coord} {vis : Finset Coord}
    (htf : n ∈ faction.territory ∨ n ∈ faction.fortresses) (hv : n ∈ vis) :
    ReachabilityChecker.supply_nbrs faction world (n :: rest) vis =
      ReachabilityChecker.supply_nbrs faction world rest vis := by
  conv_lhs => unfold ReachabilityChecker.supply_nbrs
  rw [if_pos htf, if_neg (by simpa using hv)]

theorem supply_nbrs_cons_skip {faction : Faction} {world : World}
    {n : Coord} {rest : List Coord} {vis : Finset Coord}
    (htf : ¬(n ∈ faction.territory ∨ n ∈ faction.fortresses)) :
    ReachabilityChecker.supply_nbrs faction world (n :: rest) vis =
      ReachabilityChecker.supply_nbrs faction world rest vis := by
  conv_lhs => unfold ReachabilityChecker.supply_nbrs
  rw [if_neg htf]

theorem mem_supply_nbrs {faction : Faction} {world : World}
    (hlinks : world.portal_links = []) :
    ∀ (ns : List Coord) (vis : Finset Coord), ns.Nodup →
      ∀ b, b ∈ ReachabilityChecker.supply_nbrs faction world ns vis ↔
        (b ∈ ns ∧ (b ∈ faction.territory ∨ b ∈ faction.fortresses) ∧ b ∉ vis) := by
  intro ns
  induction ns with
  | nil =>
    intro vis hnodup b
    simp [ReachabilityChecker.supply_nbrs]
  | cons n rest ih =>
    intro vis hnodup b
    obtain ⟨hn, hrest⟩ := List.nodup_cons.mp hnodup
    by_cases htf : n ∈ faction.territory ∨ n ∈ faction.fortresses
    · by_cases hv : n ∉ vis
      · rw [supply_nbrs_cons_added hlinks htf hv]
        rw [List.mem_cons, ih (insert n vis) hrest b]
        constructor
        · rintro (rfl | ⟨h1, h2, h3⟩)
          · exact ⟨List.mem_cons_self _ _, htf, hv⟩
          · exact ⟨List.mem_cons_of_mem n h1, h2,
              fun hb => h3 (Finset.mem_insert_of_mem hb)⟩
        · rintro ⟨h1, h2, h3⟩
          rcases List.mem_cons.mp h1 with heq | h1'
          · exact Or.inl heq
          · refine Or.inr ⟨h1', h2, ?_⟩
            intro hb
            rcases Finset.mem_insert.mp hb with heq2 | hb'
            · rw [heq2] at h1'
              exact hn h1'
            · exact h3 hb'
      · push_neg at hv
        rw [supply_nbrs_cons_seen htf hv]
        rw [ih vis hrest b]
        constructor
        · rintro ⟨h1, h2, h3⟩
          exact ⟨List.mem_cons_of_mem n h1, h2, h3⟩
        · rintro ⟨h1, h2, h3⟩
          rcases List.mem_cons.mp h1 with rfl | h1
          · exact absurd hv h3
          · exact ⟨h1, h2, h3⟩
    · rw [supply_nbrs_cons_skip htf]
      rw [ih vis hrest b]
      constructor
      · rintro ⟨h1, h2, h3⟩
        exact ⟨List.mem_cons_of_mem n h1, h2, h3⟩
      · rintro ⟨h1, h2, h3⟩
        rcases List.mem_cons.mp h1 with rfl | h1
        · exact absurd h2 htf
        · exact ⟨h1, h2, h3⟩

theorem supply_nbrs_nodup {faction : Faction} {world : World}
    (hlinks : world.portal_links = []) :
    ∀ (ns : List Coord) (vis : Finset Coord), ns.Nodup →
      (ReachabilityChecker.supply_nbrs faction world ns vis).Nodup := by
  intro ns
  induction ns with
  | nil =>
    intro vis hnodup
    simp [ReachabilityChecker.supply_nbrs]
  | cons n rest ih =>
    intro vis hnodup
    obtain ⟨hn, hrest⟩ := List.nodup_cons.mp hnodup
    by_cases htf : n ∈ faction.territory ∨ n ∈ faction.fortresses
    · by_cases hv : n ∉ vis
      · rw [supply_nbrs_cons_added hlinks htf hv]
        rw [List.nodup_cons]
        refine ⟨?_, ih _ hrest⟩
        intro hmem
        have := ((mem_supply_nbrs hlinks rest _ hrest n).mp hmem).2.2
        exact this (Finset.mem_insert_self n vis)
      · push_neg at hv
        rw [supply_nbrs_cons_seen htf hv]
        exact ih vis hrest
    · rw [supply_nbrs_cons_skip htf]
      exact ih vis hrest

theorem supply_succ_iff (cell cur : Coord) :
    ReachabilityChecker.supply_succ cell cur = true ↔ cell ∈ cur.neighbors := by
  simp [ReachabilityChecker.supply_succ, List.any_eq_true]

theorem fortress_succ_iff (faction : Faction) (cur : Coord) :
    ReachabilityChecker.fortress_succ faction cur = true ↔
      ∃ n ∈ cur.neighbors, n = faction.base ∨ n ∈ faction.territory := by
  simp [ReachabilityChecker.fortress_succ, List.any_eq_true]

/- In a world without portal links, a successful supply-connection
check yields a supply-step path from the base to a neighbour of the
searched cell. -/
theorem supply_conn_sound {faction : Faction} {world : World}
    (hlinks : world.portal_links = []) (cell : Coord)
    (h : ReachabilityChecker.check_supply_connection cell faction world = true) :
    cell = faction.base ∨
      ∃ v, Relation.ReflTransGen (supplyStep faction) faction.base v ∧
        cell ∈ v.neighbors := by
  unfold ReachabilityChecker.check_supply_connection at h
  by_cases h1 : cell = faction.base
  · exact Or.inl h1
  · rw [if_neg h1] at h
    by_cases h2 : ¬(cell ∈ faction.territory ∨ cell ∈ faction.fortresses)
    · rw [if_pos h2] at h
      cases h
    · rw [if_neg h2] at h
      have hsound := bfsLoop_sound (ReachabilityChecker.supply_succ cell)
        (fun visited cur =>
          ReachabilityChecker.supply_nbrs faction world cur.neighbors visited)
        (supplyStep faction)
        (Relation.ReflTransGen (supplyStep faction) faction.base)
        (fun vis cur b hb => by
          have := (mem_supply_nbrs hlinks cur.neighbors vis
            (neighbors_nodup cur) b).mp hb
          exact ⟨this.1, this.2.1⟩)
        (fun x y hx hxy => Relation.ReflTransGen.tail hx hxy)
        ((faction.territory ∪ faction.fortresses).card + 1)
        {faction.base} [faction.base]
        (fun x hx => by
          rw [List.mem_singleton] at hx
          rw [hx])
        h
      obtain ⟨v, hv, hsucc⟩ := hsound
      exact Or.inr ⟨v, hv, (supply_succ_iff cell v).mp hsucc⟩

/- A fortress chain from the searched cell to a fortress adjacent to
territory or the base makes `check_fortress_connection` answer
`true`. -/
theorem fortress_conn_complete {faction : Faction} (cell : Coord)
    (h : ∃ x, Relation.ReflTransGen (fortressStep faction) cell x ∧
      ReachabilityChecker.fortress_succ faction x = true) :
    ReachabilityChecker.check_fortress_connection cell faction = true := by
  obtain ⟨x, hreach, hsucc⟩ := h
  cases hb : ReachabilityChecker.check_fortress_connection cell faction
  · exfalso
    unfold ReachabilityChecker.check_fortress_connection at hb
    have hcomp := bfsLoop_complete (ReachabilityChecker.fortress_succ faction)
      (ReachabilityChecker.fortress_expand faction)
      (fortressStep faction) faction.fortresses
      (fun vis cur b => by
        unfold ReachabilityChecker.fortress_expand
        simp only [List.mem_filter, decide_eq_true_eq]
        unfold fortressStep
        tauto)
      (fun vis cur => List.Nodup.filter _ (neighbors_nodup cur))
      (fun a b hab => hab.2)
      (faction.fortresses.card + 1) {cell} [cell]
      (by
        simp only [List.length_singleton]
        have : (faction.fortresses \ {cell}).card ≤ faction.fortresses.card :=
          Finset.card_le_card (Finset.sdiff_subset)
        omega)
      (fun y hy => by
        rw [List.mem_singleton] at hy
        rw [hy]
        exact Finset.mem_singleton_self cell)
      (List.nodup_singleton cell)
      (fun y hy hny => by
        rw [Finset.mem_singleton] at hy
        exact absurd (hy ▸ List.mem_singleton_self cell) hny)
      hb
    exact absurd hsucc (by
      rw [hcomp cell (Finset.mem_singleton_self cell) x hreach]
      simp)
  · rfl

/- Bridging lemma: a supply-step path from the base to a cell adjacent
to the searched fortress produces a fortress chain from that fortress
to one adjacent to territory or the base. -/
theorem reach_tf_to_fortress (faction : Faction) :
    ∀ v, Relation.ReflTransGen (supplyStep faction) faction.base v →
      ∀ c, c ∈ v.neighbors →
        ∃ x, Relation.ReflTransGen (fortressStep faction) c x ∧
          ReachabilityChecker.fortress_succ faction x = true := by
  intro v hv
  induction hv with
  | refl =>
    intro c hc
    refine ⟨c, Relation.ReflTransGen.refl, ?_⟩
    rw [fortress_succ_iff]
    exact ⟨faction.base, mem_neighbors_symm hc, Or.inl rfl⟩
  | tail hw hstep ih =>
    intro c hc
    rcases hstep with ⟨hmem, htf⟩
    rcases htf with hterr | hfort
    · refine ⟨c, Relation.ReflTransGen.refl, ?_⟩
      rw [fortress_succ_iff]
      exact ⟨_, mem_neighbors_symm hc, Or.inr hterr⟩
    · obtain ⟨x, hreach, hsucc⟩ := ih _ hmem
      exact ⟨x, Relation.ReflTransGen.head ⟨mem_neighbors_symm hc, hfort⟩ hreach,
        hsucc⟩

/- A non-base cell passing the supply-connection check lies in the
faction's territory or fortress set. -/
theorem supply_conn_in_tf {faction : Faction} {world : World} {cell : Coord}
    (h : ReachabilityChecker.check_supply_connection cell faction world = true)
    (hb : cell ≠ faction.base) :
    cell ∈ faction.territory ∨ cell ∈ faction.fortresses := by
  unfold ReachabilityChecker.check_supply_connection at h
  rw [if_neg hb] at h
  by_cases h2 : ¬(cell ∈ faction.territory ∨ cell ∈ faction.fortresses)
  · rw [if_pos h2] at h
    cases h
  · exact not_not.mp h2

/- Core of the amended C3: in a world without portal links, a source
active under the supply policy is active under the default policy. -/
theorem active_supply_imp_default {faction : Faction} {world : World}
    (hlinks : world.portal_links = []) (cell : Coord)
    (h : ReachabilityChecker.is_source_active cell faction world true = true) :
    ReachabilityChecker.is_source_active cell faction world false = true := by
  unfold ReachabilityChecker.is_source_active at h ⊢
  by_cases hbase : cell = faction.base
  · rw [if_pos hbase]
  · rw [if_neg hbase] at h ⊢
    rw [if_pos rfl, link_of_nil hlinks] at h
    have hconn : ReachabilityChecker.check_supply_connection cell faction world =
        true := h
    have htf := supply_conn_in_tf hconn hbase
    rcases supply_conn_sound hlinks cell hconn with hcell | ⟨v, hreach, hadj⟩
    · exact absurd hcell hbase
    · by_cases hterr : cell ∈ faction.territory
      · rw [if_neg (by simp), if_pos hterr]
      · have hfort : cell ∈ faction.fortresses := htf.resolve_left hterr
        rw [if_neg (by simp), if_neg hterr, if_pos hfort, link_of_nil hlinks]
        rw [if_neg (by simp)]
        exact fortress_conn_complete cell (reach_tf_to_fortress faction v hreach cell hadj)

/- Lift of the source-activity implication over the neighbour scan of
the two reachability policies. -/
theorem reachable_supply_imp_default {faction : Faction} {world : World}
    (hlinks : world.portal_links = []) (target : Coord) (cells : Finset Coord)
    (h : ReachabilityChecker.has_reachable_source_supply target faction cells
      world = true) :
    ReachabilityChecker.has_reachable_source_default target faction cells
      world = true := by
  unfold ReachabilityChecker.has_reachable_source_supply
    ReachabilityChecker.has_reachable_source at h
  unfold ReachabilityChecker.has_reachable_source_default
    ReachabilityChecker.has_reachable_source
  rw [List.any_eq_true] at h ⊢
  obtain ⟨n, hn, hcond⟩ := h
  rw [Bool.and_eq_true] at hcond
  refine ⟨n, hn, ?_⟩
  rw [Bool.and_eq_true]
  exact ⟨hcond.1, active_supply_imp_default hlinks n hcond.2⟩

/-- C3 (amended): in every world whose portal-link table is empty,
supply mode strictly narrows legality — a target that `validate`
allows with the supply flag set is also allowed with the supply flag
cleared, all other inputs fixed. With portal links present the claim
fails: supply-mode BFS traverses links as edges, so a fortress group
connected to the base only through a portal can be an active source
under supply mode while the default fortress chain (which only walks
adjacent fortresses) rejects it. -/
theorem supply_narrows_default_without_portals (gs : GameplayState)
    (target : Coord) (my : Faction) (factions : List Faction) (world : World)
    (c m : Bool) (conv : Finset Coord)
    (hlinks : world.portal_links = [])
    (h : (BuildValidator.validate gs target my factions world
      ⟨c, true, m⟩ conv).allowed = true) :
    (BuildValidator.validate gs target my factions world
      ⟨c, false, m⟩ conv).allowed = true := by
  rw [validate_eq] at h ⊢
  by_cases h1 : BuildValidator.is_own_cell target (my.all_buildings ∪ {my.base}) = true
  · rw [if_pos h1] at h
    cases h
  · rw [if_neg h1] at h ⊢
    by_cases h2 : BuildValidator.can_capture factions
        (OwnerResolver.resolve target my factions world) ⟨c, true, m⟩ = true
    · have h2' : BuildValidator.can_capture factions
          (OwnerResolver.resolve target my factions world) ⟨c, false, m⟩ = true := h2
      rw [if_neg (fun hc => hc h2)] at h
      rw [if_neg (fun hc => hc h2')]
      by_cases h3 : BuildValidator.has_reachable_source target my
          (my.all_buildings ∪ {my.base}) world ⟨c, true, m⟩ = true
      · have h3s : ReachabilityChecker.has_reachable_source_supply target my
            (my.all_buildings ∪ {my.base}) world = true := h3
        have h3d := reachable_supply_imp_default hlinks target
          (my.all_buildings ∪ {my.base}) h3s
        have h3' : BuildValidator.has_reachable_source target my
            (my.all_buildings ∪ {my.base}) world ⟨c, false, m⟩ = true := h3d
        rw [if_neg (fun hc => hc h3')]
      · rw [if_pos h3] at h
        cases h
    · rw [if_pos h2] at h
      cases h

/-- C3 counterexample: portals at (0,1) and (5,5) linked both ways,
fortresses {(0,1), (5,5), (5,6)}, base (0,0). Building at (5,7) is
allowed under supply mode (the supply BFS crosses the portal link to
reach the fortress (5,6)) but rejected under the default policy (the
fortress chain from (5,6) never touches territory or the base), so
supply-mode legality does not imply default legality in general. -/
theorem supply_narrows_counterexample :
    (BuildValidator.validate {} ⟨5, 7⟩
        { name := "Blue", base := ⟨0, 0⟩,
          fortresses := {(⟨0, 1⟩ : Coord), ⟨5, 5⟩, ⟨5, 6⟩} }
        [{ name := "Blue", base := ⟨0, 0⟩,
           fortresses := {(⟨0, 1⟩ : Coord), ⟨5, 5⟩, ⟨5, 6⟩} }]
        { width := 10, height := 10,
          terrain := fun c =>
            if c = ⟨0, 1⟩ ∨ c = ⟨5, 5⟩ then some TerrainConfig.portal else none,
          portals := [(⟨0, 1⟩, none), (⟨5, 5⟩, none)],
          portal_links := [(⟨0, 1⟩, ⟨5, 5⟩), (⟨5, 5⟩, ⟨0, 1⟩)] }
        { supply := true } ∅).allowed = true ∧
    (BuildValidator.validate {} ⟨5, 7⟩
        { name := "Blue", base := ⟨0, 0⟩,
          fortresses := {(⟨0, 1⟩ : Coord), ⟨5, 5⟩, ⟨5, 6⟩} }
        [{ name := "Blue", base := ⟨0, 0⟩,
           fortresses := {(⟨0, 1⟩ : Coord), ⟨5, 5⟩, ⟨5, 6⟩} }]
        { width := 10, height := 10,
          terrain := fun c =>
            if c = ⟨0, 1⟩ ∨ c = ⟨5, 5⟩ then some TerrainConfig.portal else none,
          portals := [(⟨0, 1⟩, none), (⟨5, 5⟩, none)],
          portal_links := [(⟨0, 1⟩, ⟨5, 5⟩), (⟨5, 5⟩, ⟨0, 1⟩)] }
        {} ∅).allowed = false := by decide

/-- C3 witness: a 7 wide corridor with no portal links, territory
(1,0), (2,0) and target (3,0) — legal under supply mode, and the
theorem transports that to the default policy. -/
theorem supply_narrows_witness :
    ({ width := 7, height := 1 } : World).portal_links = [] ∧
    (BuildValidator.validate {} ⟨3, 0⟩
        { name := "Blue", base := ⟨0, 0⟩,
          territory := {(⟨1, 0⟩ : Coord), ⟨2, 0⟩} }
        [{ name := "Blue", base := ⟨0, 0⟩,
           territory := {(⟨1, 0⟩ : Coord), ⟨2, 0⟩} }]
        { width := 7, height := 1 } ⟨false, true, false⟩ ∅).allowed = true ∧
    (BuildValidator.validate {} ⟨3, 0⟩
        { name := "Blue", base := ⟨0, 0⟩,
          territory := {(⟨1, 0⟩ : Coord), ⟨2, 0⟩} }
        [{ name := "Blue", base := ⟨0, 0⟩,
           territory := {(⟨1, 0⟩ : Coord), ⟨2, 0⟩} }]
        { width := 7, height := 1 } ⟨false, false, false⟩ ∅).allowed = true :=
  ⟨rfl, by decide,
   supply_narrows_default_without_portals {} ⟨3, 0⟩
     { name := "Blue", base := ⟨0, 0⟩,
       territory := {(⟨1, 0⟩ : Coord), ⟨2, 0⟩} }
     [{ name := "Blue", base := ⟨0, 0⟩,
        territory := {(⟨1, 0⟩ : Coord), ⟨2, 0⟩} }]
     { width := 7, height := 1 } false false ∅ rfl (by decide)⟩

/- Stripping touches only the five category sets. -/
theorem strip_alive (f : Faction) (c : Coord) :
    (MoveExecutor.strip_structures f c).alive = f.alive := by
  rw [strip_structures_eq]

theorem strip_base (f : Faction) (c : Coord) :
    (MoveExecutor.strip_structures f c).base = f.base := by
  rw [strip_structures_eq]

/- Category-set membership after each of the five insertions. -/
theorem add_territory_sets (f : Faction) (c x : Coord) :
    (f.add_territory c).in_category_sets x ↔ x = c ∨ f.in_category_sets x := by
  simp only [Faction.add_territory, Faction.in_category_sets, Finset.mem_insert]
  tauto

theorem add_fortress_sets (f : Faction) (c x : Coord) :
    (f.add_fortress c).in_category_sets x ↔ x = c ∨ f.in_category_sets x := by
  simp only [Faction.add_fortress, Faction.in_category_sets, Finset.mem_insert]
  tauto

theorem add_tower_sets (f : Faction) (c x : Coord) :
    (f.add_tower c).in_category_sets x ↔ x = c ∨ f.in_category_sets x := by
  simp only [Faction.add_tower, Faction.in_category_sets, Finset.mem_insert]
  tauto

theorem add_bridge_sets (f : Faction) (c x : Coord) :
    (f.add_bridge c).in_category_sets x ↔ x = c ∨ f.in_category_sets x := by
  simp only [Faction.add_bridge, Faction.in_category_sets, Finset.mem_insert]
  tauto

theorem add_portal_sets (f : Faction) (c x : Coord) :
    (f.add_portal c).in_category_sets x ↔ x = c ∨ f.in_category_sets x := by
  simp only [Faction.add_portal, Faction.in_category_sets, Finset.mem_insert]
  tauto

/- The classifier rejects exactly the coordinates the faction does not
own (sets or base). -/
theorem classify_none_iff (c : Coord) (f : Faction) (w : World) :
    OwnerResolver.classify_owner c f w = none ↔ ¬f.owns c := by
  unfold OwnerResolver.classify_owner Faction.owns Faction.in_category_sets
  split_ifs <;> simp_all <;> tauto

/- Soundness of one `_find_owner` pass: a hit names a faction distinct
from the querying one that owns the coordinate and matches the pass's
living filter. -/
theorem find_from_some (c : Coord) (my : Faction) (w : World) (af : Bool) :
    ∀ (l : List Faction) (i j : Nat),
      (OwnerResolver.find_owner_from c my l w af i).1 = some j →
      ∃ k, k < l.length ∧ j = i + k ∧
        l.getD k Faction.missing ≠ my ∧
        (l.getD k Faction.missing).owns c ∧
        (l.getD k Faction.missing).alive = af := by
  intro l
  induction l with
  | nil => intro i j h; cases h
  | cons f rest ih =>
    intro i j h
    unfold OwnerResolver.find_owner_from at h
    by_cases h1 : f = my
    · rw [if_pos h1] at h
      obtain ⟨k, hk, hj, hne, hown, hal⟩ := ih (i + 1) j h
      refine ⟨k + 1, ?_, by omega, ?_, ?_, ?_⟩
      · simp only [List.length_cons]; omega
      · rwa [List.getD_cons_succ]
      · rwa [List.getD_cons_succ]
      · rwa [List.getD_cons_succ]
    · rw [if_neg h1] at h
      by_cases h2 : (af = true) ∧ ¬(f.alive = true)
      · rw [if_pos h2] at h
        obtain ⟨k, hk, hj, hne, hown, hal⟩ := ih (i + 1) j h
        refine ⟨k + 1, ?_, by omega, ?_, ?_, ?_⟩
        · simp only [List.length_cons]; omega
        · rwa [List.getD_cons_succ]
        · rwa [List.getD_cons_succ]
        · rwa [List.getD_cons_succ]
      · rw [if_neg h2] at h
        by_cases h3 : ¬(af = true) ∧ (f.alive = true)
        · rw [if_pos h3] at h
          obtain ⟨k, hk, hj, hne, hown, hal⟩ := ih (i + 1) j h
          refine ⟨k + 1, ?_, by omega, ?_, ?_, ?_⟩
          · simp only [List.length_cons]; omega
          · rwa [List.getD_cons_succ]
          · rwa [List.getD_cons_succ]
          · rwa [List.getD_cons_succ]
        · rw [if_neg h3] at h
          cases hc : OwnerResolver.classify_owner c f w with
          | none =>
            rw [hc] at h
            obtain ⟨k, hk, hj, hne, hown, hal⟩ := ih (i + 1) j h
            refine ⟨k + 1, ?_, by omega, ?_, ?_, ?_⟩
            · simp only [List.length_cons]; omega
            · rwa [List.getD_cons_succ]
            · rwa [List.getD_cons_succ]
            · rwa [List.getD_cons_succ]
          | some b =>
            rw [hc] at h
            have hij : i = j := by
              simpa using h
            refine ⟨0, by simp, by omega, ?_, ?_, ?_⟩
            · rwa [List.getD_cons_zero]
            · rw [List.getD_cons_zero]
              by_contra hno
              rw [← classify_none_iff c f w] at hno
              rw [hno] at hc
              cases hc
            · rw [List.getD_cons_zero]
              cases haf : af
              · by_contra hfa2
                simp only [Bool.not_eq_false] at hfa2
                exact h3 ⟨by rw [haf]; simp, hfa2⟩
              · by_contra hfa2
                simp only [Bool.not_eq_true] at hfa2
                exact h2 ⟨haf, by rw [hfa2]; simp⟩

/- Completeness of one `_find_owner` pass: a miss means no listed
faction matching the filter (and distinct from the querying one) owns
the coordinate. -/
theorem find_from_none (c : Coord) (my : Faction) (w : World) (af : Bool) :
    ∀ (l : List Faction) (i : Nat),
      (OwnerResolver.find_owner_from c my l w af i).1 = none →
      ∀ k, k < l.length → l.getD k Faction.missing ≠ my →
        (l.getD k Faction.missing).alive = af →
        ¬(l.getD k Faction.missing).owns c := by
  intro l
  induction l with
  | nil =>
    intro i h k hk
    simp at hk
  | cons f rest ih =>
    intro i h k hk hne hal
    unfold OwnerResolver.find_owner_from at h
    cases k with
    | zero =>
      rw [List.getD_cons_zero] at hne hal ⊢
      rw [if_neg hne] at h
      have hc2 : ¬((af = true) ∧ ¬(f.alive = true)) := by
        rw [hal]; cases af <;> simp
      have hc3 : ¬(¬(af = true) ∧ (f.alive = true)) := by
        rw [hal]; cases af <;> simp
      rw [if_neg hc2, if_neg hc3] at h
      cases hc : OwnerResolver.classify_owner c f w with
      | none => exact (classify_none_iff c f w).mp hc
      | some b => rw [hc] at h; cases h
    | succ m =>
      rw [List.getD_cons_succ] at hne hal ⊢
      have hrec : (OwnerResolver.find_owner_from c my rest w af (i + 1)).1 = none := by
        by_cases h1 : f = my
        · rwa [if_pos h1] at h
        · rw [if_neg h1] at h
          by_cases h2 : (af = true) ∧ ¬(f.alive = true)
          · rwa [if_pos h2] at h
          · rw [if_neg h2] at h
            by_cases h3 : ¬(af = true) ∧ (f.alive = true)
            · rwa [if_pos h3] at h
            · rw [if_neg h3] at h
              cases hc : OwnerResolver.classify_owner c f w with
              | none => rwa [hc] at h
              | some b => rw [hc] at h; cases h
      have hm : m < rest.length := by
        simp only [List.length_cons] at hk; omega
      exact ih (i + 1) hrec m hm hne hal

/- A resolved owner is a valid index, is not the querying faction, and
owns the coordinate. -/
theorem resolve_some_facts {c : Coord} {my : Faction} {fs : List Faction}
    {w : World} {i : Nat}
    (h : (OwnerResolver.resolve c my fs w).owner = some i) :
    i < fs.length ∧ fs.getD i Faction.missing ≠ my ∧
      (fs.getD i Faction.missing).owns c := by
  unfold OwnerResolver.resolve OwnerResolver.find_owner at h
  simp only [] at h
  cases h1 : (OwnerResolver.find_owner_from c my fs w true 0).1 with
  | some j =>
    rw [h1] at h
    simp only [OwnerInfo.mk.injEq] at h
    replace h : j = i := Option.some_inj.mp h
    subst h
    obtain ⟨k, hk, hj, hne, hown, hal⟩ := find_from_some c my w true fs 0 j h1
    have : j = k := by omega
    subst this
    exact ⟨hk, hne, hown⟩
  | none =>
    rw [h1] at h
    simp only [] at h
    obtain ⟨k, hk, hj, hne, hown, hal⟩ := find_from_some c my w false fs 0 i h
    have : i = k := by omega
    subst this
    exact ⟨hk, hne, hown⟩

/- When resolution finds no living owner (none at all, or only a dead
one), no living faction other than the querying one owns the
coordinate. -/
theorem resolve_first_pass_none {c : Coord} {my : Faction} {fs : List Faction}
    {w : World}
    (h : (OwnerResolver.resolve c my fs w).owner = none ∨
      ∃ i, (OwnerResolver.resolve c my fs w).owner = some i ∧
        (fs.getD i Faction.missing).alive = false) :
    ∀ k, k < fs.length → fs.getD k Faction.missing ≠ my →
      (fs.getD k Faction.missing).alive = true →
      ¬(fs.getD k Faction.missing).owns c := by
  have hnone : (OwnerResolver.find_owner_from c my fs w true 0).1 = none := by
    cases h1 : (OwnerResolver.find_owner_from c my fs w true 0).1 with
    | none => rfl
    | some j =>
      exfalso
      have hres : (OwnerResolver.resolve c my fs w).owner = some j := by
        unfold OwnerResolver.resolve OwnerResolver.find_owner
        simp only []
        rw [h1]
      obtain ⟨k, hk, hj, hne, hown, hal⟩ := find_from_some c my w true fs 0 j h1
      have hjk : j = k := by omega
      subst hjk
      rcases h with h | ⟨i, hi, hd⟩
      · rw [hres] at h; cases h
      · rw [hres] at hi
        replace hi : j = i := Option.some_inj.mp hi
        subst hi
        rw [hal] at hd
        cases hd
  exact find_from_none c my w true fs 0 hnone

/- Bookkeeping lemmas for the `_cleanup_dead_factions` fold, mirroring
the strip-fold lemmas: fields preserved, living factions untouched,
dead listed factions stripped. -/
theorem cdf_fields (js : List Nat) (c : Coord) (ctx : MoveContext) :
    (js.foldl (fun acc j =>
      if ¬(acc.faction j).alive then MoveExecutor.remove_from_faction_structures j c acc
      else acc) ctx).my_faction = ctx.my_faction ∧
    (js.foldl (fun acc j =>
      if ¬(acc.faction j).alive then MoveExecutor.remove_from_faction_structures j c acc
      else acc) ctx).world = ctx.world ∧
    (js.foldl (fun acc j =>
      if ¬(acc.faction j).alive then MoveExecutor.remove_from_faction_structures j c acc
      else acc) ctx).flags = ctx.flags ∧
    (js.foldl (fun acc j =>
      if ¬(acc.faction j).alive then MoveExecutor.remove_from_faction_structures j c acc
      else acc) ctx).factions.length = ctx.factions.length := by
  induction js generalizing ctx with
  | nil => exact ⟨rfl, rfl, rfl, rfl⟩
  | cons k rest ih =>
    simp only [List.foldl_cons]
    by_cases hk : ¬((ctx.faction k).alive = true)
    · rw [if_pos hk]
      have h1 := remove_fields k c ctx
      have h2 := ih (MoveExecutor.remove_from_faction_structures k c ctx)
      refine ⟨?_, ?_, ?_, ?_⟩
      · rw [h2.1, h1.1]
      · rw [h2.2.1, h1.2.1]
      · rw [h2.2.2.1, h1.2.2.2.2.2.1]
      · rw [h2.2.2.2, remove_length]
    · rw [if_neg hk]
      exact ih ctx

theorem cdf_faction_alive (js : List Nat) (c : Coord) (ctx : MoveContext)
    {j : Nat} (hj : (ctx.faction j).alive = true) :
    (js.foldl (fun acc j =>
      if ¬(acc.faction j).alive then MoveExecutor.remove_from_faction_structures j c acc
      else acc) ctx).faction j = ctx.faction j := by
  induction js generalizing ctx with
  | nil => rfl
  | cons k rest ih =>
    simp only [List.foldl_cons]
    by_cases hkj : k = j
    · subst hkj
      rw [if_neg (fun hc => hc hj)]
      exact ih ctx hj
    · by_cases hk : ¬((ctx.faction k).alive = true)
      · rw [if_pos hk]
        have hpres := remove_faction_ne k c ctx hkj
        rw [ih (MoveExecutor.remove_from_faction_structures k c ctx)
          (by rw [hpres]; exact hj)]
        exact hpres
      · rw [if_neg hk]
        exact ih ctx hj

theorem cdf_faction_not_mem (js : List Nat) (c : Coord) (ctx : MoveContext)
    {j : Nat} (hj : j ∉ js) :
    (js.foldl (fun acc j =>
      if ¬(acc.faction j).alive then MoveExecutor.remove_from_faction_structures j c acc
      else acc) ctx).faction j = ctx.faction j := by
  induction js generalizing ctx with
  | nil => rfl
  | cons k rest ih =>
    simp only [List.foldl_cons]
    have hkj : k ≠ j := fun h => hj (h ▸ List.mem_cons_self k rest)
    have hrest : j ∉ rest := fun h => hj (List.mem_cons_of_mem k h)
    by_cases hk : ¬((ctx.faction k).alive = true)
    · rw [if_pos hk, ih _ hrest]
      exact remove_faction_ne k c ctx hkj
    · rw [if_neg hk]
      exact ih ctx hrest

theorem cdf_faction_dead (js : List Nat) (c : Coord) (ctx : MoveContext)
    {j : Nat} (hnodup : js.Nodup) (hj : j ∈ js)
    (hd : (ctx.faction j).alive = false) (hlt : j < ctx.factions.length) :
    (js.foldl (fun acc j =>
      if ¬(acc.faction j).alive then MoveExecutor.remove_from_faction_structures j c acc
      else acc) ctx).faction j =
      MoveExecutor.strip_structures (ctx.faction j) c := by
  induction js generalizing ctx with
  | nil => cases hj
  | cons k rest ih =>
    simp only [List.foldl_cons]
    rcases List.mem_cons.mp hj with hkj | hrest
    · subst hkj
      rw [if_pos (by rw [hd]; simp)]
      have hnotin : j ∉ rest := (List.nodup_cons.mp hnodup).1
      rw [cdf_faction_not_mem rest c _ hnotin]
      exact remove_faction_self j c ctx hlt
    · have hkj : k ≠ j := by
        intro h
        subst h
        exact (List.nodup_cons.mp hnodup).1 hrest
      by_cases hk : ¬((ctx.faction k).alive = true)
      · rw [if_pos hk]
        have hpres := remove_faction_ne k c ctx hkj
        have := ih (MoveExecutor.remove_from_faction_structures k c ctx)
          (List.nodup_cons.mp hnodup).2 hrest
          (by rw [hpres]; exact hd)
          (by rw [remove_length]; exact hlt)
        rw [this, hpres]
      · rw [if_neg hk]
        exact ih ctx (List.nodup_cons.mp hnodup).2 hrest hd hlt

theorem cleanup_fields (c : Coord) (ctx : MoveContext) :
    (MoveExecutor.cleanup_dead_factions c ctx).my_faction = ctx.my_faction ∧
    (MoveExecutor.cleanup_dead_factions c ctx).world = ctx.world ∧
    (MoveExecutor.cleanup_dead_factions c ctx).flags = ctx.flags ∧
    (MoveExecutor.cleanup_dead_factions c ctx).factions.length =
      ctx.factions.length :=
  cdf_fields (List.range ctx.factions.length) c ctx

theorem cleanup_faction_alive (c : Coord) (ctx : MoveContext) {j : Nat}
    (hj : (ctx.faction j).alive = true) :
    (MoveExecutor.cleanup_dead_factions c ctx).faction j = ctx.faction j :=
  cdf_faction_alive (List.range ctx.factions.length) c ctx hj

theorem cleanup_faction_dead (c : Coord) (ctx : MoveContext) {j : Nat}
    (hd : (ctx.faction j).alive = false) (hlt : j < ctx.factions.length) :
    (MoveExecutor.cleanup_dead_factions c ctx).faction j =
      MoveExecutor.strip_structures (ctx.faction j) c :=
  cdf_faction_dead (List.range ctx.factions.length) c ctx (List.nodup_range _)
    (List.mem_range.mpr hlt) hd hlt

theorem cleanup_faction_oob (c : Coord) (ctx : MoveContext) {j : Nat}
    (hge : ctx.factions.length ≤ j) :
    (MoveExecutor.cleanup_dead_factions c ctx).faction j = ctx.faction j :=
  cdf_faction_not_mem (List.range ctx.factions.length) c ctx
    (fun h => absurd (List.mem_range.mp h) (by omega))

/- Record-update projections used to chase factions through the
executor's world and log updates. -/
theorem update_world_faction (A : MoveContext) (w : World) (j : Nat) :
    ({ A with world := w } : MoveContext).faction j = A.faction j := rfl

theorem update_world_my (A : MoveContext) (w : World) :
    ({ A with world := w } : MoveContext).my_faction = A.my_faction := rfl

theorem update_world_length (A : MoveContext) (w : World) :
    ({ A with world := w } : MoveContext).factions.length = A.factions.length := rfl

theorem update_ct_faction (A : MoveContext) (x : Finset Coord) (e : EventLog)
    (j : Nat) :
    ({ A with captured_towers := x, event_log := e } : MoveContext).faction j =
      A.faction j := rfl

theorem update_ct_my (A : MoveContext) (x : Finset Coord) (e : EventLog) :
    ({ A with captured_towers := x, event_log := e } : MoveContext).my_faction =
      A.my_faction := rfl

theorem update_ct_length (A : MoveContext) (x : Finset Coord) (e : EventLog) :
    ({ A with captured_towers := x, event_log := e } : MoveContext).factions.length =
      A.factions.length := rfl

/- Behaviour of `_capture_tower` on the faction list: the acting
faction gains the tower and fortress entries, everyone else is
untouched. -/
theorem ct_fields (cell : Coord) (ctx : MoveContext) :
    (MoveExecutor.capture_tower cell ctx).my_faction = ctx.my_faction ∧
    (MoveExecutor.capture_tower cell ctx).factions.length =
      ctx.factions.length := by
  unfold MoveExecutor.capture_tower
  simp only [add_fortress_true, modifyFaction_my, update_world_my]
  split_ifs with hcap
  · constructor
    · rw [update_ct_my, record_age_my, modifyFaction_my, modifyFaction_my,
        update_world_my]
    · rw [update_ct_length, record_age_length, modifyFaction_length,
        modifyFaction_length, update_world_length]
  · constructor
    · rw [record_age_my, modifyFaction_my, modifyFaction_my, update_world_my]
    · rw [record_age_length, modifyFaction_length, modifyFaction_length,
        update_world_length]

theorem ct_faction_my (cell : Coord) (ctx : MoveContext)
    (hm : ctx.my_faction < ctx.factions.length) :
    (MoveExecutor.capture_tower cell ctx).faction ctx.my_faction =
      ((ctx.faction ctx.my_faction).add_tower cell).add_fortress cell := by
  unfold MoveExecutor.capture_tower
  simp only [add_fortress_true, modifyFaction_my, update_world_my]
  have h1 : ctx.my_faction <
      ({ ctx with world := ctx.world.remove_tower cell } : MoveContext).factions.length := by
    rw [update_world_length]; exact hm
  have h2 : ctx.my_faction <
      (({ ctx with world := ctx.world.remove_tower cell } : MoveContext).modifyFaction
        ctx.my_faction (fun f => f.add_tower cell)).factions.length := by
    rw [modifyFaction_length, update_world_length]; exact hm
  split_ifs with hcap <;>
    rw [update_ct_faction, record_age_faction, modifyFaction_faction_self _ _ _ h2,
      modifyFaction_faction_self _ _ _ h1, update_world_faction]

theorem ct_faction_other (cell : Coord) (ctx : MoveContext) {j : Nat}
    (hne : j ≠ ctx.my_faction) :
    (MoveExecutor.capture_tower cell ctx).faction j = ctx.faction j := by
  unfold MoveExecutor.capture_tower
  simp only [add_fortress_true, modifyFaction_my, update_world_my]
  have hne' : ctx.my_faction ≠ j := fun h => hne h.symm
  split_ifs with hcap <;>
    rw [update_ct_faction, record_age_faction, modifyFaction_faction_ne _ _ hne',
      modifyFaction_faction_ne _ _ hne', update_world_faction]

/- Unfolding of `_capture_portal` by the link-table lookup. -/
theorem cp_eq_none (cell : Coord) (ctx : MoveContext)
    (hl : ctx.world.link_of cell = none) :
    MoveExecutor.capture_portal cell ctx =
      MoveExecutor.capture_portal_one cell ctx := by
  unfold MoveExecutor.capture_portal
  have h := link_of_congr (cpo_fields cell ctx).2.2 cell
  show (match (MoveExecutor.capture_portal_one cell ctx).world.link_of cell with
    | some l => MoveExecutor.capture_portal_one l
        (MoveExecutor.capture_portal_one cell ctx)
    | none => MoveExecutor.capture_portal_one cell ctx) =
    MoveExecutor.capture_portal_one cell ctx
  rw [h, hl]

theorem cp_eq_some (cell L : Coord) (ctx : MoveContext)
    (hl : ctx.world.link_of cell = some L) :
    MoveExecutor.capture_portal cell ctx =
      MoveExecutor.capture_portal_one L
        (MoveExecutor.capture_portal_one cell ctx) := by
  unfold MoveExecutor.capture_portal
  have h := link_of_congr (cpo_fields cell ctx).2.2 cell
  show (match (MoveExecutor.capture_portal_one cell ctx).world.link_of cell with
    | some l => MoveExecutor.capture_portal_one l
        (MoveExecutor.capture_portal_one cell ctx)
    | none => MoveExecutor.capture_portal_one cell ctx) =
    MoveExecutor.capture_portal_one L (MoveExecutor.capture_portal_one cell ctx)
  rw [h, hl]

/- The mountain-discount step after `apply`'s dispatch touches only the
converted-mountain set. -/
theorem mwrap_faction (P : Prop) [Decidable P] (c1 : MoveContext) (cell : Coord)
    (j : Nat) :
    ((if P then { c1 with converted_mountains := insert cell c1.converted_mountains }
      else c1) : MoveContext).faction j = c1.faction j := by
  split_ifs <;> rfl

theorem mwrap_my (P : Prop) [Decidable P] (c1 : MoveContext) (cell : Coord) :
    ((if P then { c1 with converted_mountains := insert cell c1.converted_mountains }
      else c1) : MoveContext).my_faction = c1.my_faction := by
  split_ifs <;> rfl

theorem mwrap_length (P : Prop) [Decidable P] (c1 : MoveContext) (cell : Coord) :
    ((if P then { c1 with converted_mountains := insert cell c1.converted_mountains }
      else c1) : MoveContext).factions.length = c1.factions.length := by
  split_ifs <;> rfl

/- Reductions of `apply` to its no-living-owner branch. -/
theorem apply_owner_none (cell : Coord) (r : BuildResult) (ctx : MoveContext)
    (hw : r.owner = none) :
    MoveExecutor.apply cell r ctx =
      (let ctx1 := MoveExecutor.apply.apply_no_living_owner cell r ctx
        (ctx.world.get_terrain_type cell = TerrainType.WATER)
        (ctx.world.get_terrain_type cell = TerrainType.BRIDGE)
        (ctx.world.get_terrain_type cell = TerrainType.PORTAL)
        (ctx.world.get_terrain_type cell = TerrainType.TOWER ∨
          ctx.world.has_neutral_tower cell)
      if ctx.world.get_terrain_type cell = TerrainType.MOUNTAIN ∧
          ctx1.flags.mountain_efficiency then
        { ctx1 with converted_mountains := insert cell ctx1.converted_mountains }
      else ctx1) := by
  unfold MoveExecutor.apply
  rw [hw]

theorem apply_owner_dead (cell : Coord) (r : BuildResult) (ctx : MoveContext)
    (i : Nat) (hw : r.owner = some i) (ha : (ctx.faction i).alive = false) :
    MoveExecutor.apply cell r ctx =
      (let ctx1 := MoveExecutor.apply.apply_no_living_owner cell r ctx
        (ctx.world.get_terrain_type cell = TerrainType.WATER)
        (ctx.world.get_terrain_type cell = TerrainType.BRIDGE)
        (ctx.world.get_terrain_type cell = TerrainType.PORTAL)
        (ctx.world.get_terrain_type cell = TerrainType.TOWER ∨
          ctx.world.has_neutral_tower cell)
      if ctx.world.get_terrain_type cell = TerrainType.MOUNTAIN ∧
          ctx1.flags.mountain_efficiency then
        { ctx1 with converted_mountains := insert cell ctx1.converted_mountains }
      else ctx1) := by
  unfold MoveExecutor.apply
  rw [hw]
  simp only [ha, Bool.false_eq_true, if_false]

theorem shadowOf_refl (f : Faction) : shadowOf f f :=
  ⟨fun h => h, fun _ h => h⟩

theorem shadowOf_strip (f : Faction) (c : Coord) :
    shadowOf f (MoveExecutor.strip_structures f c) :=
  ⟨fun h => by rwa [strip_alive] at h, fun x => strip_sets_subset f c x⟩

theorem shadowOf_trans {f g h : Faction} (h1 : shadowOf f g) (h2 : shadowOf g h) :
    shadowOf f h :=
  ⟨fun ha => h1.1 (h2.1 ha), fun x hx => h1.2 x (h2.2 x hx)⟩

theorem add_alive_eqs (f : Faction) (c : Coord) :
    (f.add_territory c).alive = f.alive ∧ (f.add_fortress c).alive = f.alive ∧
    (f.add_tower c).alive = f.alive ∧ (f.add_bridge c).alive = f.alive ∧
    (f.add_portal c).alive = f.alive :=
  ⟨rfl, rfl, rfl, rfl, rfl⟩

theorem update_el_faction (A : MoveContext) (e : EventLog) (j : Nat) :
    ({ A with event_log := e } : MoveContext).faction j = A.faction j := rfl

theorem update_el_length (A : MoveContext) (e : EventLog) :
    ({ A with event_log := e } : MoveContext).factions.length =
      A.factions.length := rfl

/- Summary of `_capture_portal` for the ownership invariant: endpoints
move to the acting faction, all other factions are stripped at both
endpoints and otherwise only lose set members. -/
theorem cp_master (cell : Coord) (ctx : MoveContext)
    (hm : ctx.my_faction < ctx.factions.length) :
    (MoveExecutor.capture_portal cell ctx).factions.length =
      ctx.factions.length ∧
    (∀ j, j < ctx.factions.length → j ≠ ctx.my_faction →
      shadowOf (ctx.faction j)
        ((MoveExecutor.capture_portal cell ctx).faction j)) ∧
    (∀ j, j < ctx.factions.length → j ≠ ctx.my_faction →
      ¬((MoveExecutor.capture_portal cell ctx).faction j).in_category_sets cell) ∧
    (∀ x, ((MoveExecutor.capture_portal cell ctx).faction
        ctx.my_faction).in_category_sets x →
      (ctx.faction ctx.my_faction).in_category_sets x ∨ x = cell ∨
        (∀ j, j < ctx.factions.length → j ≠ ctx.my_faction →
          ¬((MoveExecutor.capture_portal cell ctx).faction j).in_category_sets x)) ∧
    ((MoveExecutor.capture_portal cell ctx).faction ctx.my_faction).alive =
      (ctx.faction ctx.my_faction).alive ∧
    ((MoveExecutor.capture_portal cell ctx).faction
      ctx.my_faction).in_category_sets cell := by
  cases hl : ctx.world.link_of cell with
  | none =>
    rw [cp_eq_none cell ctx hl]
    have hother := fun (j : Nat) (hne : j ≠ ctx.my_faction)
        (hlt : j < ctx.factions.length) => cpo_faction_other cell ctx hne hlt
    have hmyf := cpo_faction_my cell ctx hm
    refine ⟨(cpo_fields cell ctx).2.1, ?_, ?_, ?_, ?_, ?_⟩
    · intro j hj hne
      rw [hother j hne hj]
      exact shadowOf_strip _ cell
    · intro j hj hne
      rw [hother j hne hj]
      exact strip_not_sets _ cell
    · intro x hx
      rw [hmyf] at hx
      rcases (add_fortress_sets _ cell x).mp hx with hx | hx
      · exact Or.inr (Or.inl hx)
      · rcases (add_portal_sets _ cell x).mp hx with hx | hx
        · exact Or.inr (Or.inl hx)
        · exact Or.inl hx
    · rw [hmyf]
      exact (add_alive_eqs _ cell).2.1.trans (add_alive_eqs _ cell).2.2.2.2
    · rw [hmyf]
      exact (add_fortress_sets _ cell cell).mpr (Or.inl rfl)
  | some L =>
    rw [cp_eq_some cell L ctx hl]
    set mid := MoveExecutor.capture_portal_one cell ctx with hmid
    have hmidf := cpo_fields cell ctx
    have hmidmy : mid.my_faction = ctx.my_faction := hmidf.1
    have hmidlen : mid.factions.length = ctx.factions.length := hmidf.2.1
    have hm2 : mid.my_faction < mid.factions.length := by
      rw [hmidmy, hmidlen]; exact hm
    have houter := fun (j : Nat) (hne : j ≠ mid.my_faction)
        (hlt : j < mid.factions.length) => cpo_faction_other L mid hne hlt
    have hinner := fun (j : Nat) (hne : j ≠ ctx.my_faction)
        (hlt : j < ctx.factions.length) => cpo_faction_other cell ctx hne hlt
    have hothers : ∀ j, j < ctx.factions.length → j ≠ ctx.my_faction →
        (MoveExecutor.capture_portal_one L mid).faction j =
          MoveExecutor.strip_structures
            (MoveExecutor.strip_structures (ctx.faction j) cell) L := by
      intro j hj hne
      rw [houter j (by rw [hmidmy]; exact hne) (by rw [hmidlen]; exact hj),
        hinner j hne hj]
    have hmyouter : (MoveExecutor.capture_portal_one L mid).faction ctx.my_faction =
        ((((ctx.faction ctx.my_faction).add_portal cell).add_fortress
          cell).add_portal L).add_fortress L := by
      have h1 := cpo_faction_my L mid hm2
      rw [hmidmy] at h1
      rw [h1, hmid, cpo_faction_my cell ctx hm]
    refine ⟨?_, ?_, ?_, ?_, ?_, ?_⟩
    · rw [(cpo_fields L mid).2.1, hmidlen]
    · intro j hj hne
      rw [hothers j hj hne]
      exact shadowOf_trans (shadowOf_strip _ cell) (shadowOf_strip _ L)
    · intro j hj hne
      rw [hothers j hj hne]
      intro hmem
      exact strip_not_sets _ cell (strip_sets_subset _ L cell hmem)
    · intro x hx
      rw [hmyouter] at hx
      rcases (add_fortress_sets _ L x).mp hx with hx | hx
      · subst hx
        refine Or.inr (Or.inr ?_)
        intro j hj hne
        rw [hothers j hj hne]
        exact strip_not_sets _ x
      · rcases (add_portal_sets _ L x).mp hx with hx | hx
        · subst hx
          refine Or.inr (Or.inr ?_)
          intro j hj hne
          rw [hothers j hj hne]
          exact strip_not_sets _ x
        · rcases (add_fortress_sets _ cell x).mp hx with hx | hx
          · exact Or.inr (Or.inl hx)
          · rcases (add_portal_sets _ cell x).mp hx with hx | hx
            · exact Or.inr (Or.inl hx)
            · exact Or.inl hx
    · rw [hmyouter]
      rfl
    · rw [hmyouter]
      refine (add_fortress_sets _ L cell).mpr (Or.inr ?_)
      refine (add_portal_sets _ L cell).mpr (Or.inr ?_)
      exact (add_fortress_sets _ cell cell).mpr (Or.inl rfl)

/- Summary of the shared optional-bridge-then-fortress tail of the
capture branches. -/
theorem fb_tail (cell : Coord) (ctx : MoveContext) (B : Prop) [Decidable B]
    (hm : ctx.my_faction < ctx.factions.length) :
    (MoveExecutor.add_fortress
      ((if B then ctx.modifyFaction ctx.my_faction (fun f => f.add_bridge cell)
        else ctx) : MoveContext).my_faction cell
      ((if B then ctx.modifyFaction ctx.my_faction (fun f => f.add_bridge cell)
        else ctx) : MoveContext) true).factions.length = ctx.factions.length ∧
    (∀ j, j ≠ ctx.my_faction →
      (MoveExecutor.add_fortress
        ((if B then ctx.modifyFaction ctx.my_faction (fun f => f.add_bridge cell)
          else ctx) : MoveContext).my_faction cell
        ((if B then ctx.modifyFaction ctx.my_faction (fun f => f.add_bridge cell)
          else ctx) : MoveContext) true).faction j = ctx.faction j) ∧
    (MoveExecutor.add_fortress
      ((if B then ctx.modifyFaction ctx.my_faction (fun f => f.add_bridge cell)
        else ctx) : MoveContext).my_faction cell
      ((if B then ctx.modifyFaction ctx.my_faction (fun f => f.add_bridge cell)
        else ctx) : MoveContext) true).faction ctx.my_faction =
      (if B then (ctx.faction ctx.my_faction).add_bridge cell
        else ctx.faction ctx.my_faction).add_fortress cell := by
  by_cases hB : B
  · simp only [if_pos hB, add_fortress_true, modifyFaction_my]
    have h1 : ctx.my_faction <
        (ctx.modifyFaction ctx.my_faction (fun f => f.add_bridge cell)).factions.length := by
      rw [modifyFaction_length]; exact hm
    refine ⟨?_, ?_, ?_⟩
    · rw [record_age_length, modifyFaction_length, modifyFaction_length]
    · intro j hne
      have hne' : ctx.my_faction ≠ j := fun h => hne h.symm
      rw [record_age_faction, modifyFaction_faction_ne _ _ hne',
        modifyFaction_faction_ne _ _ hne']
    · rw [record_age_faction, modifyFaction_faction_self _ _ _ h1,
        modifyFaction_faction_self _ _ _ hm]
  · simp only [if_neg hB, add_fortress_true]
    refine ⟨?_, ?_, ?_⟩
    · rw [record_age_length, modifyFaction_length]
    · intro j hne
      have hne' : ctx.my_faction ≠ j := fun h => hne h.symm
      rw [record_age_faction, modifyFaction_faction_ne _ _ hne']
    · rw [record_age_faction, modifyFaction_faction_self _ _ _ hm]

/- Unfolding of `_handle_capture_from_owner` off the base-capture
branch. -/
theorem handle_nonbase (cell : Coord) (i : Nat) (ctx : MoveContext)
    (P T B : Prop) [Decidable P] [Decidable T] [Decidable B]
    (hb : cell ≠ (ctx.faction i).base) :
    MoveExecutor.handle_capture_from_owner cell i ctx P T B =
      (let ctx1 := MoveExecutor.remove_from_faction_structures i cell ctx
      if P then MoveExecutor.capture_portal cell ctx1
      else if T then MoveExecutor.capture_tower cell ctx1
      else
        let ctx2 := if B then ctx1.modifyFaction ctx1.my_faction
          (fun f => f.add_bridge cell) else ctx1
        MoveExecutor.add_fortress ctx2.my_faction cell ctx2 true) := by
  unfold MoveExecutor.handle_capture_from_owner
  rw [if_neg hb]

/- Summary of `_handle_capture_from_owner` for the ownership invariant:
other factions only lose set members (the owner loses the cell when it
is not its base, or its life when it is), and the acting faction gains
only the cell and, on a portal, its linked endpoint - an endpoint then
held by no other faction. -/
theorem handle_core (cell : Coord) (i : Nat) (ctx : MoveContext)
    (P T B : Prop) [Decidable P] [Decidable T] [Decidable B]
    (hm : ctx.my_faction < ctx.factions.length)
    (hilt : i < ctx.factions.length)
    (hine : i ≠ ctx.my_faction) :
    (MoveExecutor.handle_capture_from_owner cell i ctx P T B).factions.length =
      ctx.factions.length ∧
    (∀ j, j < ctx.factions.length → j ≠ ctx.my_faction →
      shadowOf (ctx.faction j)
        ((MoveExecutor.handle_capture_from_owner cell i ctx P T B).faction j)) ∧
    ((MoveExecutor.handle_capture_from_owner cell i ctx P T B).faction
      ctx.my_faction).alive = (ctx.faction ctx.my_faction).alive ∧
    (∀ x, ((MoveExecutor.handle_capture_from_owner cell i ctx P T B).faction
        ctx.my_faction).in_category_sets x →
      (ctx.faction ctx.my_faction).in_category_sets x ∨ x = cell ∨
        (∀ j, j < ctx.factions.length → j ≠ ctx.my_faction →
          ¬((MoveExecutor.handle_capture_from_owner cell i ctx
            P T B).faction j).in_category_sets x)) ∧
    (cell = (ctx.faction i).base →
      ((MoveExecutor.handle_capture_from_owner cell i ctx P T B).faction i).alive =
        false) ∧
    (cell ≠ (ctx.faction i).base →
      ¬((MoveExecutor.handle_capture_from_owner cell i ctx P T B).faction
        i).in_category_sets cell ∧
      ((MoveExecutor.handle_capture_from_owner cell i ctx P T B).faction
        ctx.my_faction).in_category_sets cell) := by
  by_cases hb : cell = (ctx.faction i).base
  · have heq := handle_base cell i ctx P T B hb
    have hlen1 : ctx.my_faction <
        (ctx.modifyFaction i fun f => { f with alive := false }).factions.length := by
      rw [modifyFaction_length]; exact hm
    have hfi : (MoveExecutor.handle_capture_from_owner cell i ctx P T B).faction i =
        { ctx.faction i with alive := false } := by
      rw [heq]
      simp only [update_el_faction]
      simp only [add_fortress_false, modifyFaction_my]
      rw [modifyFaction_faction_ne _ _ (fun h => hine h.symm),
        modifyFaction_faction_self _ _ _ hilt]
    have hfmy : (MoveExecutor.handle_capture_from_owner cell i ctx P T B).faction
        ctx.my_faction = (ctx.faction ctx.my_faction).add_fortress cell := by
      rw [heq]
      simp only [update_el_faction]
      simp only [add_fortress_false, modifyFaction_my]
      rw [modifyFaction_faction_self _ _ _ hlen1,
        modifyFaction_faction_ne _ _ hine]
    have hfo : ∀ j, j ≠ i → j ≠ ctx.my_faction →
        (MoveExecutor.handle_capture_from_owner cell i ctx P T B).faction j =
          ctx.faction j := by
      intro j hji hjm
      rw [heq]
      simp only [update_el_faction]
      simp only [add_fortress_false, modifyFaction_my]
      rw [modifyFaction_faction_ne _ _ (fun h => hjm h.symm),
        modifyFaction_faction_ne _ _ (fun h => hji h.symm)]
    have hL : (MoveExecutor.handle_capture_from_owner cell i ctx
        P T B).factions.length = ctx.factions.length := by
      rw [heq]
      simp only [update_el_length]
      simp only [add_fortress_false]
      rw [modifyFaction_length, modifyFaction_length]
    refine ⟨hL, ?_, ?_, ?_, fun _ => by rw [hfi], fun hc => absurd hb hc⟩
    · intro j hj hne
      by_cases hji : j = i
      · subst hji
        rw [hfi]
        exact ⟨fun h => by simp at h, fun x hx => hx⟩
      · rw [hfo j hji hne]
        exact shadowOf_refl _
    · rw [hfmy]
      rfl
    · intro x hx
      rw [hfmy] at hx
      rcases (add_fortress_sets _ cell x).mp hx with hx | hx
      · exact Or.inr (Or.inl hx)
      · exact Or.inl hx
  · have heq := handle_nonbase cell i ctx P T B hb
    have hC1my : (MoveExecutor.remove_from_faction_structures i cell ctx).my_faction =
        ctx.my_faction := (remove_fields i cell ctx).1
    have hC1len : (MoveExecutor.remove_from_faction_structures i cell
        ctx).factions.length = ctx.factions.length := remove_length i cell ctx
    have hCm : (MoveExecutor.remove_from_faction_structures i cell ctx).my_faction <
        (MoveExecutor.remove_from_faction_structures i cell ctx).factions.length := by
      rw [hC1my, hC1len]; exact hm
    have hC1my' : (MoveExecutor.remove_from_faction_structures i cell ctx).faction
        ctx.my_faction = ctx.faction ctx.my_faction :=
      remove_faction_ne i cell ctx hine
    have hC1i : (MoveExecutor.remove_from_faction_structures i cell ctx).faction i =
        MoveExecutor.strip_structures (ctx.faction i) cell :=
      remove_faction_self i cell ctx hilt
    have hC1sh : ∀ j, j ≠ ctx.my_faction →
        shadowOf (ctx.faction j)
          ((MoveExecutor.remove_from_faction_structures i cell ctx).faction j) := by
      intro j hne
      by_cases hji : j = i
      · subst hji
        rw [hC1i]
        exact shadowOf_strip _ cell
      · rw [remove_faction_ne i cell ctx (fun h => hji h.symm)]
        exact shadowOf_refl _
    by_cases hP : P
    · have heq2 : MoveExecutor.handle_capture_from_owner cell i ctx P T B =
          MoveExecutor.capture_portal cell
            (MoveExecutor.remove_from_faction_structures i cell ctx) := by
        rw [heq]; simp only [if_pos hP]
      have hmas := cp_master cell (MoveExecutor.remove_from_faction_structures
        i cell ctx) hCm
      rw [hC1my] at hmas
      refine ⟨?_, ?_, ?_, ?_, fun hc => absurd hc hb, fun _ => ⟨?_, ?_⟩⟩
      · rw [heq2, hmas.1, hC1len]
      · intro j hj hne
        rw [heq2]
        exact shadowOf_trans (hC1sh j hne)
          (hmas.2.1 j (by rw [hC1len]; exact hj) hne)
      · rw [heq2, hmas.2.2.2.2.1, hC1my']
      · intro x hx
        rw [heq2] at hx
        rcases hmas.2.2.2.1 x hx with hx | hx | hx
        · rw [hC1my'] at hx
          exact Or.inl hx
        · exact Or.inr (Or.inl hx)
        · refine Or.inr (Or.inr ?_)
          intro j hj hne
          rw [heq2]
          exact hx j (by rw [hC1len]; exact hj) hne
      · rw [heq2]
        exact hmas.2.2.1 i (by rw [hC1len]; exact hilt) hine
      · rw [heq2]
        exact hmas.2.2.2.2.2
    · by_cases hT : T
      · have heq2 : MoveExecutor.handle_capture_from_owner cell i ctx P T B =
            MoveExecutor.capture_tower cell
              (MoveExecutor.remove_from_faction_structures i cell ctx) := by
          rw [heq]; simp only [if_neg hP, if_pos hT]
        have hctmy := ct_faction_my cell
          (MoveExecutor.remove_from_faction_structures i cell ctx) hCm
        rw [hC1my, hC1my'] at hctmy
        have hcto : ∀ j, j ≠ ctx.my_faction →
            (MoveExecutor.capture_tower cell
              (MoveExecutor.remove_from_faction_structures i cell ctx)).faction j =
              (MoveExecutor.remove_from_faction_structures i cell ctx).faction j := by
          intro j hne
          exact ct_faction_other cell _ (by rw [hC1my]; exact hne)
        refine ⟨?_, ?_, ?_, ?_, fun hc => absurd hc hb, fun _ => ⟨?_, ?_⟩⟩
        · rw [heq2, (ct_fields cell _).2, hC1len]
        · intro j hj hne
          rw [heq2, hcto j hne]
          exact hC1sh j hne
        · rw [heq2, hctmy]
          rfl
        · intro x hx
          rw [heq2, hctmy] at hx
          rcases (add_fortress_sets _ cell x).mp hx with hx | hx
          · exact Or.inr (Or.inl hx)
          · rcases (add_tower_sets _ cell x).mp hx with hx | hx
            · exact Or.inr (Or.inl hx)
            · exact Or.inl hx
        · rw [heq2, hcto i hine, hC1i]
          exact strip_not_sets _ cell
        · rw [heq2, hctmy]
          exact (add_fortress_sets _ cell cell).mpr (Or.inl rfl)
      · have heq2 : MoveExecutor.handle_capture_from_owner cell i ctx P T B =
            MoveExecutor.add_fortress
              ((if B then (MoveExecutor.remove_from_faction_structures i cell
                  ctx).modifyFaction
                  (MoveExecutor.remove_from_faction_structures i cell ctx).my_faction
                  (fun f => f.add_bridge cell)
                else MoveExecutor.remove_from_faction_structures i cell ctx) :
                  MoveContext).my_faction cell
              ((if B then (MoveExecutor.remove_from_faction_structures i cell
                  ctx).modifyFaction
                  (MoveExecutor.remove_from_faction_structures i cell ctx).my_faction
                  (fun f => f.add_bridge cell)
                else MoveExecutor.remove_from_faction_structures i cell ctx) :
                  MoveContext) true := by
          rw [heq]; simp only [if_neg hP, if_neg hT]
        have htail := fb_tail cell
          (MoveExecutor.remove_from_faction_structures i cell ctx) B hCm
        have htmy : (MoveExecutor.handle_capture_from_owner cell i ctx
            P T B).faction ctx.my_faction =
            (if B then (ctx.faction ctx.my_faction).add_bridge cell
              else ctx.faction ctx.my_faction).add_fortress cell := by
          rw [heq2, ← hC1my, htail.2.2, hC1my, hC1my']
        refine ⟨?_, ?_, ?_, ?_, fun hc => absurd hc hb, fun _ => ⟨?_, ?_⟩⟩
        · rw [heq2, htail.1, hC1len]
        · intro j hj hne
          rw [heq2, htail.2.1 j (by rw [hC1my]; exact hne)]
          exact hC1sh j hne
        · rw [htmy]
          split_ifs <;> rfl
        · intro x hx
          rw [htmy] at hx
          rcases (add_fortress_sets _ cell x).mp hx with hx | hx
          · exact Or.inr (Or.inl hx)
          · by_cases hB : B
            · rw [if_pos hB] at hx
              rcases (add_bridge_sets _ cell x).mp hx with hx | hx
              · exact Or.inr (Or.inl hx)
              · exact Or.inl hx
            · rw [if_neg hB] at hx
              exact Or.inl hx
        · rw [heq2, htail.2.1 i (by rw [hC1my]; exact hine), hC1i]
          exact strip_not_sets _ cell
        · rw [htmy]
          exact (add_fortress_sets _ cell cell).mpr (Or.inl rfl)

/- Summary of the water branch's bridge-then-fortress tail. -/
theorem wb_tail (cell : Coord) (ctx : MoveContext)
    (hm : ctx.my_faction < ctx.factions.length) :
    (MoveExecutor.add_fortress ctx.my_faction cell
      (({ ctx with world := ctx.world.build_bridge cell } : MoveContext).modifyFaction
        ctx.my_faction (fun f => f.add_bridge cell)) true).factions.length =
      ctx.factions.length ∧
    (∀ j, j ≠ ctx.my_faction →
      (MoveExecutor.add_fortress ctx.my_faction cell
        (({ ctx with world := ctx.world.build_bridge cell } : MoveContext).modifyFaction
          ctx.my_faction (fun f => f.add_bridge cell)) true).faction j =
        ctx.faction j) ∧
    (MoveExecutor.add_fortress ctx.my_faction cell
      (({ ctx with world := ctx.world.build_bridge cell } : MoveContext).modifyFaction
        ctx.my_faction (fun f => f.add_bridge cell)) true).faction ctx.my_faction =
      ((ctx.faction ctx.my_faction).add_bridge cell).add_fortress cell := by
  have h1 : ctx.my_faction <
      (({ ctx with world := ctx.world.build_bridge cell } : MoveContext).modifyFaction
        ctx.my_faction (fun f => f.add_bridge cell)).factions.length := by
    rw [modifyFaction_length, update_world_length]; exact hm
  have h0 : ctx.my_faction <
      ({ ctx with world := ctx.world.build_bridge cell } : MoveContext).factions.length := by
    rw [update_world_length]; exact hm
  refine ⟨?_, ?_, ?_⟩
  · simp only [add_fortress_true]
    rw [record_age_length, modifyFaction_length, modifyFaction_length,
      update_world_length]
  · intro j hne
    have hne' : ctx.my_faction ≠ j := fun h => hne h.symm
    simp only [add_fortress_true]
    rw [record_age_faction, modifyFaction_faction_ne _ _ hne',
      modifyFaction_faction_ne _ _ hne', update_world_faction]
  · simp only [add_fortress_true]
    rw [record_age_faction, modifyFaction_faction_self _ _ _ h1,
      modifyFaction_faction_self _ _ _ h0, update_world_faction]

/- Unfolding of the no-living-owner branch when the target is water. -/
theorem nlo_water_eq (cell : Coord) (r : BuildResult) (ctx c1 : MoveContext)
    (W B P T : Prop) [Decidable W] [Decidable B] [Decidable P] [Decidable T]
    (hW : W) (hc : MoveExecutor.cleanup_dead_factions cell ctx = c1) :
    MoveExecutor.apply.apply_no_living_owner cell r ctx W B P T =
      MoveExecutor.add_fortress c1.my_faction cell
        (({ c1 with world := c1.world.build_bridge cell } : MoveContext).modifyFaction
          c1.my_faction (fun f => f.add_bridge cell)) true := by
  subst hc
  unfold MoveExecutor.apply.apply_no_living_owner
  simp only [if_pos hW]
  rfl

/- Summary of the no-living-owner branch for the ownership invariant:
every other faction only loses set members, and the acting faction
gains only the cell and, on a portal, its linked endpoint. -/
theorem nlo_core (cell : Coord) (r : BuildResult) (ctx : MoveContext)
    (W B P T : Prop) [Decidable W] [Decidable B] [Decidable P] [Decidable T]
    (hm : ctx.my_faction < ctx.factions.length) :
    (MoveExecutor.apply.apply_no_living_owner cell r ctx W B P T).factions.length =
      ctx.factions.length ∧
    (∀ j, j < ctx.factions.length → j ≠ ctx.my_faction →
      shadowOf (ctx.faction j)
        ((MoveExecutor.apply.apply_no_living_owner cell r ctx W B P T).faction j)) ∧
    (((MoveExecutor.apply.apply_no_living_owner cell r ctx W B P T).faction
        ctx.my_faction).alive = true →
      (ctx.faction ctx.my_faction).alive = true) ∧
    (∀ x, ((MoveExecutor.apply.apply_no_living_owner cell r ctx W B P T).faction
        ctx.my_faction).in_category_sets x →
      (ctx.faction ctx.my_faction).in_category_sets x ∨ x = cell ∨
        (∀ j, j < ctx.factions.length → j ≠ ctx.my_faction →
          ¬((MoveExecutor.apply.apply_no_living_owner cell r ctx
            W B P T).faction j).in_category_sets x)) := by
  have hC1my : (MoveExecutor.cleanup_dead_factions cell ctx).my_faction =
      ctx.my_faction := (cleanup_fields cell ctx).1
  have hC1len : (MoveExecutor.cleanup_dead_factions cell ctx).factions.length =
      ctx.factions.length := (cleanup_fields cell ctx).2.2.2
  have hCm : (MoveExecutor.cleanup_dead_factions cell ctx).my_faction <
      (MoveExecutor.cleanup_dead_factions cell ctx).factions.length := by
    rw [hC1my, hC1len]; exact hm
  have hC1sh : ∀ j, j < ctx.factions.length →
      shadowOf (ctx.faction j)
        ((MoveExecutor.cleanup_dead_factions cell ctx).faction j) := by
    intro j hj
    by_cases ha : (ctx.faction j).alive = true
    · rw [cleanup_faction_alive cell ctx ha]
      exact shadowOf_refl _
    · rw [cleanup_faction_dead cell ctx (Bool.not_eq_true _ ▸ ha) hj]
      exact shadowOf_strip _ cell
  have hC1shmy := hC1sh ctx.my_faction hm
  by_cases hW : W
  · have heq := nlo_water_eq cell r ctx
      (MoveExecutor.cleanup_dead_factions cell ctx) W B P T hW rfl
    have htail := wb_tail cell (MoveExecutor.cleanup_dead_factions cell ctx) hCm
    refine ⟨?_, ?_, ?_, ?_⟩
    · rw [heq, htail.1, hC1len]
    · intro j hj hne
      rw [heq, htail.2.1 j (by rw [hC1my]; exact hne)]
      exact hC1sh j hj
    · intro h
      rw [heq, ← hC1my, htail.2.2] at h
      have h2 : ((MoveExecutor.cleanup_dead_factions cell ctx).faction
          (MoveExecutor.cleanup_dead_factions cell ctx).my_faction).alive = true := h
      rw [hC1my] at h2
      exact hC1shmy.1 h2
    · intro x hx
      rw [heq, ← hC1my, htail.2.2, hC1my] at hx
      rcases (add_fortress_sets _ cell x).mp hx with hx | hx
      · exact Or.inr (Or.inl hx)
      · rcases (add_bridge_sets _ cell x).mp hx with hx | hx
        · exact Or.inr (Or.inl hx)
        · exact Or.inl (hC1shmy.2 x hx)
  · by_cases hT : T
    · have heq : MoveExecutor.apply.apply_no_living_owner cell r ctx W B P T =
          MoveExecutor.capture_tower cell
            (MoveExecutor.cleanup_dead_factions cell ctx) := by
        unfold MoveExecutor.apply.apply_no_living_owner
        simp only [if_neg hW, if_pos hT]
      have hctmy := ct_faction_my cell
        (MoveExecutor.cleanup_dead_factions cell ctx) hCm
      have hcto : ∀ j, j ≠ ctx.my_faction →
          (MoveExecutor.capture_tower cell
            (MoveExecutor.cleanup_dead_factions cell ctx)).faction j =
            (MoveExecutor.cleanup_dead_factions cell ctx).faction j := by
        intro j hne
        exact ct_faction_other cell _ (by rw [hC1my]; exact hne)
      refine ⟨?_, ?_, ?_, ?_⟩
      · rw [heq, (ct_fields cell _).2, hC1len]
      · intro j hj hne
        rw [heq, hcto j hne]
        exact hC1sh j hj
      · intro h
        rw [heq, ← hC1my, hctmy] at h
        have h2 : ((MoveExecutor.cleanup_dead_factions cell ctx).faction
            (MoveExecutor.cleanup_dead_factions cell ctx).my_faction).alive = true := h
        rw [hC1my] at h2
        exact hC1shmy.1 h2
      · intro x hx
        rw [heq, ← hC1my, hctmy, hC1my] at hx
        rcases (add_fortress_sets _ cell x).mp hx with hx | hx
        · exact Or.inr (Or.inl hx)
        · rcases (add_tower_sets _ cell x).mp hx with hx | hx
          · exact Or.inr (Or.inl hx)
          · exact Or.inl (hC1shmy.2 x hx)
    · by_cases hP : P
      · have heq : MoveExecutor.apply.apply_no_living_owner cell r ctx W B P T =
            MoveExecutor.capture_portal cell
              (MoveExecutor.cleanup_dead_factions cell ctx) := by
          unfold MoveExecutor.apply.apply_no_living_owner
          simp only [if_neg hW, if_neg hT, if_pos hP]
        have hmas := cp_master cell
          (MoveExecutor.cleanup_dead_factions cell ctx) hCm
        rw [hC1my] at hmas
        refine ⟨?_, ?_, ?_, ?_⟩
        · rw [heq, hmas.1, hC1len]
        · intro j hj hne
          rw [heq]
          exact shadowOf_trans (hC1sh j hj)
            (hmas.2.1 j (by rw [hC1len]; exact hj) hne)
        · intro h
          rw [heq, hmas.2.2.2.2.1] at h
          exact hC1shmy.1 h
        · intro x hx
          rw [heq] at hx
          rcases hmas.2.2.2.1 x hx with hx | hx | hx
          · exact Or.inl (hC1shmy.2 x hx)
          · exact Or.inr (Or.inl hx)
          · refine Or.inr (Or.inr ?_)
            intro j hj hne
            rw [heq]
            exact hx j (by rw [hC1len]; exact hj) hne
      · by_cases hFB : (r.is_fortress = true) ∨ B
        · have heq : MoveExecutor.apply.apply_no_living_owner cell r ctx W B P T =
              MoveExecutor.add_fortress
                ((if B then (MoveExecutor.cleanup_dead_factions cell
                    ctx).modifyFaction
                    (MoveExecutor.cleanup_dead_factions cell ctx).my_faction
                    (fun f => f.add_bridge cell)
                  else MoveExecutor.cleanup_dead_factions cell ctx) :
                    MoveContext).my_faction cell
                ((if B then (MoveExecutor.cleanup_dead_factions cell
                    ctx).modifyFaction
                    (MoveExecutor.cleanup_dead_factions cell ctx).my_faction
                    (fun f => f.add_bridge cell)
                  else MoveExecutor.cleanup_dead_factions cell ctx) :
                    MoveContext) true := by
            unfold MoveExecutor.apply.apply_no_living_owner
            simp only [if_neg hW, if_neg hT, if_neg hP, if_pos hFB]
          have htail := fb_tail cell
            (MoveExecutor.cleanup_dead_factions cell ctx) B hCm
          have htmy : (MoveExecutor.apply.apply_no_living_owner cell r ctx
              W B P T).faction ctx.my_faction =
              (if B then ((MoveExecutor.cleanup_dead_factions cell ctx).faction
                  ctx.my_faction).add_bridge cell
                else (MoveExecutor.cleanup_dead_factions cell ctx).faction
                  ctx.my_faction).add_fortress cell := by
            rw [heq, ← hC1my, htail.2.2, hC1my]
          refine ⟨?_, ?_, ?_, ?_⟩
          · rw [heq, htail.1, hC1len]
          · intro j hj hne
            rw [heq, htail.2.1 j (by rw [hC1my]; exact hne)]
            exact hC1sh j hj
          · intro h
            rw [htmy] at h
            have h2 : ((MoveExecutor.cleanup_dead_factions cell ctx).faction
                ctx.my_faction).alive = true := by
              by_cases hB : B
              · rw [if_pos hB] at h
                exact h
              · rw [if_neg hB] at h
                exact h
            exact hC1shmy.1 h2
          · intro x hx
            rw [htmy] at hx
            rcases (add_fortress_sets _ cell x).mp hx with hx | hx
            · exact Or.inr (Or.inl hx)
            · by_cases hB : B
              · rw [if_pos hB] at hx
                rcases (add_bridge_sets _ cell x).mp hx with hx | hx
                · exact Or.inr (Or.inl hx)
                · exact Or.inl (hC1shmy.2 x hx)
              · rw [if_neg hB] at hx
                exact Or.inl (hC1shmy.2 x hx)
        · have heq : MoveExecutor.apply.apply_no_living_owner cell r ctx W B P T =
              (MoveExecutor.cleanup_dead_factions cell ctx).modifyFaction
                (MoveExecutor.cleanup_dead_factions cell ctx).my_faction
                (fun f => f.add_territory cell) := by
            unfold MoveExecutor.apply.apply_no_living_owner
            simp only [if_neg hW, if_neg hT, if_neg hP, if_neg hFB]
          refine ⟨?_, ?_, ?_, ?_⟩
          · rw [heq, modifyFaction_length, hC1len]
          · intro j hj hne
            rw [heq, modifyFaction_faction_ne _ _
              (by rw [hC1my]; exact fun h => hne h.symm)]
            exact hC1sh j hj
          · intro h
            rw [heq, ← hC1my, modifyFaction_faction_self _ _ _ hCm] at h
            have h2 : ((MoveExecutor.cleanup_dead_factions cell ctx).faction
                (MoveExecutor.cleanup_dead_factions cell ctx).my_faction).alive =
                true := h
            rw [hC1my] at h2
            exact hC1shmy.1 h2
          · intro x hx
            rw [heq, ← hC1my, modifyFaction_faction_self _ _ _ hCm, hC1my] at hx
            rcases (add_territory_sets _ cell x).mp hx with hx | hx
            · exact Or.inr (Or.inl hx)
            · exact Or.inl (hC1shmy.2 x hx)

/- Core preservation argument: if every other faction only shrinks, the
acting faction gains only the target (exclusively held afterwards) or a
cell no one else holds, then pairwise-exclusive ownership of the five
category sets survives the call. -/
theorem holder_core (ctx A : MoveContext) (cell : Coord)
    (hlen : A.factions.length = ctx.factions.length)
    (hsh : ∀ j, j < ctx.factions.length → j ≠ ctx.my_faction →
      shadowOf (ctx.faction j) (A.faction j))
    (hmyA : (A.faction ctx.my_faction).alive = true →
      (ctx.faction ctx.my_faction).alive = true)
    (hmyG : ∀ x, (A.faction ctx.my_faction).in_category_sets x →
      (ctx.faction ctx.my_faction).in_category_sets x ∨ x = cell ∨
        (∀ j, j < ctx.factions.length → j ≠ ctx.my_faction →
          ¬(A.faction j).in_category_sets x))
    (hexcl : ∀ k, k < ctx.factions.length → k ≠ ctx.my_faction →
      (A.faction k).alive = true → ¬(A.faction k).in_category_sets cell)
    (hpre : at_most_one_living_owner ctx.factions) :
    at_most_one_living_holder A.factions := by
  intro x i j hi hj hij hai haj hoi hoj
  have hi' : i < ctx.factions.length := hlen ▸ hi
  have hj' : j < ctx.factions.length := hlen ▸ hj
  by_cases hiM : i = ctx.my_faction
  · subst hiM
    have hjM : j ≠ ctx.my_faction := fun h => hij h.symm
    rcases hmyG x hoi with hx | hx | hx
    · have hja := (hsh j hj' hjM).1 haj
      have hjs := (hsh j hj' hjM).2 x hoj
      exact hpre x ctx.my_faction j hi' hj' hij (hmyA hai) hja (Or.inl hx)
        (Or.inl hjs)
    · subst hx
      exact hexcl j hj' hjM haj hoj
    · exact hx j hj' hjM hoj
  · by_cases hjM : j = ctx.my_faction
    · subst hjM
      rcases hmyG x hoj with hx | hx | hx
      · have hia := (hsh i hi' hiM).1 hai
        have his := (hsh i hi' hiM).2 x hoi
        exact hpre x ctx.my_faction i hj' hi' (fun h => hij h.symm) (hmyA haj)
          hia (Or.inl hx) (Or.inl his)
      · subst hx
        exact hexcl i hi' hiM hai hoi
      · exact hx i hi' hiM hoi
    · have hia := (hsh i hi' hiM).1 hai
      have hja := (hsh j hj' hjM).1 haj
      have his := (hsh i hi' hiM).2 x hoi
      have hjs := (hsh j hj' hjM).2 x hoj
      exact hpre x i j hi' hj' hij hia hja (Or.inl his) (Or.inl hjs)

theorem mwrap_factions (P : Prop) [Decidable P] (c1 : MoveContext) (cell : Coord) :
    ((if P then { c1 with converted_mountains := insert cell c1.converted_mountains }
      else c1) : MoveContext).factions = c1.factions := by
  split_ifs <;> rfl

/- Exclusive holding survives the no-living-owner branch: retention of
the target by a living non-acting faction contradicts resolver
completeness or the pre-state invariant. -/
theorem nlo_holder (cell : Coord) (r : BuildResult) (ctx : MoveContext)
    (W B P T : Prop) [Decidable W] [Decidable B] [Decidable P] [Decidable T]
    (hm : ctx.my_faction < ctx.factions.length)
    (hcomp : ∀ k, k < ctx.factions.length →
      ctx.factions.getD k Faction.missing ≠ ctx.faction ctx.my_faction →
      (ctx.factions.getD k Faction.missing).alive = true →
      ¬(ctx.factions.getD k Faction.missing).owns cell)
    (hpre : at_most_one_living_owner ctx.factions) :
    at_most_one_living_holder
      (MoveExecutor.apply.apply_no_living_owner cell r ctx W B P T).factions := by
  have hn := nlo_core cell r ctx W B P T hm
  refine holder_core ctx _ cell hn.1 hn.2.1 hn.2.2.1 hn.2.2.2 ?_ hpre
  intro k hk hkne hka hks
  have hsk := hn.2.1 k hk hkne
  have hcka := hsk.1 hka
  have hcks := hsk.2 cell hks
  by_cases hkval : ctx.faction k = ctx.faction ctx.my_faction
  · have hmya : (ctx.faction ctx.my_faction).alive = true := by
      rw [← hkval]; exact hcka
    have hmys : (ctx.faction ctx.my_faction).in_category_sets cell := by
      rw [← hkval]; exact hcks
    exact (hpre cell ctx.my_faction k hm hk (fun h => hkne h.symm)
      hmya hcka (Or.inl hmys)) (Or.inl hcks)
  · exact (hcomp k hk hkval hcka) (Or.inl hcks)

/-- C1 (amended): starting from a state where every coordinate is owned
(five category sets or base) by at most one living faction, one
`MoveExecutor.apply` call whose result carries the owner that
`OwnerResolver.resolve` computes for the target leaves every coordinate
in the five per-category ownership sets of at most one living faction;
and a cell taken from a living owner other than its base is removed
from that owner's category sets in the same call in which it is added
to the acting faction's sets. The claim's base-inclusive form of the
post-condition fails: capturing a portal whose linked endpoint is a
living faction's base places the endpoint in the acting faction's
portal set while it remains the victim's base. -/
theorem executor_exclusive_ownership (cell : Coord) (r : BuildResult)
    (ctx : MoveContext)
    (hm : ctx.my_faction < ctx.factions.length)
    (hres : r.owner = (OwnerResolver.resolve cell (ctx.faction ctx.my_faction)
      ctx.factions ctx.world).owner)
    (hpre : at_most_one_living_owner ctx.factions) :
    at_most_one_living_holder (MoveExecutor.apply cell r ctx).factions ∧
    (∀ i, r.owner = some i → (ctx.faction i).alive = true →
      cell ≠ (ctx.faction i).base →
      ¬((MoveExecutor.apply cell r ctx).faction i).in_category_sets cell ∧
      ((MoveExecutor.apply cell r ctx).faction
        ctx.my_faction).in_category_sets cell) := by
  cases hro : r.owner with
  | none =>
    have hrn : (OwnerResolver.resolve cell (ctx.faction ctx.my_faction)
        ctx.factions ctx.world).owner = none := by rw [← hres, hro]
    have hcomp := resolve_first_pass_none (Or.inl hrn)
    have happ := apply_owner_none cell r ctx hro
    constructor
    · rw [happ]
      simp only [mwrap_factions]
      exact nlo_holder cell r ctx _ _ _ _ hm hcomp hpre
    · intro i0 h0
      cases h0
  | some i =>
    by_cases ha : (ctx.faction i).alive = true
    · have hsome : (OwnerResolver.resolve cell (ctx.faction ctx.my_faction)
          ctx.factions ctx.world).owner = some i := by rw [← hres, hro]
      obtain ⟨hilt, hneval, hown⟩ := resolve_some_facts hsome
      have hine : i ≠ ctx.my_faction := by
        intro h
        subst h
        exact hneval rfl
      have happ := apply_owner_alive cell r ctx i hro ha
      have hh := handle_core cell i ctx
        (ctx.world.get_terrain_type cell = TerrainType.PORTAL)
        (ctx.world.get_terrain_type cell = TerrainType.TOWER ∨
          ctx.world.has_neutral_tower cell)
        (ctx.world.get_terrain_type cell = TerrainType.BRIDGE)
        hm hilt hine
      have hfac : ∀ j, (MoveExecutor.apply cell r ctx).faction j =
          (MoveExecutor.handle_capture_from_owner cell i ctx
            (ctx.world.get_terrain_type cell = TerrainType.PORTAL)
            (ctx.world.get_terrain_type cell = TerrainType.TOWER ∨
              ctx.world.has_neutral_tower cell)
            (ctx.world.get_terrain_type cell = TerrainType.BRIDGE)).faction j := by
        intro j
        rw [happ]
        exact mwrap_faction _ _ cell j
      have hfl : (MoveExecutor.apply cell r ctx).factions =
          (MoveExecutor.handle_capture_from_owner cell i ctx
            (ctx.world.get_terrain_type cell = TerrainType.PORTAL)
            (ctx.world.get_terrain_type cell = TerrainType.TOWER ∨
              ctx.world.has_neutral_tower cell)
            (ctx.world.get_terrain_type cell = TerrainType.BRIDGE)).factions := by
        rw [happ]
        exact mwrap_factions _ _ cell
      constructor
      · rw [hfl]
        refine holder_core ctx _ cell hh.1 hh.2.1
          (fun h => by rw [← hh.2.2.1]; exact h) hh.2.2.2.1 ?_ hpre
        intro k hk hkne hka hks
        by_cases hki : k = i
        · subst hki
          by_cases hbc : cell = (ctx.faction k).base
          · have h5 := hh.2.2.2.2.1 hbc
            rw [h5] at hka
            simp at hka
          · exact (hh.2.2.2.2.2 hbc).1 hks
        · have hsk := hh.2.1 k hk hkne
          have hcka := hsk.1 hka
          have hcks := hsk.2 cell hks
          exact (hpre cell i k hilt hk (fun h => hki h.symm) ha hcka hown)
            (Or.inl hcks)
      · intro i0 h0 ha0 hb0
        have hii : i0 = i := (Option.some_inj.mp h0).symm
        rw [hii] at ha0 hb0 ⊢
        constructor
        · rw [hfac i]
          exact (hh.2.2.2.2.2 hb0).1
        · rw [hfac ctx.my_faction]
          exact (hh.2.2.2.2.2 hb0).2
    · have ha' : (ctx.faction i).alive = false := by
        cases hv : (ctx.faction i).alive with
        | false => rfl
        | true => exact absurd hv ha
      have hsome : (OwnerResolver.resolve cell (ctx.faction ctx.my_faction)
          ctx.factions ctx.world).owner = some i := by rw [← hres, hro]
      have hcomp := resolve_first_pass_none (Or.inr ⟨i, hsome, ha'⟩)
      have happ := apply_owner_dead cell r ctx i hro ha'
      constructor
      · rw [happ]
        simp only [mwrap_factions]
        exact nlo_holder cell r ctx _ _ _ _ hm hcomp hpre
      · intro i0 h0 ha0
        have hii : i0 = i := (Option.some_inj.mp h0).symm
        rw [hii] at ha0
        exact fun _ => absurd ha0 ha

/-- C1 counterexample: faction A captures the unowned portal (1,0)
whose link leads to (2,0), faction B's base. The pre-state satisfies
the base-inclusive exclusive-ownership invariant and the result carries
the resolver's owner (none), yet afterwards (2,0) is owned by both A
(portal and fortress sets) and the still-living B (base), so the
invariant as claimed is not preserved. -/
theorem executor_exclusive_counterexample :
    at_most_one_living_owner pbCtx.factions ∧
    ({ allowed := true } : BuildResult).owner =
      (OwnerResolver.resolve ⟨1, 0⟩ (pbCtx.faction 0) pbCtx.factions
        pbCtx.world).owner ∧
    ¬at_most_one_living_owner
      (MoveExecutor.apply ⟨1, 0⟩ { allowed := true } pbCtx).factions := by
  refine ⟨?_, by decide, ?_⟩
  · intro c i j hi hj hij hai haj hoi
    simp only [pbCtx, List.length_cons, List.length_nil] at hi hj
    interval_cases i <;> interval_cases j <;> try omega
    · simp only [pbCtx, List.getD_cons_zero, List.getD_cons_succ] at hoi ⊢
      simp only [pbFactionA, Faction.owns, Faction.in_category_sets,
        Finset.not_mem_empty, false_or, or_self] at hoi
      subst hoi
      decide
    · simp only [pbCtx, List.getD_cons_zero, List.getD_cons_succ] at hoi ⊢
      simp only [pbFactionB, Faction.owns, Faction.in_category_sets,
        Finset.not_mem_empty, false_or, or_self] at hoi
      subst hoi
      decide
  · intro h
    exact (h ⟨2, 0⟩ 0 1 (by decide) (by decide) (by decide) (by decide)
      (by decide) (by decide)) (by decide)

/-- C1 witness: faction A (base (0,0), territory (1,0)) captures (2,0)
from living faction B (base (3,0), territory (2,0)) with the resolver's
owner in the result; the amended invariant and the remove-then-add
conjunct follow from the theorem at this state. -/
theorem executor_exclusive_ownership_witness :
    at_most_one_living_holder
      (MoveExecutor.apply ⟨2, 0⟩ { allowed := true, owner := some 1 }
        wCtx).factions ∧
    (∀ i, ({ allowed := true, owner := some 1 } : BuildResult).owner = some i →
      (wCtx.faction i).alive = true →
      (⟨2, 0⟩ : Coord) ≠ (wCtx.faction i).base →
      ¬((MoveExecutor.apply ⟨2, 0⟩ { allowed := true, owner := some 1 }
        wCtx).faction i).in_category_sets ⟨2, 0⟩ ∧
      ((MoveExecutor.apply ⟨2, 0⟩ { allowed := true, owner := some 1 }
        wCtx).faction wCtx.my_faction).in_category_sets ⟨2, 0⟩) :=
  executor_exclusive_ownership ⟨2, 0⟩ { allowed := true, owner := some 1 } wCtx
    (by decide) (by decide)
    (by
      intro c i j hi hj hij hai haj hoi
      simp only [wCtx, List.length_cons, List.length_nil] at hi hj
      interval_cases i <;> interval_cases j <;> try omega
      · simp only [wCtx, List.getD_cons_zero, List.getD_cons_succ] at hoi ⊢
        simp only [wFactionA, Faction.owns, Faction.in_category_sets,
          Finset.mem_singleton, Finset.not_mem_empty, false_or, or_false,
          or_self] at hoi
        rcases hoi with hoi | hoi <;> subst hoi <;> decide
      · simp only [wCtx, List.getD_cons_zero, List.getD_cons_succ] at hoi ⊢
        simp only [wFactionB, Faction.owns, Faction.in_category_sets,
          Finset.mem_singleton, Finset.not_mem_empty, false_or, or_false,
          or_self] at hoi
        rcases hoi with hoi | hoi <;> subst hoi <;> decide)
